import Mathlib

/-! ## Heap file layer (`heapfile.C`): a shallow embedding

The C++ classes `HeapFile`, `HeapFileScan` and `InsertFileScan` and the free
function `createHeapFile` are embedded as pure functions over an explicit
state: the fields of the handle object and the state of the page store the
handle talks to (`bufMgr`, `db`).  Pointers to buffer frames are page numbers
(`Option Int`, `none` for `NULL`), out-parameters are threaded through the
result, machine `int` arithmetic that can overflow is reduced modulo `2^32`.

The slotted page (`page.C`) and the page store (`db`, `bufMgr`, `File`) are not
part of `heapfile.C`; they are modelled from the interface the specification
gives for them.  The page store keeps one copy of every page together with its
pin count, so the dirty flag passed to `unPinPage` shows only in the log of
calls; a script of statuses lets any call to the page store fail.  The header
page is kept as a field of the store of its own.  An operation that dereferences
a null or dangling page pointer has no result (`none`), and so has the loop of
`scanNext` when its fuel runs out.
-/

namespace Heapfile

/-! ## Status codes, identifiers, records -/

/-- The status codes.  `OK`, `FILEEOF`, `NOSPACE`, `INVALIDRECLEN`, `BADSCANPARM`
and `FILEEXISTS` are named in `heapfile.C`; the others are what the slotted page
and the page store report (their header `error.h` is not part of the sources). -/
inductive Status
  | OK
  | FILEEOF
  | NOSPACE
  | INVALIDRECLEN
  | BADSCANPARM
  | FILEEXISTS
  | NORECORDS
  | ENDOFPAGE
  | INVALIDSLOTNO
  | PAGENOTPINNED
  | BADPAGENO
  | BUFFEREXCEEDED
  | UNIXERR
  | BADFILE
  deriving DecidableEq

/-- Record identifier: `struct RID { int pageNo; int slotNo; }`. -/
structure RID where
  pageNo : Int
  slotNo : Int
  deriving DecidableEq

/-- The constant `NULLRID` assigned to `curRec` by the constructor. -/
def NULLRID : RID := ⟨-1, -1⟩

/-- A record: `struct Record { void* data; int length; }`; `data` is the byte
sequence the pointer addresses (bytes are naturals below 256). -/
structure Record where
  data : List Nat
  length : Int
  deriving DecidableEq

/-- The enumeration `Datatype`; `other n` stands for a value of the enumeration
type that is none of the three enumerators. -/
inductive Datatype
  | STRING
  | INTEGER
  | FLOAT
  | other (n : Nat)
  deriving DecidableEq

/-- The enumeration `Operator`; `other n` stands for a value of the enumeration
type that is none of the six enumerators. -/
inductive Operator
  | LT
  | LTE
  | EQ
  | GTE
  | GT
  | NE
  | other (n : Nat)
  deriving DecidableEq

/-! ## Machine arithmetic -/

/-- Reduction of an integer to the range of a 32-bit two's complement `int`. -/
def wrapInt32 (x : Int) : Int := (x + 2147483648) % 4294967296 - 2147483648

/-- The integer `x` is a value of the 32-bit two's complement type `int`. -/
def isInt32 (x : Int) : Prop := -2147483648 ≤ x ∧ x ≤ 2147483647

instance (x : Int) : Decidable (isInt32 x) := by
  unfold isInt32
  infer_instance

/-- The `int` read by `memcpy` from a byte sequence (little endian, two's
complement); a missing byte reads as zero. -/
def decodeInt (bs : List Nat) : Int :=
  wrapInt32 ((bs.getD 0 0 % 256 : Nat) + 256 * (bs.getD 1 0 % 256 : Nat)
    + 65536 * (bs.getD 2 0 % 256 : Nat) + 16777216 * (bs.getD 3 0 % 256 : Nat))

/-- The four bytes `memcpy` stores for an `int` (little endian, two's complement). -/
def encodeInt (x : Int) : List Nat :=
  let u := (x % 4294967296).toNat
  [u % 256, u / 256 % 256, u / 65536 % 256, u / 16777216 % 256]

/-- The value of an IEEE 754 single precision number given by its four bytes,
scaled by `2^149` so that it is an integer; `none` for NaN, and the two
infinities are represented by values beyond every finite number. -/
def decodeFloat (bs : List Nat) : Option Int :=
  let u : Nat := (bs.getD 0 0 % 256) + 256 * (bs.getD 1 0 % 256)
    + 65536 * (bs.getD 2 0 % 256) + 16777216 * (bs.getD 3 0 % 256)
  let sign : Int := if u / 2147483648 = 1 then -1 else 1
  let e := u / 8388608 % 256
  let m := u % 8388608
  if e = 255 then (if m = 0 then some (sign * 2 ^ 300) else none)
  else if e = 0 then some (sign * m)
  else some (sign * ((8388608 + m) * 2 ^ (e - 1)))

/-- The sign information of the `float` difference `fattr - ffltr`: `none` when
the difference is NaN, otherwise an integer of the same sign (the difference of
two finite floats is zero exactly when they are equal). -/
def floatDiff (a b : List Nat) : Option Int :=
  match decodeFloat a, decodeFloat b with
  | some x, some y =>
      if x = y ∧ (x = 2 ^ 300 ∨ x = -(2 ^ 300 : Int)) then none else some (x - y)
  | _, _ => none

/-- The C library `strncmp` on byte sequences: compares at most `n` characters
as unsigned bytes and stops after a terminating zero byte; bytes past the end
of a sequence read as zero. -/
def strncmp : List Nat → List Nat → Nat → Int
  | _, _, 0 => 0
  | a, b, n + 1 =>
      let c1 := a.headD 0 % 256
      let c2 := b.headD 0 % 256
      if c1 ≠ c2 then (c1 : Int) - (c2 : Int)
      else if c1 = 0 then 0
      else strncmp a.tail b.tail n

/-! ## The scan predicate -/

/-- The filter fields of `HeapFileScan`: `offset`, `length`, `type`, `filter`
(`none` for `NULL`, otherwise the bytes the pointer addresses) and `op`. -/
structure ScanFilter where
  offset : Int
  length : Int
  type : Datatype
  filter : Option (List Nat)
  op : Operator
  deriving DecidableEq

/-- The comparison of the `float` variable `diff` with `0.0` under operator `op`
(the second `switch` of `matchRec`).  `diff` is represented by `none` for NaN and
otherwise by an integer of the same sign; converting the `int` difference to
`float` keeps its sign and keeps it non-zero. -/
def applyOp (op : Operator) (diff : Option Int) : Bool :=
  match op, diff with
  | .LT, some d => decide (d < 0)
  | .LTE, some d => decide (d ≤ 0)
  | .EQ, some d => decide (d = 0)
  | .GTE, some d => decide (d ≥ 0)
  | .GT, some d => decide (d > 0)
  | .NE, some d => decide (d ≠ 0)
  | .NE, none => true
  | _, _ => false

/-- Embeds `HeapFileScan::matchRec`, lines 426-493.  The sums and differences of `int`
values are taken modulo `2^32`. -/
def matchRec (f : ScanFilter) (rec : Record) : Bool :=
  match f.filter with
  | none => true
  | some filter =>
    if wrapInt32 (wrapInt32 (f.offset + f.length) - 1) ≥ rec.length then false
    else
      let attr := (rec.data.drop f.offset.toNat)
      let diff : Option Int :=
        match f.type with
        | .INTEGER =>
            some (wrapInt32 (decodeInt (attr.take f.length.toNat)
              - decodeInt (filter.take f.length.toNat)))
        | .FLOAT => floatDiff (attr.take f.length.toNat) (filter.take f.length.toNat)
        | .STRING => some (strncmp attr filter f.length.toNat)
        | .other _ => some 0
      applyOp f.op diff

/-- The `sizeof(int)` and `sizeof(float)` of `startScan`. -/
def sizeofInt : Int := 4

/-- The parameter check of `HeapFileScan::startScan`, lines 244-247. -/
def badScanParm (offset_ length_ : Int) (type_ : Datatype) (op_ : Operator) : Bool :=
  (decide (offset_ < 0) || decide (length_ < 1)) ||
  ((type_ != .INTEGER && type_ != .FLOAT && type_ != .STRING) ||
   (type_ == .INTEGER && decide (length_ ≠ sizeofInt)) ||
   (type_ == .FLOAT && decide (length_ ≠ sizeofInt)) ||
   (op_ != .LT && op_ != .LTE && op_ != .EQ && op_ != .GTE && op_ != .GT && op_ != .NE))

/-! ## The slotted page -/

/-- Modelled from the spec: the slotted data page (class `Page`, whose source
`page.C` is not part of the sources).  A page knows its own number, carries the
link to the next page of the chain (`-1` for none) and stores records in slots
addressed by slot number; a deleted record leaves its slot empty. -/
structure Page where
  curPage : Int
  nextPage : Int
  slots : List (Option Record)
  deriving DecidableEq

/-- The content of a page frame that was allocated and not yet initialised. -/
def rawPage : Page := ⟨0, 0, []⟩

/-- Modelled from the spec: `Page::init(pageNo)`, an empty page with the given
number and no successor. -/
def Page.init (_pg : Page) (pageNo : Int) : Page := ⟨pageNo, -1, []⟩

/-- Modelled from the spec: `Page::setNextPage`. -/
def Page.setNextPage (pg : Page) (pageNo : Int) : Page := { pg with nextPage := pageNo }

/-- Modelled from the spec: `Page::getNextPage`, which always succeeds. -/
def Page.getNextPage (pg : Page) : Status × Int := (.OK, pg.nextPage)

/-- The number of bytes taken by the records stored in a list of slots. -/
def usedBytes : List (Option Record) → Int
  | [] => 0
  | none :: rest => usedBytes rest
  | some r :: rest => r.length + usedBytes rest

/-- The first occupied slot of `slots`, whose first element has slot number `i`. -/
def firstOccupied : List (Option Record) → Nat → Option Nat
  | [], _ => none
  | some _ :: _, i => some i
  | none :: rest, i => firstOccupied rest (i + 1)

/-- Modelled from the spec: `Page::insertRecord(rec, rid)` with the usable
capacity `cap` of a page: the record goes into a new slot after the existing
ones when the page has room for it, otherwise the result is `NOSPACE` and
nothing changes. -/
def Page.insertRecord (cap : Int) (pg : Page) (rec : Record) (rid : RID) :
    Status × RID × Page :=
  if usedBytes pg.slots + rec.length ≤ cap then
    (.OK, ⟨pg.curPage, pg.slots.length⟩, { pg with slots := pg.slots ++ [some rec] })
  else (.NOSPACE, rid, pg)

/-- The record in slot `slotNo`, if that slot exists and is occupied. -/
def Page.slot? (pg : Page) (slotNo : Int) : Option Record :=
  if slotNo < 0 then none else (pg.slots.getD slotNo.toNat none)

/-- Modelled from the spec: `Page::getRecord(rid, rec)`. -/
def Page.getRecord (pg : Page) (rid : RID) (rec : Record) : Status × Record :=
  match pg.slot? rid.slotNo with
  | some r => (.OK, r)
  | none => (.INVALIDSLOTNO, rec)

/-- Modelled from the spec: `Page::deleteRecord(rid)`; the slot is emptied, and
a slot that holds no record is an error that leaves the page as it is. -/
def Page.deleteRecord (pg : Page) (rid : RID) : Status × Page :=
  match pg.slot? rid.slotNo with
  | some _ => (.OK, { pg with slots := pg.slots.set rid.slotNo.toNat none })
  | none => (.INVALIDSLOTNO, pg)

/-- Modelled from the spec: `Page::firstRecord(firstRid)`; `firstRid` is written
only on success. -/
def Page.firstRecord (pg : Page) (firstRid : RID) : Status × RID :=
  match firstOccupied pg.slots 0 with
  | some i => (.OK, ⟨pg.curPage, i⟩)
  | none => (.NORECORDS, firstRid)

/-- Modelled from the spec: `Page::nextRecord(curRid, nextRid)`, the first
occupied slot after slot `curRid.slotNo`; `nextRid` is written only on
success. -/
def Page.nextRecord (pg : Page) (curRid : RID) (nextRid : RID) : Status × RID :=
  let start := (curRid.slotNo + 1).toNat
  match firstOccupied (pg.slots.drop start) start with
  | some i => (.OK, ⟨pg.curPage, i⟩)
  | none => (.ENDOFPAGE, nextRid)

/-! ## The page store -/

/-- The calls made to the page store (`db` and `bufMgr`), as they are logged. -/
inductive Call
  | openFile
  | createFile
  | closeFile
  | getFirstPage
  | allocPage
  | readPage (pageNo : Int)
  | unPinPage (pageNo : Int) (dirty : Bool)
  | flushFile
  deriving DecidableEq

/-- The header page `FileHdrPage`. -/
structure FileHdrPage where
  fileName : List Char
  firstPage : Int
  lastPage : Int
  pageCnt : Int
  recCnt : Int
  deriving DecidableEq

/-- A page of the file in the buffer pool with its pin count. -/
structure Frame where
  page : Page
  pinCnt : Nat
  deriving DecidableEq

/-- Modelled from the spec: the page store for the one file the handle works on
(`db`, `bufMgr` and the `File` object, whose sources are not part of the
sources).  `created` tells whether the file exists, `openCnt` how many times it
is open, `firstPage` is what `File::getFirstPage` reports (`-1` before the first
allocation), `hdr` is the content of the header page seen as `FileHdrPage`,
`frames` lists the pages by page number with their pin counts.  `script` holds
the results the coming calls are made to return (an entry other than `OK` makes
the call fail without effect; an empty script lets every call run normally) and
`log` records the calls made, oldest first. -/
structure Store where
  created : Bool
  openCnt : Nat
  firstPage : Int
  hdr : FileHdrPage
  frames : List Frame
  script : List Status
  log : List Call
  deriving DecidableEq

/-- The result the script prescribes for the next call: its first entry, and
`OK` when the script is used up. -/
def nextStatus : List Status → Status
  | [] => .OK
  | st :: _ => st

/-- Logs call `c` and takes the next scripted result. -/
def Store.call (s : Store) (c : Call) : Status × Store :=
  (nextStatus s.script, { s with script := s.script.tail, log := s.log ++ [c] })

/-- The frame of page `p` in a list of frames indexed by page number. -/
def getFrame (fs : List Frame) (p : Int) : Option Frame :=
  if p < 0 then none else fs[p.toNat]?

/-- Replaces the frame of page `p` in a list of frames indexed by page number. -/
def putFrame (fs : List Frame) (p : Int) (f : Frame) : List Frame :=
  if p < 0 then fs else fs.set p.toNat f

/-- The frame of page `p`, if the file has such a page. -/
def Store.frame? (s : Store) (p : Int) : Option Frame := getFrame s.frames p

/-- Replaces the frame of page `p`. -/
def Store.setFrame (s : Store) (p : Int) (f : Frame) : Store :=
  { s with frames := putFrame s.frames p f }

/-- The page a frame pointer addresses; `none` for `NULL` and for a pointer to
a page the file does not have. -/
def Store.deref (s : Store) (ptr : Option Int) : Option Page :=
  match ptr with
  | none => none
  | some p => (s.frame? p).map (fun f => f.page)

/-- Writes page content through a frame pointer to page `p`. -/
def Store.setPage (s : Store) (p : Int) (pg : Page) : Store :=
  match s.frame? p with
  | some f => s.setFrame p { f with page := pg }
  | none => s

/-- Modelled from the spec: `bufMgr->allocPage(file, pageNo, page)`; the new page
gets the next unused page number and is returned pinned. -/
def allocPage (s : Store) : Status × Int × Store :=
  let r := s.call .allocPage
  if r.1 = .OK then
    let n : Int := r.2.frames.length
    (.OK, n, { r.2 with frames := r.2.frames ++ [⟨rawPage, 1⟩],
                        firstPage := if r.2.firstPage = -1 then n else r.2.firstPage })
  else (r.1, 0, r.2)

/-- Modelled from the spec: `bufMgr->readPage(file, pageNo, page)`; pins the
page, and fails for a page number the file does not have. -/
def readPage (s : Store) (p : Int) : Status × Store :=
  let r := s.call (.readPage p)
  if r.1 = .OK then
    match r.2.frame? p with
    | some f => (.OK, r.2.setFrame p { f with pinCnt := f.pinCnt + 1 })
    | none => (.BADPAGENO, r.2)
  else r

/-- Modelled from the spec: `bufMgr->unPinPage(file, pageNo, dirty)`; releases
one pin, and fails for a page that is not pinned. -/
def unPinPage (s : Store) (p : Int) (dirty : Bool) : Status × Store :=
  let r := s.call (.unPinPage p dirty)
  if r.1 = .OK then
    match r.2.frame? p with
    | some f =>
        if f.pinCnt = 0 then (.PAGENOTPINNED, r.2)
        else (.OK, r.2.setFrame p { f with pinCnt := f.pinCnt - 1 })
    | none => (.PAGENOTPINNED, r.2)
  else r

/-- Modelled from the spec: `db.openFile(fileName, file)`; fails when the file
does not exist. -/
def openFile (s : Store) : Status × Store :=
  let r := s.call .openFile
  if r.1 = .OK then
    if r.2.created then (.OK, { r.2 with openCnt := r.2.openCnt + 1 })
    else (.UNIXERR, r.2)
  else r

/-- Modelled from the spec: `db.createFile(fileName)`; a new file has only its
directory page, page number 0, which is never handed out. -/
def createFile (s : Store) : Status × Store :=
  let r := s.call .createFile
  if r.1 = .OK then
    if r.2.created then (.FILEEXISTS, r.2)
    else
      let fresh : Store :=
        { r.2 with created := true, openCnt := 0, firstPage := -1, hdr := ⟨[], 0, 0, 0, 0⟩ }
      (.OK, { fresh with frames := [⟨rawPage, 0⟩] })
  else r

/-- Modelled from the spec: `db.closeFile(file)`. -/
def closeFile (s : Store) : Status × Store :=
  let r := s.call .closeFile
  if r.1 = .OK then
    if r.2.openCnt = 0 then (.BADFILE, r.2)
    else (.OK, { r.2 with openCnt := r.2.openCnt - 1 })
  else r

/-- Modelled from the spec: `bufMgr->flushFile(file)`; the store keeps a single
copy of every page, so nothing changes. -/
def flushFile (s : Store) : Status × Store := s.call .flushFile

/-- Modelled from the spec: `file->getFirstPage(pageNo)`; `pageNo` is written
only on success. -/
def getFirstPage (s : Store) (pageNo : Int) : Status × Int × Store :=
  let r := s.call .getFirstPage
  if r.1 = .OK then (.OK, r.2.firstPage, r.2) else (r.1, pageNo, r.2)

/-- Applies `f` to the page behind a frame pointer to page `p`. -/
def Store.modifyPage (s : Store) (p : Int) (f : Page → Page) : Store :=
  match s.frame? p with
  | some fr => s.setFrame p { fr with page := f fr.page }
  | none => s

/-! ## File creation -/

/-- Embeds `createHeapFile`, lines 7-87.  The header page is the first page allocated,
so its content is the `hdr` field of the store. -/
def createHeapFile (fileName : List Char) (s : Store) : Status × Store :=
  let o := openFile s
  if o.1 ≠ .OK then
    let c := createFile o.2
    if c.1 ≠ .OK then (c.1, c.2)
    else
      let o2 := openFile c.2
      if o2.1 ≠ .OK then (o2.1, o2.2)
      else
        let a := allocPage o2.2
        if a.1 ≠ .OK then (a.1, a.2.2)
        else
          let hdrPageNo := a.2.1
          let s1 : Store := { a.2.2 with hdr := { a.2.2.hdr with fileName := fileName } }
          let b := allocPage s1
          if b.1 ≠ .OK then (b.1, b.2.2)
          else
            let newPageNo := b.2.1
            let s2 := b.2.2.modifyPage newPageNo (fun pg => pg.init newPageNo)
            let s3 := s2.modifyPage newPageNo (fun pg => pg.setNextPage (-1))
            let hd : FileHdrPage :=
              { s3.hdr with firstPage := newPageNo, lastPage := newPageNo, pageCnt := 1, recCnt := 0 }
            let s4 : Store := { s3 with hdr := hd }
            let u1 := unPinPage s4 hdrPageNo true
            let u2 := unPinPage u1.2 newPageNo true
            let fl := flushFile u2.2
            let cl := closeFile fl.2
            (.OK, cl.2)
  else (.FILEEXISTS, o.2)

/-! ## The handle -/

/-- The data members of `HeapFile`.  `curPage` is the pointer to the frame of the
pinned data page, given by the number of the page in that frame.  The header
page is reached through the store (`Store.hdr`). -/
structure HeapFile where
  headerPageNo : Int
  hdrDirtyFlag : Bool
  curPage : Option Int
  curPageNo : Int
  curDirtyFlag : Bool
  curRec : RID
  deriving DecidableEq

/-- The data members of `HeapFileScan`: those of `HeapFile`, the filter and the
mark. -/
structure HeapFileScan extends HeapFile, ScanFilter where
  markedPageNo : Int
  markedRec : RID
  deriving DecidableEq

/-- Embeds `HeapFile::HeapFile`, lines 96-149.  `h` holds the indeterminate initial
values of the members, `returnStatus` that of the caller's variable, and `wild`
is what the uninitialised `page_ptr` addresses when the header page could not
be read. -/
def HeapFile.construct (h : HeapFile) (wild : FileHdrPage) (s : Store)
    (returnStatus : Status) : Status × HeapFile × Store :=
  let o := openFile s
  if o.1 = .OK then
    let g := getFirstPage o.2 (-1)
    let rs1 := if g.1 ≠ .OK then g.1 else returnStatus
    let pageNo := g.2.1
    let r := readPage g.2.2 pageNo
    let _rs2 := if r.1 ≠ .OK then r.1 else rs1
    let headerPage : FileHdrPage := if r.1 = .OK then r.2.hdr else wild
    let h1 : HeapFile := { h with headerPageNo := pageNo, hdrDirtyFlag := false }
    let firstPageNo := headerPage.firstPage
    let r2 := readPage r.2 firstPageNo
    if r2.1 ≠ .OK then (r2.1, h1, r2.2)
    else
      let h2 : HeapFile := { h1 with curPage := some firstPageNo, curPageNo := firstPageNo }
      (.OK, { h2 with curDirtyFlag := false, curRec := NULLRID }, r2.2)
  else (o.1, h, o.2)

/-- Embeds `HeapFile::getRecCnt`, lines 187-190. -/
def HeapFile.getRecCnt (_h : HeapFile) (s : Store) : Int := s.hdr.recCnt

/-- Embeds `HeapFile::getRecord`, lines 197-224.  The result is `none` when a null or
dangling page pointer is dereferenced. -/
def HeapFile.getRecord (h : HeapFile) (s : Store) (rid : RID) (rec : Record) :
    Option (Status × Record × HeapFile × Store) :=
  if h.curPage.isSome ∧ h.curPageNo = rid.pageNo then
    let h1 : HeapFile := { h with curRec := rid }
    match s.deref h1.curPage with
    | none => none
    | some pg =>
        let g := pg.getRecord h1.curRec rec
        some (g.1, g.2, h1, s)
  else
    let u := unPinPage s h.curPageNo h.curDirtyFlag
    if u.1 ≠ .OK then some (u.1, rec, h, u.2)
    else
      let h1 : HeapFile := { h with curPageNo := rid.pageNo, curRec := rid, curDirtyFlag := false }
      let r := readPage u.2 h1.curPageNo
      if r.1 ≠ .OK then some (r.1, rec, h1, r.2)
      else
        let h2 : HeapFile := { h1 with curPage := some h1.curPageNo }
        match r.2.deref h2.curPage with
        | none => none
        | some pg =>
            let g := pg.getRecord h2.curRec rec
            some (g.1, g.2, h2, r.2)

/-- Embeds `HeapFileScan::HeapFileScan`, lines 226-230. -/
def HeapFileScan.construct (h : HeapFileScan) (wild : FileHdrPage) (s : Store)
    (status : Status) : Status × HeapFileScan × Store :=
  let c := HeapFile.construct h.toHeapFile wild s status
  (c.1, { h with toHeapFile := c.2.1, filter := none }, c.2.2)

/-- Embeds `HeapFileScan::startScan`, lines 232-259. -/
def HeapFileScan.startScan (h : HeapFileScan) (offset_ length_ : Int) (type_ : Datatype)
    (filter_ : Option (List Nat)) (op_ : Operator) : Status × HeapFileScan :=
  match filter_ with
  | none => (.OK, { h with filter := none })
  | some flt =>
    if badScanParm offset_ length_ type_ op_ then (.BADSCANPARM, h)
    else
      let h1 : HeapFileScan := { h with offset := offset_, length := length_, type := type_ }
      (.OK, { h1 with filter := some flt, op := op_ })

/-- Embeds `HeapFileScan::endScan`, lines 261-274. -/
def HeapFileScan.endScan (h : HeapFileScan) (s : Store) : Status × HeapFileScan × Store :=
  if h.curPage.isSome then
    let u := unPinPage s h.curPageNo h.curDirtyFlag
    (u.1, { h with curPage := none, curPageNo := 0, curDirtyFlag := false }, u.2)
  else (.OK, h, s)

/-- Embeds `HeapFileScan::markScan`, lines 281-287. -/
def HeapFileScan.markScan (h : HeapFileScan) : Status × HeapFileScan :=
  (.OK, { h with markedPageNo := h.curPageNo, markedRec := h.curRec })

/-- Embeds `HeapFileScan::resetScan`, lines 289-312. -/
def HeapFileScan.resetScan (h : HeapFileScan) (s : Store) : Status × HeapFileScan × Store :=
  if h.markedPageNo ≠ h.curPageNo then
    let u := if h.curPage.isSome then unPinPage s h.curPageNo h.curDirtyFlag else (.OK, s)
    if h.curPage.isSome ∧ u.1 ≠ .OK then (u.1, h, u.2)
    else
      let h1 : HeapFileScan := { h with curPageNo := h.markedPageNo, curRec := h.markedRec }
      let r := readPage u.2 h1.curPageNo
      if r.1 ≠ .OK then (r.1, h1, r.2)
      else (.OK, { h1 with curPage := some h1.curPageNo, curDirtyFlag := false }, r.2)
  else (.OK, { h with curRec := h.markedRec }, s)

/-- The outcome of one pass through the body of the loop of `scanNext`: the
function returns, or the loop goes round again with the given values of
`firstRecStatus`, `nextRecStatus` and `recordStatus`. -/
inductive ScanStep
  | ret (r : Status × RID × HeapFileScan × Store)
  | next (firstRecStatus nextRecStatus recordStatus : Status) (h : HeapFileScan) (s : Store)

/-- Lines 382-390 of `scanNext`: fetch the current record and test it.  The local
`rec` is read only after `getRecord` has written it. -/
def HeapFileScan.scanTail (firstRecStatus nextRecStatus : Status) (h : HeapFileScan)
    (s : Store) (outRid : RID) : Option ScanStep :=
  match s.deref h.curPage with
  | none => none
  | some pg =>
      let g := pg.getRecord h.curRec ⟨[], 0⟩
      if g.1 ≠ .OK then some (.ret (g.1, outRid, h, s))
      else if matchRec h.toScanFilter g.2 then some (.ret (.OK, h.curRec, h, s))
      else some (.next firstRecStatus nextRecStatus g.1 h s)

/-- Lines 344-390 of `scanNext`: one pass through the loop body.  The local
`nextRid` is read only after `nextRecord` has written it. -/
def HeapFileScan.scanStep (firstRecStatus nextRecStatus recordStatus : Status)
    (h : HeapFileScan) (s : Store) (outRid : RID) : Option ScanStep :=
  match s.deref h.curPage with
  | none => none
  | some pg =>
      let nr := if firstRecStatus = .OK then pg.nextRecord h.curRec NULLRID
                else (nextRecStatus, NULLRID)
      let h1 : HeapFileScan :=
        if firstRecStatus = .OK ∧ nr.1 = .OK then { h with curRec := nr.2 } else h
      if nr.1 ≠ .OK then
        let g := pg.getNextPage
        if g.1 ≠ .OK then some (.ret (g.1, outRid, h1, s))
        else if g.2 = -1 then some (.ret (.FILEEOF, outRid, h1, s))
        else
          let u := unPinPage s h1.curPageNo h1.curDirtyFlag
          if u.1 ≠ .OK then some (.ret (u.1, outRid, h1, u.2))
          else
            let h2 : HeapFileScan := { h1 with curPageNo := g.2, curDirtyFlag := false }
            let r := readPage u.2 h2.curPageNo
            if r.1 ≠ .OK then some (.ret (r.1, outRid, h2, r.2))
            else
              let h3 : HeapFileScan := { h2 with curPage := some h2.curPageNo }
              match r.2.deref h3.curPage with
              | none => none
              | some pg3 =>
                  let f := pg3.firstRecord h3.curRec
                  let h4 : HeapFileScan := { h3 with curRec := f.2 }
                  if f.1 ≠ .OK then some (.next f.1 nr.1 recordStatus h4 r.2)
                  else HeapFileScan.scanTail f.1 nr.1 h4 r.2 outRid
      else HeapFileScan.scanTail firstRecStatus nr.1 h1 s outRid

/-- The `while` loop of `scanNext`, lines 342-393, run for at most `fuel` passes;
`none` when the fuel runs out or a null or dangling page pointer is
dereferenced. -/
def HeapFileScan.scanLoop : Nat → Status → Status → Status → Status → HeapFileScan → Store →
    RID → Option (Status × RID × HeapFileScan × Store)
  | 0, _, _, _, _, _, _, _ => none
  | fuel + 1, initialRecStatus, recordStatus, firstRecStatus, nextRecStatus, h, s, outRid =>
      if initialRecStatus = .OK ∨ recordStatus = .OK then
        match HeapFileScan.scanStep firstRecStatus nextRecStatus recordStatus h s outRid with
        | none => none
        | some (.ret r) => some r
        | some (.next f n rs h1 s1) =>
            HeapFileScan.scanLoop fuel initialRecStatus rs f n h1 s1 outRid
      else some (.FILEEOF, outRid, h, s)

/-- Embeds `HeapFileScan::scanNext`, lines 314-394.  `tmpRid` is the indeterminate
initial value of the local of that name. -/
def HeapFileScan.scanNext (fuel : Nat) (tmpRid : RID) (h : HeapFileScan) (s : Store)
    (outRid : RID) : Option (Status × RID × HeapFileScan × Store) :=
  if h.curPage.isNone then
    let h1 : HeapFileScan := { h with curPageNo := s.hdr.firstPage, curDirtyFlag := false }
    let r := readPage s h1.curPageNo
    if r.1 ≠ .OK then some (r.1, outRid, h1, r.2)
    else
      let h2 : HeapFileScan := { h1 with curPage := some h1.curPageNo }
      match r.2.deref h2.curPage with
      | none => none
      | some pg =>
          let f := pg.firstRecord tmpRid
          if r.1 ≠ .OK then some (r.1, outRid, h2, r.2)
          else
            let h3 : HeapFileScan := { h2 with curRec := f.2 }
            HeapFileScan.scanLoop fuel f.1 .OK .OK .OK h3 r.2 outRid
  else HeapFileScan.scanLoop fuel .OK .OK .OK .OK h s outRid

/-- Embeds `HeapFileScan::getRecord`, lines 399-402. -/
def HeapFileScan.getRecord (h : HeapFileScan) (s : Store) (rec : Record) :
    Option (Status × Record) :=
  match s.deref h.curPage with
  | none => none
  | some pg => some (pg.getRecord h.curRec rec)

/-- Embeds `HeapFileScan::deleteRecord`, lines 405-417.  The count `recCnt` is an `int`:
the decrement is taken modulo `2^32`. -/
def HeapFileScan.deleteRecord (h : HeapFileScan) (s : Store) :
    Option (Status × HeapFileScan × Store) :=
  match h.curPage, s.deref h.curPage with
  | some q, some pg =>
      let d := pg.deleteRecord h.curRec
      let s1 := s.setPage q d.2
      let h1 : HeapFileScan := { h with curDirtyFlag := true }
      let s2 : Store := { s1 with hdr := { s1.hdr with recCnt := wrapInt32 (s1.hdr.recCnt - 1) } }
      some (d.1, { h1 with hdrDirtyFlag := true }, s2)
  | _, _ => none

/-- Embeds `HeapFileScan::markDirty`, lines 420-424. -/
def HeapFileScan.markDirty (h : HeapFileScan) : Status × HeapFileScan :=
  (.OK, { h with curDirtyFlag := true })

/-- Embeds `HeapFile::~HeapFile`, lines 152-183. -/
def HeapFile.destruct (h : HeapFile) (s : Store) : HeapFile × Store :=
  let a : HeapFile × Store :=
    if h.curPage.isSome then
      let u := unPinPage s h.curPageNo h.curDirtyFlag
      ({ h with curPage := none, curPageNo := 0, curDirtyFlag := false }, u.2)
    else (h, s)
  let u2 := unPinPage a.2 a.1.headerPageNo a.1.hdrDirtyFlag
  let c := closeFile u2.2
  (a.1, c.2)

/-- Embeds `HeapFileScan::~HeapFileScan`, lines 276-279, followed by the destructor of
the base class. -/
def HeapFileScan.destruct (h : HeapFileScan) (s : Store) : HeapFileScan × Store :=
  let e := HeapFileScan.endScan h s
  let d := HeapFile.destruct e.2.1.toHeapFile e.2.2
  ({ e.2.1 with toHeapFile := d.1 }, d.2)

/-! ## The inserter -/

/-- The class `InsertFileScan` adds no data member to `HeapFile`. -/
abbrev InsertFileScan := HeapFile

/-- Embeds `InsertFileScan::InsertFileScan`, lines 495-500. -/
def InsertFileScan.construct (h : InsertFileScan) (wild : FileHdrPage) (s : Store)
    (status : Status) : Status × InsertFileScan × Store :=
  HeapFile.construct h wild s status

/-- Embeds `InsertFileScan::~InsertFileScan`, lines 502-513, followed by the destructor
of the base class. -/
def InsertFileScan.destruct (h : InsertFileScan) (s : Store) : InsertFileScan × Store :=
  let a : HeapFile × Store :=
    if h.curPage.isSome then
      let u := unPinPage s h.curPageNo true
      ({ h with curPage := none, curPageNo := 0 }, u.2)
    else (h, s)
  HeapFile.destruct a.1 a.2

/-- Lines 528-549 of `insertRecord`: make the last page of the file the current
page.  A status other than `OK` is the value `insertRecord` returns at once. -/
def InsertFileScan.pinLastPage (h : InsertFileScan) (s : Store) :
    Option (Status × InsertFileScan × Store) :=
  if h.curPage.isNone ∨ h.curPageNo ≠ s.hdr.lastPage then
    let u := unPinPage s h.curPageNo h.curDirtyFlag
    if u.1 ≠ .OK then some (u.1, h, u.2)
    else
      let h1 : HeapFile := { h with curPageNo := u.2.hdr.lastPage }
      let r := readPage u.2 h1.curPageNo
      if r.1 ≠ .OK then some (r.1, h1, r.2)
      else
        let h2 : HeapFile := { h1 with curPage := some h1.curPageNo, curDirtyFlag := false }
        match r.2.deref h2.curPage with
        | none => none
        | some pg =>
            let f := pg.firstRecord h2.curRec
            some (f.1, { h2 with curRec := f.2 }, r.2)
  else some (.OK, h, s)

/-- Adds `d` to the record count of the header page, an `int`: the sum is taken
modulo `2^32`. -/
def Store.addRecCnt (s : Store) (d : Int) : Store :=
  { s with hdr := { s.hdr with recCnt := wrapInt32 (s.hdr.recCnt + d) } }

/-- Lines 559-612 of `insertRecord`: the current page has no room, a new page is
appended to the file and takes the record.  `cap` is `PAGESIZE - DPFIXED`.  The
counts `pageCnt` and `recCnt` are `int` fields: the increments are taken modulo
`2^32`. -/
def InsertFileScan.insertOverflow (cap : Int) (h : InsertFileScan) (q : Int) (s : Store)
    (rec : Record) (outRid : RID) : Option (Status × RID × InsertFileScan × Store) :=
  let a := allocPage s
  if a.1 ≠ .OK then some (a.1, outRid, h, a.2.2)
  else
    let newPageNo := a.2.1
    let s1 := a.2.2.modifyPage newPageNo (fun pg => pg.init newPageNo)
    let hd : FileHdrPage :=
      { s1.hdr with lastPage := newPageNo, pageCnt := wrapInt32 (s1.hdr.pageCnt + 1) }
    let s2 : Store := { s1 with hdr := hd }
    let s3 := s2.modifyPage q (fun pg => pg.setNextPage newPageNo)
    let h1 : HeapFile := { h with curDirtyFlag := true }
    let u := unPinPage s3 h1.curPageNo h1.curDirtyFlag
    if u.1 ≠ .OK then some (u.1, outRid, h1, u.2)
    else
      let h2 : HeapFile := { h1 with curPageNo := u.2.hdr.lastPage }
      let r := readPage u.2 h2.curPageNo
      if r.1 ≠ .OK then some (r.1, outRid, h2, r.2)
      else
        let h3 : HeapFile := { h2 with curPage := some h2.curPageNo }
        match r.2.deref h3.curPage with
        | none => none
        | some pg =>
            let i := pg.insertRecord cap rec NULLRID
            if i.1 ≠ .OK then some (i.1, outRid, h3, r.2)
            else
              let s4 := r.2.setPage h2.curPageNo i.2.2
              let s5 := s4.addRecCnt 1
              let h4 : HeapFile := { h3 with curRec := i.2.1, curDirtyFlag := true }
              let s6 := s5.modifyPage h2.curPageNo (fun pg => pg.setNextPage (-1))
              let u2 := unPinPage s6 h4.curPageNo h4.curDirtyFlag
              if u2.1 ≠ .OK then some (u2.1, outRid, h4, u2.2)
              else some (.OK, i.2.1, h4, u2.2)

/-- Embeds `InsertFileScan::insertRecord`, lines 516-617, with the constants `PAGESIZE`
and `DPFIXED` of the page layout as parameters.  The local `rid` is read only
after `Page::insertRecord` has written it. -/
def InsertFileScan.insertRecord (PAGESIZE DPFIXED : Int) (h : InsertFileScan) (s : Store)
    (rec : Record) (outRid : RID) : Option (Status × RID × InsertFileScan × Store) :=
  if rec.length > PAGESIZE - DPFIXED then some (.INVALIDRECLEN, outRid, h, s)
  else
    match InsertFileScan.pinLastPage h s with
    | none => none
    | some p =>
        if p.1 ≠ .OK then some (p.1, outRid, p.2.1, p.2.2)
        else
          match p.2.1.curPage, p.2.2.deref p.2.1.curPage with
          | some q, some pg =>
              let i := pg.insertRecord (PAGESIZE - DPFIXED) rec NULLRID
              if i.1 = .OK then
                let s1 := p.2.2.setPage q i.2.2
                let h1 : HeapFile := { p.2.1 with curRec := i.2.1, curDirtyFlag := true }
                some (.OK, i.2.1, h1, s1.addRecCnt 1)
              else if i.1 = .NOSPACE then
                InsertFileScan.insertOverflow (PAGESIZE - DPFIXED) p.2.1 q p.2.2 rec outRid
              else some (i.1, outRid, p.2.1, p.2.2)
          | _, _ => none

/-! ## Notions used to state the properties -/

/-- The pin count of page `p` (zero for a page the file does not have). -/
def Store.pinCnt (s : Store) (p : Int) : Nat :=
  match s.frame? p with
  | some f => f.pinCnt
  | none => 0

/-- The numbers of the pages other than the header page `hdrPageNo` that are
pinned, in increasing order. -/
def Store.pinnedDataPages (s : Store) (hdrPageNo : Int) : List Int :=
  ((List.range s.frames.length).map (fun (n : Nat) => (n : Int))).filter
    (fun p => decide (0 < s.pinCnt p) && decide (p ≠ hdrPageNo))

/-- The number of records stored on a page. -/
def Page.numRecords (pg : Page) : Nat := (pg.slots.filter (fun o => o.isSome)).length

/-- The next `n` calls to the page store are not made to fail by the script. -/
def scriptOk (n : Nat) (script : List Status) : Prop := ∀ st ∈ script.take n, st = .OK

/-- No call to the page store is made to fail by the script. -/
def quiet (script : List Status) : Prop := ∀ st ∈ script, st = .OK

instance (n : Nat) (script : List Status) : Decidable (scriptOk n script) := by
  unfold scriptOk
  infer_instance

instance (script : List Status) : Decidable (quiet script) := by
  unfold quiet
  infer_instance

/-- The number of `allocPage` calls in a log. -/
def allocCalls (log : List Call) : Nat := (log.filter (fun c => decide (c = .allocPage))).length

/-! ## The scan order, after the wording of the claims -/

/-- The occupied slots of `slots` with their records, in slot order; the first
element of `slots` has slot number `i`. -/
def occupiedFrom : List (Option Record) → Nat → List (Nat × Record)
  | [], _ => []
  | some r :: rest, i => (i, r) :: occupiedFrom rest (i + 1)
  | none :: rest, i => occupiedFrom rest (i + 1)

/-- The records of a page in the slots from `start` on, in slot order, each with
its RID. -/
def Page.recordsFrom (pg : Page) (start : Nat) : List (RID × Record) :=
  (occupiedFrom (pg.slots.drop start) start).map (fun x => (⟨pg.curPage, x.1⟩, x.2))

/-- The records of a page strictly after slot `k`, in slot order. -/
def Page.recordsAfter (pg : Page) (k : Int) : List (RID × Record) :=
  pg.recordsFrom (k + 1).toNat

/-- All records of a page, in slot order. -/
def Page.records (pg : Page) : List (RID × Record) := pg.recordsFrom 0

/-- All records of the pages of a chain, in page-chain order, then slot order. -/
def chainRecords : List Page → List (RID × Record)
  | [] => []
  | pg :: rest => pg.records ++ chainRecords rest

/-- The records strictly after the cursor position (first page of the chain,
slot `k`), in page-chain order, then slot order. -/
def candidates : List Page → Int → List (RID × Record)
  | [], _ => []
  | pg :: rest, k => pg.recordsAfter k ++ chainRecords rest

/-- The pages `chain` are a page chain of the file: each page is stored under its
own number, each links to the next, and the last links to the sentinel `-1`. -/
def IsChain (s : Store) : List Page → Prop
  | [] => False
  | [pg] => s.deref (some pg.curPage) = some pg ∧ pg.nextPage = -1
  | pg :: pg' :: rest =>
      s.deref (some pg.curPage) = some pg ∧ pg.nextPage = pg'.curPage ∧ pg.nextPage ≠ -1 ∧
        IsChain s (pg' :: rest)

instance IsChain.decidable (s : Store) : (chain : List Page) → Decidable (IsChain s chain)
  | [] => isFalse (fun h => h)
  | [pg] => by
      unfold IsChain
      infer_instance
  | pg :: pg' :: rest => by
      have := IsChain.decidable s (pg' :: rest)
      unfold IsChain
      infer_instance

/-- The scanner has its cursor pinned on the first page of `chain`, a page chain
of the file, and the page store makes no call fail. -/
structure Positioned (h : HeapFileScan) (s : Store) (chain : List Page) : Prop where
  isChain : IsChain s chain
  cur : h.curPage = some h.curPageNo
  head : chain.head?.map Page.curPage = some h.curPageNo
  pinned : 0 < s.pinCnt h.curPageNo
  quiet : quiet s.script

/-- The records the loop of `scanNext` has still to visit: with `firstRecStatus`
equal to `OK` those after the cursor position, otherwise (the current page
turned out empty) those of the pages after the current one. -/
def pending (firstRecStatus : Status) (chain : List Page) (k : Int) : List (RID × Record) :=
  if firstRecStatus = .OK then candidates chain k else chainRecords chain.tail

/-- What `scanNext` reports when the records `cands` of `chain` lie after the
cursor, in scan order: either `FILEEOF`, the out-parameter untouched and no
record of `cands` satisfying the filter; or `OK` with the first record `c` of
`cands` that satisfies the filter, the cursor now on `c`, pinned on its page, the
first page of the rest `chain'` of the chain, and the records after the new
cursor position being those that follow `c` in `cands`. -/
def ScanResult (flt : ScanFilter) (cands : List (RID × Record)) (chain : List Page)
    (outRid : RID) (r : Status × RID × HeapFileScan × Store) : Prop :=
  (r.1 = .FILEEOF ∧ r.2.1 = outRid ∧ ∀ c ∈ cands, matchRec flt c.2 = false) ∨
  (r.1 = .OK ∧ ∃ skipped c pre chain',
      cands = skipped ++ c :: candidates chain' c.1.slotNo ∧
      (∀ x ∈ skipped, matchRec flt x.2 = false) ∧ matchRec flt c.2 = true ∧
      r.2.1 = c.1 ∧ r.2.2.1.curRec = c.1 ∧ chain = pre ++ chain' ∧
      chain'.head?.map Page.curPage = some c.1.pageNo ∧
      Positioned r.2.2.1 r.2.2.2 chain' ∧ r.2.2.1.toScanFilter = flt)

/-- The scanner after it has moved to page `p` with current record `rid`. -/
def HeapFileScan.moveTo (h : HeapFileScan) (p : Int) (rid : RID) : HeapFileScan :=
  { h with curPageNo := p, curDirtyFlag := false, curPage := some p, curRec := rid }

/-- A store in which the file does not exist yet. -/
def emptyStore : Store := ⟨false, 0, -1, ⟨[], 0, 0, 0, 0⟩, [], [], []⟩

/-- The members of a handle before its constructor has run. -/
def blankHandle : HeapFile := ⟨0, false, none, 0, false, ⟨0, 0⟩⟩

/-- The members of a scanner before its constructor has run. -/
def blankScan : HeapFileScan :=
  { toHeapFile := blankHandle, offset := 0, length := 0, type := .STRING, filter := none,
    op := .EQ, markedPageNo := 0, markedRec := ⟨0, 0⟩ }

/-- A header content for the case where the header page could not be read. -/
def wildHdr : FileHdrPage := ⟨[], 0, 0, 0, 0⟩

/-- The store after `createHeapFile` has created the file. -/
def freshStore : Store := (createHeapFile ['f'] emptyStore).2

/-- A record of three bytes. -/
def rec3 : Record := ⟨[1, 2, 3], 3⟩

/-- An inserter opened on the fresh file, with its store. -/
def freshInserter : InsertFileScan × Store :=
  (InsertFileScan.construct blankHandle wildHdr freshStore .OK).2

/-- The fresh file after one record was inserted through `freshInserter`
(pages of 1024 bytes with 20 bytes of fixed overhead). -/
def oneRecordState : Option (Status × RID × InsertFileScan × Store) :=
  InsertFileScan.insertRecord 1024 20 freshInserter.1 freshInserter.2 rec3 NULLRID

/-- A scanner opened on the store `s`, with its store. -/
def scannerOn (s : Store) : HeapFileScan × Store :=
  (HeapFileScan.construct blankScan wildHdr s .OK).2

/-- One `scanNext` and then two `deleteRecord` calls of a scanner opened on the
file with one record: the status and record count after each call, and the
number of records on the data page after each call. -/
def deleteTwice : Option (List (Status × Int × Nat)) :=
  match oneRecordState with
  | none => none
  | some i =>
    let sc := scannerOn i.2.2.2
    match HeapFileScan.scanNext 4 NULLRID sc.1 sc.2 NULLRID with
    | none => none
    | some n =>
      match HeapFileScan.deleteRecord n.2.2.1 n.2.2.2 with
      | none => none
      | some d1 =>
        match HeapFileScan.deleteRecord d1.2.1 d1.2.2 with
        | none => none
        | some d2 =>
          let cnt := fun (t : Store) => ((t.deref (some 2)).map Page.numRecords).getD 0
          some [(n.1, n.2.2.2.hdr.recCnt, cnt n.2.2.2), (d1.1, d1.2.2.hdr.recCnt, cnt d1.2.2),
                (d2.1, d2.2.2.hdr.recCnt, cnt d2.2.2)]

/-- An inserter whose current page is the full last page of the file (pages with
room for four bytes, holding a record of three), with its store. -/
def fullPageState : InsertFileScan × Store :=
  match InsertFileScan.insertRecord 24 20 freshInserter.1 freshInserter.2 rec3 NULLRID with
  | none => freshInserter
  | some r => r.2.2

/-- An inserter whose current page is the full last page of the file (pages with
room for four bytes, holding a record of three), and a store whose page store
will let the next call succeed and make the one after it fail. -/
def fullPageInserter : Option (InsertFileScan × Store) :=
  match InsertFileScan.insertRecord 24 20 freshInserter.1 freshInserter.2 rec3 NULLRID with
  | none => none
  | some r => some (r.2.2.1, { r.2.2.2 with script := [.OK, .UNIXERR] })

/-- A sequence of `insertRecord` calls through one inserter: the status and RID
of each call, and the final handle and store; `none` when a call has no defined
result. -/
def insertAll (PAGESIZE DPFIXED : Int) :
    List Record → InsertFileScan → Store → Option (List (Status × RID) × InsertFileScan × Store)
  | [], h, s => some ([], h, s)
  | rec :: rest, h, s =>
      match InsertFileScan.insertRecord PAGESIZE DPFIXED h s rec NULLRID with
      | none => none
      | some r =>
          match insertAll PAGESIZE DPFIXED rest r.2.2.1 r.2.2.2 with
          | none => none
          | some x => some ((r.1, r.2.1) :: x.1, x.2)

/-- A scanner opened on the file after three records of three bytes were
inserted into pages with room for four bytes: one record on each of the pages
2, 3 and 4. -/
def threePageScanner : HeapFileScan × Store :=
  match insertAll 24 20 [rec3, rec3, rec3] freshInserter.1 freshInserter.2 with
  | none => scannerOn freshStore
  | some x => scannerOn x.2.2

/-- The page chain of the file of `threePageScanner`. -/
def threePageChain : List Page :=
  [⟨2, 3, [some rec3]⟩, ⟨3, 4, [some rec3]⟩, ⟨4, -1, [some rec3]⟩]

/-- The store after the records `recs` were inserted through `freshInserter`
(pages of 1024 bytes with 20 bytes of fixed overhead). -/
def storeWith (recs : List Record) : Store :=
  match insertAll 1024 20 recs freshInserter.1 freshInserter.2 with
  | none => freshStore
  | some x => x.2.2

/-- A scanner opened on the store `s` and then put through `endScan`, with its
store. -/
def endedScanner (s : Store) : HeapFileScan × Store :=
  (HeapFileScan.endScan (scannerOn s).1 (scannerOn s).2).2

/-- The file does not exist and the page store lets the first four calls run
normally and makes the fifth, the second `allocPage` of `createHeapFile`, fail. -/
def secondAllocFails : Store := { emptyStore with script := [.OK, .OK, .OK, .OK, .UNIXERR] }

/-- The fresh file, with a page store that lets `openFile` and `getFirstPage` run
normally and makes the next call, the read of the header page, fail. -/
def headerReadFails : Store := { freshStore with script := [.OK, .OK, .UNIXERR] }

/-- A file of two pages whose last page was emptied: two records of three bytes
were inserted into pages with room for four bytes, and a scanner went to the
second record, on page 3, and deleted it. -/
def emptiedLastPage : Option Store :=
  match insertAll 24 20 [rec3, rec3] freshInserter.1 freshInserter.2 with
  | none => none
  | some x =>
    let sc := scannerOn x.2.2
    match HeapFileScan.scanNext 5 NULLRID sc.1 sc.2 NULLRID with
    | none => none
    | some a =>
      match HeapFileScan.scanNext 5 NULLRID a.2.2.1 a.2.2.2 NULLRID with
      | none => none
      | some b =>
        match HeapFileScan.deleteRecord b.2.2.1 b.2.2.2 with
        | none => none
        | some d => some d.2.2

/-- An inserter newly opened on the store `s`: the status of the constructor, the
handle and the store. -/
def inserterOn (s : Store) : Status × InsertFileScan × Store :=
  InsertFileScan.construct blankHandle wildHdr s .OK

/-! ## The string comparison, after the wording of the claims -/

/-- The lexicographic order of two byte sequences: negative, zero or positive as
the first is before, equal to or after the second; a proper prefix comes before
the longer sequence. -/
def lexOrder : List Nat → List Nat → Int
  | [], [] => 0
  | [], _ :: _ => -1
  | _ :: _, [] => 1
  | a :: as, b :: bs => if a < b then -1 else if b < a then 1 else lexOrder as bs

/-- A byte sequence cut off before its first zero byte. -/
def cutAtZero : List Nat → List Nat
  | [] => []
  | b :: bs => if b = 0 then [] else b :: cutAtZero bs

/-- What the `STRING` comparison answers according to the claim as it is worded:
the operator applied to the lexicographic order of exactly `length` bytes of the
record from `offset` on against the first `length` bytes of the literal. -/
def stringMatchExact (f : ScanFilter) (flt : List Nat) (rec : Record) : Bool :=
  applyOp f.op (some (lexOrder ((rec.data.drop f.offset.toNat).take f.length.toNat)
    (flt.take f.length.toNat)))

/-- The operator applied to the lexicographic order of the same two byte ranges,
each cut off before its first zero byte. -/
def stringMatchCut (f : ScanFilter) (flt : List Nat) (rec : Record) : Bool :=
  applyOp f.op (some (lexOrder (cutAtZero ((rec.data.drop f.offset.toNat).take f.length.toNat))
    (cutAtZero (flt.take f.length.toNat))))

/-! ## Notions used to state the properties of repeated scans -/

/-- The handle and store a pass through the loop body of `scanNext` ends with. -/
def ScanStep.state : ScanStep → HeapFileScan × Store
  | .ret r => r.2.2
  | .next _ _ _ h s => (h, s)

/-- Runs `k` successive `scanNext` calls: the status and RID of each call, and
the final handle and store; `none` when a call has no defined result. -/
def scanCalls (fuel : Nat) (tmpRid outRid : RID) :
    Nat → HeapFileScan → Store → Option (List (Status × RID) × HeapFileScan × Store)
  | 0, h, s => some ([], h, s)
  | k + 1, h, s =>
      match h.scanNext fuel tmpRid s outRid with
      | none => none
      | some r =>
          match scanCalls fuel tmpRid outRid k r.2.2.1 r.2.2.2 with
          | none => none
          | some x => some ((r.1, r.2.1) :: x.1, x.2)

/-- The scanner went from handle `h` and store `s` to `h'` and `s'` by moving its
cursor along `chain` only: it is positioned on a rest of the chain, and the page
contents, the header, the filter and the mark are the same. -/
structure Advanced (h : HeapFileScan) (s : Store) (h' : HeapFileScan) (s' : Store)
    (chain : List Page) : Prop where
  rest : ∃ pre chain', chain = pre ++ chain' ∧ Positioned h' s' chain'
  pages : ∀ q, s'.deref (some q) = s.deref (some q)
  hdr : s'.hdr = s.hdr
  flt : h'.toScanFilter = h.toScanFilter
  markedPageNo : h'.markedPageNo = h.markedPageNo
  markedRec : h'.markedRec = h.markedRec

/-- The RID `rid` names a record stored in the file: its page exists and the
slot holds a record. -/
def Stored (s : Store) (rid : RID) : Prop :=
  ∃ pg, s.deref (some rid.pageNo) = some pg ∧ (pg.slot? rid.slotNo).isSome

/-- The calls of a scan that is under way. -/
inductive ScanOp
  | scanNext (tmpRid outRid : RID)
  | markScan
  | resetScan
  | deleteRecord
  deriving DecidableEq

/-- Runs the calls `ops` of a scan in turn: the status and RID of each `scanNext`
call among them, and the final handle and store; `none` when a call has no
defined result. -/
def runScan (fuel : Nat) :
    List ScanOp → HeapFileScan → Store → Option (List (Status × RID) × HeapFileScan × Store)
  | [], h, s => some ([], h, s)
  | .scanNext tmpRid outRid :: rest, h, s =>
      match h.scanNext fuel tmpRid s outRid with
      | none => none
      | some r =>
          match runScan fuel rest r.2.2.1 r.2.2.2 with
          | none => none
          | some x => some ((r.1, r.2.1) :: x.1, x.2)
  | .markScan :: rest, h, s => runScan fuel rest h.markScan.2 s
  | .resetScan :: rest, h, s => runScan fuel rest (h.resetScan s).2.1 (h.resetScan s).2.2
  | .deleteRecord :: rest, h, s =>
      match h.deleteRecord s with
      | none => none
      | some d => runScan fuel rest d.2.1 d.2.2

/-- In `ops` no `resetScan` comes before the mark is set: `marked` tells whether it
is set at the start, and a `markScan` sets it. -/
def marksFirst : Bool → List ScanOp → Prop
  | _, [] => True
  | _, .markScan :: rest => marksFirst true rest
  | m, .resetScan :: rest => m = true ∧ marksFirst m rest
  | m, .scanNext _ _ :: rest => marksFirst m rest
  | m, .deleteRecord :: rest => marksFirst m rest

/-- A scan under way on the page chain `full` of the file: the cursor is pinned on
a page of the chain, and the mark, if it is set, is on a page of the chain. -/
structure ScanInv (marked : Bool) (h : HeapFileScan) (s : Store) (full : List Page) : Prop where
  isChain : IsChain s full
  pos : ∃ pre chain, full = pre ++ chain ∧ Positioned h s chain
  mark : marked = true → ∃ pg ∈ full, pg.curPage = h.markedPageNo

/-- The scanner of `threePageScanner` after `markScan` and one `scanNext`, which
returns the RID (2,0): the result of that `scanNext`. -/
def markedFirst : Status × RID × HeapFileScan × Store :=
  match threePageScanner.1.markScan.2.scanNext 6 NULLRID threePageScanner.2 NULLRID with
  | some r => r
  | none => (.OK, NULLRID, threePageScanner.1, threePageScanner.2)

/-- The RIDs that `resetScan` followed by two `scanNext` calls yields from
`markedFirst`: after a `deleteRecord` when `delete` is set, and without it. -/
def afterReset (delete : Bool) : Option (List (Status × RID)) :=
  let ops := [ScanOp.resetScan, .scanNext NULLRID NULLRID, .scanNext NULLRID NULLRID]
  (runScan 6 (if delete then .deleteRecord :: ops else ops) markedFirst.2.2.1
    markedFirst.2.2.2).map (fun x => x.1)

/-! ## Theorems -/

/-! ### The page store -/

theorem getFrame_putFrame (fs : List Frame) (p q : Int) (f : Frame) :
    getFrame (putFrame fs p f) q
      = if q = p ∧ (getFrame fs p).isSome then some f else getFrame fs q := by
  unfold getFrame putFrame
  by_cases hp : p < 0
  · have : ¬ (q = p ∧ ((if p < 0 then none else fs[p.toNat]?) : Option Frame).isSome = true) := by
      simp [hp]
    simp [hp]
  · by_cases hq : q < 0
    · have : q ≠ p := by omega
      simp [hp, hq, this]
    · simp only [hp, hq, if_false]
      by_cases hqp : q = p
      · subst hqp
        by_cases hl : q.toNat < fs.length
        · simp [List.getElem?_set, hl]
        · simp [List.getElem?_set, hl]
          simp at hl
          simp [List.getElem?_eq_none hl]
      · have : p.toNat ≠ q.toNat := by omega
        simp [List.getElem?_set, this, hqp]

theorem getFrame_isSome (fs : List Frame) (q : Int) :
    (getFrame fs q).isSome = true ↔ 0 ≤ q ∧ q < fs.length := by
  unfold getFrame
  by_cases hq : q < 0
  · simp [hq]
  · simp only [hq, if_false]
    rw [Option.isSome_iff_exists]
    constructor
    · rintro ⟨a, ha⟩
      have := (List.getElem?_eq_some.mp ha).1
      omega
    · rintro ⟨_, h2⟩
      have h3 : q.toNat < fs.length := by omega
      exact ⟨fs[q.toNat], List.getElem?_eq_getElem h3⟩

theorem getFrame_append (fs : List Frame) (x : Frame) (q : Int) :
    getFrame (fs ++ [x]) q = if q = fs.length then some x else getFrame fs q := by
  unfold getFrame
  by_cases hq : q < 0
  · have : q ≠ (fs.length : Int) := by omega
    simp [hq, this]
  · simp only [hq, if_false]
    by_cases hl : q = fs.length
    · subst hl
      simp
    · simp only [hl, if_false]
      by_cases h2 : q.toNat < fs.length
      · rw [List.getElem?_append_left h2]
      · have h3 : fs.length < q.toNat := by omega
        rw [List.getElem?_eq_none (by simp; omega), List.getElem?_eq_none (by omega)]

theorem length_putFrame (fs : List Frame) (p : Int) (f : Frame) :
    (putFrame fs p f).length = fs.length := by
  unfold putFrame
  split <;> simp


theorem scriptOk_head {n : Nat} {l : List Status} (h : scriptOk (n + 1) l) :
    nextStatus l = .OK := by
  cases l with
  | nil => rfl
  | cons a t => exact h a (by simp)

theorem scriptOk_tail {n : Nat} {l : List Status} (h : scriptOk (n + 1) l) :
    scriptOk n l.tail := by
  cases l with
  | nil => intro st hst; simp at hst
  | cons a t =>
    intro st hst
    exact h st (by simp [List.take_succ_cons]; right; simpa using hst)

theorem deref_setFrame_page (s : Store) (p q : Int) (f f' : Frame) (hf : s.frame? p = some f)
    (hp : f'.page = f.page) : (s.setFrame p f').deref (some q) = s.deref (some q) := by
  simp only [Store.deref, Store.frame?, Store.setFrame, getFrame_putFrame] at *
  by_cases hq : q = p
  · subst hq
    simp [hf, hp]
  · simp [hq]

theorem unPinPage_fields (s : Store) (p : Int) (d : Bool) :
    (unPinPage s p d).2.hdr = s.hdr ∧ (unPinPage s p d).2.log = s.log ++ [.unPinPage p d] ∧
    (unPinPage s p d).2.script = s.script.tail ∧
    (unPinPage s p d).2.frames.length = s.frames.length ∧
    (unPinPage s p d).2.created = s.created ∧ (unPinPage s p d).2.openCnt = s.openCnt ∧
    (unPinPage s p d).2.firstPage = s.firstPage ∧
    ∀ q, (unPinPage s p d).2.deref (some q) = s.deref (some q) := by
  unfold unPinPage
  simp only [Store.call]
  split
  · split
    · rename_i f hf
      split
      · simp [Store.deref, Store.frame?]
      · refine ⟨rfl, rfl, rfl, ?_, rfl, rfl, rfl, ?_⟩
        · simp [Store.setFrame, length_putFrame]
        · intro q
          exact deref_setFrame_page _ p q f _ hf rfl
    · simp [Store.deref, Store.frame?]
  · simp [Store.deref, Store.frame?]

theorem readPage_fields (s : Store) (p : Int) :
    (readPage s p).2.hdr = s.hdr ∧ (readPage s p).2.log = s.log ++ [.readPage p] ∧
    (readPage s p).2.script = s.script.tail ∧
    (readPage s p).2.frames.length = s.frames.length ∧
    (readPage s p).2.created = s.created ∧ (readPage s p).2.openCnt = s.openCnt ∧
    (readPage s p).2.firstPage = s.firstPage ∧
    ∀ q, (readPage s p).2.deref (some q) = s.deref (some q) := by
  unfold readPage
  simp only [Store.call]
  split
  · split
    · rename_i f hf
      refine ⟨rfl, rfl, rfl, ?_, rfl, rfl, rfl, ?_⟩
      · simp [Store.setFrame, length_putFrame]
      · intro q
        exact deref_setFrame_page _ p q f _ hf rfl
    · simp [Store.deref, Store.frame?]
  · simp [Store.deref, Store.frame?]

theorem quiet_head {l : List Status} (h : quiet l) : nextStatus l = .OK := by
  cases l with
  | nil => rfl
  | cons a t => exact h a (by simp)

theorem quiet_tail {l : List Status} (h : quiet l) : quiet l.tail := by
  intro st hst
  exact h st (List.mem_of_mem_tail hst)

theorem unPinPage_ok (s : Store) (p : Int) (d : Bool) (hs : nextStatus s.script = .OK)
    (hp : 0 < s.pinCnt p) :
    (unPinPage s p d).1 = .OK ∧
    ∀ q, (unPinPage s p d).2.pinCnt q = if q = p then s.pinCnt p - 1 else s.pinCnt q := by
  unfold Store.pinCnt Store.frame? at hp
  cases hf : getFrame s.frames p with
  | none => simp [hf] at hp
  | some f =>
    simp only [hf] at hp
    have hp' : f.pinCnt ≠ 0 := by omega
    refine ⟨by simp [unPinPage, Store.call, hs, Store.frame?, hf, hp'], ?_⟩
    intro q
    by_cases hq : q = p <;>
      simp [unPinPage, Store.call, hs, Store.frame?, hf, hp', Store.pinCnt, Store.setFrame,
        getFrame_putFrame, hq]

theorem readPage_ok (s : Store) (p : Int) (hs : nextStatus s.script = .OK)
    (hp : (s.deref (some p)).isSome) :
    (readPage s p).1 = .OK ∧
    ∀ q, (readPage s p).2.pinCnt q = if q = p then s.pinCnt p + 1 else s.pinCnt q := by
  cases hf : getFrame s.frames p with
  | none => simp [Store.deref, Store.frame?, hf] at hp
  | some f =>
    refine ⟨by simp [readPage, Store.call, hs, Store.frame?, hf], ?_⟩
    intro q
    by_cases hq : q = p <;>
      simp [readPage, Store.call, hs, Store.frame?, hf, Store.pinCnt, Store.setFrame,
        getFrame_putFrame, hq]

/-- Whether pages form a chain depends on nothing but the page contents. -/
theorem IsChain_congr (s s' : Store) (chain : List Page)
    (h : ∀ q, s'.deref (some q) = s.deref (some q)) (hc : IsChain s chain) : IsChain s' chain := by
  induction chain with
  | nil => exact hc
  | cons pg rest ih =>
    cases rest with
    | nil =>
      simp only [IsChain] at hc ⊢
      exact ⟨by rw [h]; exact hc.1, hc.2⟩
    | cons pg' rest' =>
      simp only [IsChain] at hc ⊢
      exact ⟨by rw [h]; exact hc.1, hc.2.1, hc.2.2.1, ih hc.2.2.2⟩

/-- Leaving a pinned page for another page of the file: both calls succeed, the
page contents stay, the new page is pinned. -/
theorem hop_ok (s : Store) (p q : Int) (d : Bool) (hs : quiet s.script) (hp : 0 < s.pinCnt p)
    (hq : (s.deref (some q)).isSome) :
    (unPinPage s p d).1 = .OK ∧ (readPage (unPinPage s p d).2 q).1 = .OK ∧
    quiet (readPage (unPinPage s p d).2 q).2.script ∧
    (∀ x, (readPage (unPinPage s p d).2 q).2.deref (some x) = s.deref (some x)) ∧
    0 < (readPage (unPinPage s p d).2 q).2.pinCnt q ∧
    (readPage (unPinPage s p d).2 q).2.hdr = s.hdr := by
  have hu := unPinPage_ok s p d (quiet_head hs) hp
  have huf := unPinPage_fields s p d
  have hq1 : quiet (unPinPage s p d).2.script := by
    rw [huf.2.2.1]; exact quiet_tail hs
  have hq' : ((unPinPage s p d).2.deref (some q)).isSome := by
    rw [huf.2.2.2.2.2.2.2 q]; exact hq
  have hr := readPage_ok (unPinPage s p d).2 q (quiet_head hq1) hq'
  have hrf := readPage_fields (unPinPage s p d).2 q
  refine ⟨hu.1, hr.1, ?_, ?_, ?_, ?_⟩
  · rw [hrf.2.2.1]; exact quiet_tail hq1
  · intro x
    rw [hrf.2.2.2.2.2.2.2 x, huf.2.2.2.2.2.2.2 x]
  · rw [hr.2 q]; simp
  · rw [hrf.1, huf.1]

/-! ### The inserter -/

/-- On its own range the reduction to 32 bits changes nothing. -/
theorem wrapInt32_of_range (x : Int) (h1 : -2147483648 ≤ x) (h2 : x ≤ 2147483647) :
    wrapInt32 x = x := by
  unfold wrapInt32
  omega

/-- The overflow path of `insertRecord` when no call fails: the state it ends in. -/
theorem insertOverflow_ok (cap : Int) (h1 : InsertFileScan) (s1 : Store) (rec : Record)
    (outRid : RID) (L : Int) (fr : Frame)
    (hlen : rec.length ≤ cap)
    (hno : h1.curPageNo = L)
    (hfr : getFrame s1.frames L = some fr)
    (hpin : 0 < fr.pinCnt)
    (hs : scriptOk 4 s1.script) :
    ∃ s', InsertFileScan.insertOverflow cap h1 L s1 rec outRid
        = some (.OK, ⟨s1.frames.length, 0⟩,
            { h1 with curPage := some (s1.frames.length : Int), curPageNo := s1.frames.length,
                      curDirtyFlag := true, curRec := ⟨s1.frames.length, 0⟩ }, s') ∧
      s'.hdr = { s1.hdr with lastPage := s1.frames.length,
                             pageCnt := wrapInt32 (s1.hdr.pageCnt + 1),
                             recCnt := wrapInt32 (s1.hdr.recCnt + 1) } ∧
      s'.log = s1.log ++ [.allocPage, .unPinPage L true, .readPage s1.frames.length,
                          .unPinPage s1.frames.length true] ∧
      s'.script = s1.script.tail.tail.tail.tail ∧
      s'.frames.length = s1.frames.length + 1 ∧
      s'.created = s1.created ∧ s'.openCnt = s1.openCnt ∧
      (∀ q, s'.deref (some q) =
        if q = (s1.frames.length : Int) then some ⟨s1.frames.length, -1, [some rec]⟩
        else if q = L then some { fr.page with nextPage := s1.frames.length }
        else s1.deref (some q)) ∧
      (∀ q, s'.pinCnt q =
        if q = (s1.frames.length : Int) then 1
        else if q = L then fr.pinCnt - 1
        else s1.pinCnt q) ∧
      s'.firstPage = (if s1.firstPage = -1 then (s1.frames.length : Int) else s1.firstPage) := by
  have hLlt : L ≠ (s1.frames.length : Int) := by
    have := (getFrame_isSome s1.frames L).mp (by simp [hfr])
    omega
  have hpin' : fr.pinCnt ≠ 0 := by omega
  have e1 := scriptOk_head hs
  have e2 := scriptOk_head (scriptOk_tail hs)
  have e3 := scriptOk_head (scriptOk_tail (scriptOk_tail hs))
  have e4 := scriptOk_head (scriptOk_tail (scriptOk_tail (scriptOk_tail hs)))
  simp [InsertFileScan.insertOverflow, allocPage, unPinPage, readPage, Store.call, e1, e2, e3,
    e4, Store.modifyPage, Store.frame?, Store.setFrame, getFrame_putFrame, getFrame_append,
    length_putFrame, hfr, hno, hLlt, hpin', Store.deref, Store.setPage, Page.init,
    Page.insertRecord, usedBytes, hlen, Store.addRecCnt, Page.setNextPage, rawPage, hLlt.symm,
    Store.pinCnt]
  refine ⟨?_, ?_⟩ <;> intro q <;> by_cases hq : q = (s1.frames.length : Int) <;>
    by_cases hq2 : q = L <;> simp [hq, hq2, hLlt, hLlt.symm]

/-- A successful `pinLastPage` leaves the header as it is and allocates nothing. -/
theorem pinLastPage_ok_fields (h : InsertFileScan) (s : Store) (h1 : InsertFileScan) (s1 : Store)
    (hpre : InsertFileScan.pinLastPage h s = some (.OK, h1, s1)) :
    s1.hdr = s.hdr ∧ allocCalls s1.log = allocCalls s.log := by
  unfold InsertFileScan.pinLastPage at hpre
  split at hpre
  · have hu := unPinPage_fields s h.curPageNo h.curDirtyFlag
    have hr := readPage_fields (unPinPage s h.curPageNo h.curDirtyFlag).2
      (unPinPage s h.curPageNo h.curDirtyFlag).2.hdr.lastPage
    simp only [] at hpre
    split at hpre
    · simp at hpre
      rename_i hne
      exact absurd hpre.1 hne
    · split at hpre
      · simp at hpre
        rename_i hne
        exact absurd hpre.1 hne
      · split at hpre
        · simp at hpre
        · simp only [Option.some.injEq, Prod.mk.injEq] at hpre
          obtain ⟨_, _, rfl⟩ := hpre
          refine ⟨hr.1.trans hu.1, ?_⟩
          rw [hr.2.1, hu.2.1]
          simp [allocCalls, List.filter_append]
  · simp at hpre
    obtain ⟨_, rfl⟩ := hpre
    exact ⟨rfl, rfl⟩

theorem deref_some_iff (s : Store) (q : Int) (pg : Page) :
    s.deref (some q) = some pg ↔ ∃ fr, getFrame s.frames q = some fr ∧ fr.page = pg := by
  simp [Store.deref, Store.frame?]

/-- C3: an `insertRecord` call whose insert into the current last page returns
`NOSPACE` (after lines 528-549 have made the last page the current page), with
the old last page pinned and the next four calls to the page store not made to
fail: the call returns `OK`, exactly one `allocPage` call is logged, the page
count of the header grows by one, the last-page pointer is the new page number,
the old last page links to the new page, the new page links to `-1`, the record
count grows by one, and the returned RID lies on the new page and `getRecord`
fetches the inserted record with it.  The two counts are `int` fields: each is
the old count plus one reduced to 32 bits, which is the old count plus one
whenever that sum is a value of type `int`. -/
theorem insertRecord_overflow (PAGESIZE DPFIXED : Int) (h : InsertFileScan) (s : Store)
    (rec : Record) (outRid : RID) (h1 : InsertFileScan) (s1 : Store) (pg : Page)
    (hlen : rec.length ≤ PAGESIZE - DPFIXED)
    (hpre : InsertFileScan.pinLastPage h s = some (.OK, h1, s1))
    (hcur : h1.curPage = some s1.hdr.lastPage) (hno : h1.curPageNo = s1.hdr.lastPage)
    (hpg : s1.deref (some s1.hdr.lastPage) = some pg)
    (hfull : (pg.insertRecord (PAGESIZE - DPFIXED) rec NULLRID).1 = .NOSPACE)
    (hpin : 0 < s1.pinCnt s1.hdr.lastPage)
    (hs : scriptOk 4 s1.script) :
    ∃ rid h' s' newPageNo,
      InsertFileScan.insertRecord PAGESIZE DPFIXED h s rec outRid = some (.OK, rid, h', s') ∧
      allocCalls s'.log = allocCalls s.log + 1 ∧
      s'.hdr.pageCnt = wrapInt32 (s.hdr.pageCnt + 1) ∧
      (isInt32 (s.hdr.pageCnt + 1) → s'.hdr.pageCnt = s.hdr.pageCnt + 1) ∧
      s'.hdr.lastPage = newPageNo ∧ newPageNo ≠ s.hdr.lastPage ∧
      (s'.deref (some s.hdr.lastPage)).map Page.nextPage = some newPageNo ∧
      (s'.deref (some newPageNo)).map Page.nextPage = some (-1) ∧
      s'.hdr.recCnt = wrapInt32 (s.hdr.recCnt + 1) ∧
      (isInt32 (s.hdr.recCnt + 1) → s'.hdr.recCnt = s.hdr.recCnt + 1) ∧
      rid.pageNo = newPageNo ∧
      ∃ h'', HeapFile.getRecord h' s' rid ⟨[], 0⟩ = some (.OK, rec, h'', s') := by
  obtain ⟨fr, hfr, rfl⟩ := (deref_some_iff _ _ _).mp hpg
  have hpin' : 0 < fr.pinCnt := by
    simpa [Store.pinCnt, Store.frame?, hfr] using hpin
  obtain ⟨hhdr, hlog⟩ := pinLastPage_ok_fields h s h1 s1 hpre
  obtain ⟨s', hov, h_hdr, h_log, -, -, -, -, h_deref, -⟩ :=
    insertOverflow_ok (PAGESIZE - DPFIXED) h1 s1 rec outRid s1.hdr.lastPage fr hlen hno hfr hpin' hs
  have hLlt : s1.hdr.lastPage ≠ (s1.frames.length : Int) := by
    have := (getFrame_isSome s1.frames s1.hdr.lastPage).mp (by simp [hfr])
    omega
  have hnotfit : ¬ usedBytes fr.page.slots + rec.length ≤ PAGESIZE - DPFIXED := by
    intro hc
    simp [Page.insertRecord, hc] at hfull
  refine ⟨⟨s1.frames.length, 0⟩,
    { h1 with curPage := some (s1.frames.length : Int), curPageNo := s1.frames.length,
              curDirtyFlag := true, curRec := ⟨s1.frames.length, 0⟩ },
    s', s1.frames.length, ?_, ?_, ?_, ?_, ?_, ?_, ?_, ?_, ?_, ?_, rfl, ?_⟩
  · have hl2 : ¬ rec.length > PAGESIZE - DPFIXED := by omega
    simp only [InsertFileScan.insertRecord, hl2, if_false, hpre, hcur]
    simp [Store.deref, Store.frame?, hfr, Page.insertRecord, hnotfit, ← hov]
  · rw [h_log, ← hlog]
    simp [allocCalls, List.filter_append]
  · rw [h_hdr, ← hhdr]
  · intro hi
    have e : s'.hdr.pageCnt = wrapInt32 (s.hdr.pageCnt + 1) := by rw [h_hdr, ← hhdr]
    rw [e]
    exact wrapInt32_of_range _ hi.1 hi.2
  · rw [h_hdr]
  · rw [← hhdr]; exact hLlt.symm
  · rw [← hhdr, h_deref]
    simp [hLlt]
  · rw [h_deref]
    simp
  · rw [h_hdr, ← hhdr]
  · intro hi
    have e : s'.hdr.recCnt = wrapInt32 (s.hdr.recCnt + 1) := by rw [h_hdr, ← hhdr]
    rw [e]
    exact wrapInt32_of_range _ hi.1 hi.2
  · refine ⟨{ h1 with curPage := some (s1.frames.length : Int), curPageNo := s1.frames.length,
                       curDirtyFlag := true, curRec := ⟨s1.frames.length, 0⟩ }, ?_⟩
    simp [HeapFile.getRecord, h_deref, Page.getRecord, Page.slot?]

/-- The inserter on the full page 2 of `fullPageState` satisfies the premises of
`insertRecord_overflow`, which gives the new page 3 linked behind page 2. -/
theorem insertRecord_overflow_witness :
    (fullPageState.2.deref (some fullPageState.2.hdr.lastPage)
        = some ⟨2, -1, [some rec3]⟩) ∧
    ((⟨2, -1, [some rec3]⟩ : Page).insertRecord (24 - 20) rec3 NULLRID).1 = .NOSPACE ∧
    ∃ rid h' s' newPageNo,
      InsertFileScan.insertRecord 24 20 fullPageState.1 fullPageState.2 rec3 NULLRID
        = some (.OK, rid, h', s') ∧
      allocCalls s'.log = allocCalls fullPageState.2.log + 1 ∧
      s'.hdr.pageCnt = fullPageState.2.hdr.pageCnt + 1 ∧
      s'.hdr.lastPage = newPageNo ∧ newPageNo ≠ fullPageState.2.hdr.lastPage ∧
      (s'.deref (some fullPageState.2.hdr.lastPage)).map Page.nextPage = some newPageNo ∧
      (s'.deref (some newPageNo)).map Page.nextPage = some (-1) ∧
      s'.hdr.recCnt = fullPageState.2.hdr.recCnt + 1 ∧
      rid.pageNo = newPageNo ∧
      ∃ h'', HeapFile.getRecord h' s' rid ⟨[], 0⟩ = some (.OK, rec3, h'', s') := by
  refine ⟨by decide, by decide, ?_⟩
  obtain ⟨rid, h', s', n, a1, a2, -, a3, a4, a5, a6, a7, -, a8, a9, a10⟩ :=
    insertRecord_overflow 24 20 fullPageState.1 fullPageState.2 rec3 NULLRID fullPageState.1
      fullPageState.2 ⟨2, -1, [some rec3]⟩ (by decide) (by decide) (by decide) (by decide)
      (by decide) (by decide) (by decide) (by decide)
  exact ⟨rid, h', s', n, a1, a2, a3 (by decide), a4, a5, a6, a7, a8 (by decide), a9, a10⟩

theorem firstOccupied_none (l : List (Option Record)) (i : Nat) :
    firstOccupied l i = none ↔ occupiedFrom l i = [] := by
  induction l generalizing i with
  | nil => simp [firstOccupied, occupiedFrom]
  | cons a t ih =>
    cases a with
    | none => simpa [firstOccupied, occupiedFrom] using ih (i + 1)
    | some r => simp [firstOccupied, occupiedFrom]

theorem occupiedFrom_cons (l : List (Option Record)) (i : Nat) (x : Nat × Record)
    (t : List (Nat × Record)) (h : occupiedFrom l i = x :: t) :
    firstOccupied l i = some x.1 ∧ i ≤ x.1 ∧ l[x.1 - i]? = some (some x.2) ∧
      t = occupiedFrom (l.drop (x.1 - i + 1)) (x.1 + 1) := by
  induction l generalizing i with
  | nil => simp [occupiedFrom] at h
  | cons a l' ih =>
    cases a with
    | none =>
      simp only [occupiedFrom] at h
      obtain ⟨h1, h2, h3, h4⟩ := ih (i + 1) h
      refine ⟨by simpa [firstOccupied] using h1, by omega, ?_, ?_⟩
      · have : x.1 - i = (x.1 - (i + 1)) + 1 := by omega
        rw [this, List.getElem?_cons_succ]
        exact h3
      · have : x.1 - i + 1 = (x.1 - (i + 1) + 1) + 1 := by omega
        rw [this, List.drop_succ_cons]
        exact h4
    | some r =>
      simp only [occupiedFrom, List.cons.injEq] at h
      obtain ⟨rfl, rfl⟩ := h
      simp [firstOccupied]

theorem recordsFrom_nil (pg : Page) (start : Nat) (h : pg.recordsFrom start = []) :
    firstOccupied (pg.slots.drop start) start = none := by
  rw [firstOccupied_none]
  simpa [Page.recordsFrom] using h

theorem recordsFrom_cons (pg : Page) (start : Nat) (c : RID × Record) (t : List (RID × Record))
    (h : pg.recordsFrom start = c :: t) :
    ∃ j : Nat, c.1 = ⟨pg.curPage, j⟩ ∧ firstOccupied (pg.slots.drop start) start = some j ∧
      pg.slot? j = some c.2 ∧ t = pg.recordsFrom (j + 1) := by
  unfold Page.recordsFrom at h
  cases ho : occupiedFrom (pg.slots.drop start) start with
  | nil => simp [ho] at h
  | cons x t' =>
    rw [ho] at h
    simp only [List.map_cons, List.cons.injEq] at h
    obtain ⟨h1, h2, h3, h4⟩ := occupiedFrom_cons _ _ _ _ ho
    refine ⟨x.1, ?_, h1, ?_, ?_⟩
    · rw [← h.1]
    · rw [List.getElem?_drop] at h3
      have e : start + (x.1 - start) = x.1 := by omega
      rw [e] at h3
      have : c.2 = x.2 := by rw [← h.1]
      simp [Page.slot?, List.getD, h3, this]
    · rw [← h.2, h4, List.drop_drop]
      have e : start + (x.1 - start + 1) = x.1 + 1 := by omega
      simp [Page.recordsFrom, e]

theorem nextRecord_nil (pg : Page) (cur nr : RID) (h : pg.recordsAfter cur.slotNo = []) :
    pg.nextRecord cur nr = (.ENDOFPAGE, nr) := by
  have := recordsFrom_nil pg _ h
  simp [Page.nextRecord, this]

theorem nextRecord_cons (pg : Page) (cur nr : RID) (r0 : Record) (c : RID × Record)
    (t : List (RID × Record)) (h : pg.recordsAfter cur.slotNo = c :: t) :
    pg.nextRecord cur nr = (.OK, c.1) ∧ pg.getRecord c.1 r0 = (.OK, c.2) ∧
      pg.recordsAfter c.1.slotNo = t ∧ c.1.pageNo = pg.curPage := by
  obtain ⟨j, h1, h2, h3, h4⟩ := recordsFrom_cons pg _ c t h
  refine ⟨?_, ?_, ?_, ?_⟩
  · simp [Page.nextRecord, h2, h1]
  · simp [Page.getRecord, h1, h3]
  · rw [h4, h1]
    simp [Page.recordsAfter]
  · rw [h1]

theorem firstRecord_nil (pg : Page) (x : RID) (h : pg.records = []) :
    pg.firstRecord x = (.NORECORDS, x) := by
  have := recordsFrom_nil pg 0 h
  simp at this
  simp [Page.firstRecord, this]

theorem firstRecord_cons (pg : Page) (x : RID) (r0 : Record) (c : RID × Record)
    (t : List (RID × Record)) (h : pg.records = c :: t) :
    pg.firstRecord x = (.OK, c.1) ∧ pg.getRecord c.1 r0 = (.OK, c.2) ∧
      pg.recordsAfter c.1.slotNo = t ∧ c.1.pageNo = pg.curPage := by
  obtain ⟨j, h1, h2, h3, h4⟩ := recordsFrom_cons pg 0 c t h
  simp at h2
  refine ⟨?_, ?_, ?_, ?_⟩
  · simp [Page.firstRecord, h2, h1]
  · simp [Page.getRecord, h1, h3]
  · rw [h4, h1]
    simp [Page.recordsAfter]
  · rw [h1]

/-! ### The scan -/

theorem IsChain_head (s : Store) (pg : Page) (rest : List Page) (h : IsChain s (pg :: rest)) :
    s.deref (some pg.curPage) = some pg := by
  cases rest with
  | nil => exact h.1
  | cons pg' rest' => exact h.1

theorem Positioned.deref {h : HeapFileScan} {s : Store} {pg : Page} {rest : List Page}
    (hp : Positioned h s (pg :: rest)) : s.deref h.curPage = some pg ∧ h.curPageNo = pg.curPage := by
  have h1 := hp.head
  simp at h1
  rw [hp.cur, ← h1]
  exact ⟨IsChain_head s pg rest hp.isChain, rfl⟩

theorem scanTail_eq (F N : Status) (h : HeapFileScan) (s : Store) (out : RID) (pg : Page)
    (r : Record) (hd : s.deref h.curPage = some pg)
    (hg : pg.getRecord h.curRec ⟨[], 0⟩ = (.OK, r)) :
    HeapFileScan.scanTail F N h s out =
      if matchRec h.toScanFilter r then some (.ret (.OK, h.curRec, h, s))
      else some (.next F N .OK h s) := by
  simp [HeapFileScan.scanTail, hd, hg]

theorem ScanResult_extend (flt : ScanFilter) (cands cands' skipped : List (RID × Record))
    (chain chain' pre : List Page) (out : RID) (r : Status × RID × HeapFileScan × Store)
    (hc : cands = skipped ++ cands') (hch : chain = pre ++ chain')
    (hs : ∀ x ∈ skipped, matchRec flt x.2 = false)
    (hr : ScanResult flt cands' chain' out r) : ScanResult flt cands chain out r := by
  rcases hr with ⟨h1, h2, h3⟩ | ⟨h1, sk, c, pre', ch, h2, h3, h4, h5, h6, h7, h8, h9, h10⟩
  · left
    refine ⟨h1, h2, ?_⟩
    intro c hc'
    rw [hc] at hc'
    rcases List.mem_append.mp hc' with hh | hh
    · exact hs c hh
    · exact h3 c hh
  · right
    refine ⟨h1, skipped ++ sk, c, pre ++ pre', ch, ?_, ?_, h4, h5, h6, ?_, h8, h9, h10⟩
    · rw [hc, h2]; simp
    · intro x hx
      rcases List.mem_append.mp hx with hh | hh
      · exact hs x hh
      · exact h3 x hh
    · rw [hch, h7]; simp

theorem scanStep_hop (F N : Status) (h : HeapFileScan) (s : Store) (out : RID) (pg : Page)
    (rest : List Page) (hp : Positioned h s (pg :: rest))
    (hnr : (if F = .OK then pg.nextRecord h.curRec NULLRID else (N, NULLRID)).1 ≠ .OK)
    (hpend : pending F (pg :: rest) h.curRec.slotNo = chainRecords rest) :
    (∃ r, HeapFileScan.scanStep F N .OK h s out = some (.ret r) ∧
      ScanResult h.toScanFilter (pending F (pg :: rest) h.curRec.slotNo) (pg :: rest) out r) ∨
    (∃ F' N' h' s' skipped pre chain',
      HeapFileScan.scanStep F N .OK h s out = some (.next F' N' .OK h' s') ∧
      (F' = .OK ∨ N' ≠ .OK) ∧ h'.toScanFilter = h.toScanFilter ∧
      pending F (pg :: rest) h.curRec.slotNo = skipped ++ pending F' chain' h'.curRec.slotNo ∧
      (∀ x ∈ skipped, matchRec h.toScanFilter x.2 = false) ∧ pg :: rest = pre ++ chain' ∧
      Positioned h' s' chain' ∧
      (pending F' chain' h'.curRec.slotNo).length + chain'.length
        < (pending F (pg :: rest) h.curRec.slotNo).length + (rest.length + 1)) := by
  obtain ⟨hd, hno⟩ := hp.deref
  have hh1 : (if F = .OK ∧ (if F = .OK then pg.nextRecord h.curRec NULLRID
      else (N, NULLRID)).1 = .OK then ({ h with curRec := (if F = .OK then
        pg.nextRecord h.curRec NULLRID else (N, NULLRID)).2 } : HeapFileScan) else h) = h := by
    simp [hnr]
  cases rest with
  | nil =>
    have hnext : pg.nextPage = -1 := hp.isChain.2
    left
    refine ⟨(.FILEEOF, out, h, s), ?_, ?_⟩
    · simp only [HeapFileScan.scanStep, hd, hh1]
      rw [if_pos hnr]
      simp [Page.getNextPage, hnext]
    · left
      rw [hpend]
      simp [chainRecords]
  | cons pg' rest' =>
    have hc := hp.isChain
    simp only [IsChain] at hc
    obtain ⟨-, hnext, hne, hc'⟩ := hc
    have hq : s.deref (some pg'.curPage) = some pg' := IsChain_head s pg' rest' hc'
    obtain ⟨o1, o2, o3, o4, o5, -⟩ := hop_ok s h.curPageNo pg'.curPage h.curDirtyFlag hp.quiet
      hp.pinned (by rw [hq]; rfl)
    have hne' : pg'.curPage ≠ -1 := by rw [← hnext]; exact hne
    have hpos : ∀ (rid : RID), Positioned
        (h.moveTo pg'.curPage rid)
        (readPage (unPinPage s h.curPageNo h.curDirtyFlag).2 pg'.curPage).2 (pg' :: rest') := by
      intro rid
      exact ⟨IsChain_congr s _ _ o4 hc', rfl, rfl, o5, o3⟩
    have hd2 : (readPage (unPinPage s h.curPageNo h.curDirtyFlag).2 pg'.curPage).2.deref
        (some pg'.curPage) = some pg' := by rw [o4]; exact hq
    cases hrec : pg'.records with
    | nil =>
      right
      have hf := firstRecord_nil pg' h.curRec hrec
      refine ⟨.NORECORDS, (if F = .OK then pg.nextRecord h.curRec NULLRID else (N, NULLRID)).1,
        h.moveTo pg'.curPage h.curRec,
        (readPage (unPinPage s h.curPageNo h.curDirtyFlag).2 pg'.curPage).2, [], [pg],
        pg' :: rest', ?_, Or.inr hnr, rfl, ?_, by simp, rfl, hpos _, ?_⟩
      · simp only [HeapFileScan.scanStep, hd, hh1]
        rw [if_pos hnr]
        simp [Page.getNextPage, hnext, hne', o1, o2, hd2, hf, HeapFileScan.moveTo]
      · rw [hpend]
        simp [pending, chainRecords, hrec]
      · rw [hpend]
        simp [pending, chainRecords, hrec]
    | cons c t =>
      obtain ⟨f1, f2, f3, f4⟩ := firstRecord_cons pg' h.curRec ⟨[], 0⟩ c t hrec
      have hstep : HeapFileScan.scanStep F N .OK h s out =
          HeapFileScan.scanTail .OK
            (if F = .OK then pg.nextRecord h.curRec NULLRID else (N, NULLRID)).1
            (h.moveTo pg'.curPage c.1)
            (readPage (unPinPage s h.curPageNo h.curDirtyFlag).2 pg'.curPage).2 out := by
        simp only [HeapFileScan.scanStep, hd, hh1]
        rw [if_pos hnr]
        simp [Page.getNextPage, hnext, hne', o1, o2, hd2, f1, HeapFileScan.moveTo]
      have htail := scanTail_eq .OK
        (if F = .OK then pg.nextRecord h.curRec NULLRID else (N, NULLRID)).1
        (h.moveTo pg'.curPage c.1)
        (readPage (unPinPage s h.curPageNo h.curDirtyFlag).2 pg'.curPage).2 out pg' c.2 hd2 f2
      rw [← hstep] at htail
      have hflt : (h.moveTo pg'.curPage c.1).toScanFilter = h.toScanFilter := rfl
      have hcr : (h.moveTo pg'.curPage c.1).curRec = c.1 := rfl
      rw [hflt, hcr] at htail
      by_cases hm : matchRec h.toScanFilter c.2 = true
      · left
        refine ⟨(.OK, c.1, h.moveTo pg'.curPage c.1,
          (readPage (unPinPage s h.curPageNo h.curDirtyFlag).2 pg'.curPage).2), ?_, ?_⟩
        · rw [htail]
          simp only [hm, if_true]
        · right
          refine ⟨rfl, [], c, [pg], pg' :: rest', ?_, by simp, hm, rfl, rfl, rfl, ?_, hpos _, rfl⟩
          · rw [hpend]
            simp [chainRecords, hrec, candidates, f3]
          · simp [f4]
      · right
        have hm' : matchRec h.toScanFilter c.2 = false := by simpa using hm
        refine ⟨.OK, (if F = .OK then pg.nextRecord h.curRec NULLRID else (N, NULLRID)).1,
          h.moveTo pg'.curPage c.1,
          (readPage (unPinPage s h.curPageNo h.curDirtyFlag).2 pg'.curPage).2, [c], [pg],
          pg' :: rest', ?_, Or.inl rfl, rfl, ?_, ?_, rfl, hpos _, ?_⟩
        · rw [htail]
          simp only [hm', Bool.false_eq_true, if_false]
        · rw [hpend, hcr]
          simp [pending, chainRecords, hrec, candidates, f3]
        · intro x hx
          simp at hx
          rw [hx]; exact hm'
        · rw [hpend, hcr]
          simp [pending, chainRecords, hrec, candidates, f3]
          omega

theorem scanStep_spec (F N : Status) (h : HeapFileScan) (s : Store) (out : RID) (pg : Page)
    (rest : List Page) (hp : Positioned h s (pg :: rest)) (hFN : F = .OK ∨ N ≠ .OK) :
    (∃ r, HeapFileScan.scanStep F N .OK h s out = some (.ret r) ∧
      ScanResult h.toScanFilter (pending F (pg :: rest) h.curRec.slotNo) (pg :: rest) out r) ∨
    (∃ F' N' h' s' skipped pre chain',
      HeapFileScan.scanStep F N .OK h s out = some (.next F' N' .OK h' s') ∧
      (F' = .OK ∨ N' ≠ .OK) ∧ h'.toScanFilter = h.toScanFilter ∧
      pending F (pg :: rest) h.curRec.slotNo = skipped ++ pending F' chain' h'.curRec.slotNo ∧
      (∀ x ∈ skipped, matchRec h.toScanFilter x.2 = false) ∧ pg :: rest = pre ++ chain' ∧
      Positioned h' s' chain' ∧
      (pending F' chain' h'.curRec.slotNo).length + chain'.length
        < (pending F (pg :: rest) h.curRec.slotNo).length + (rest.length + 1)) := by
  obtain ⟨hd, hno⟩ := hp.deref
  by_cases hF : F = .OK
  · cases hra : pg.recordsAfter h.curRec.slotNo with
    | nil =>
      apply scanStep_hop F N h s out pg rest hp
      · simp [hF, nextRecord_nil pg h.curRec NULLRID hra]
      · simp [pending, hF, candidates, hra]
    | cons c t =>
      obtain ⟨e1, e2, e3, e4⟩ := nextRecord_cons pg h.curRec NULLRID ⟨[], 0⟩ c t hra
      have hpos : Positioned ({ h with curRec := c.1 } : HeapFileScan) s (pg :: rest) :=
        ⟨hp.isChain, hp.cur, hp.head, hp.pinned, hp.quiet⟩
      have hstep : HeapFileScan.scanStep F N .OK h s out =
          HeapFileScan.scanTail .OK .OK { h with curRec := c.1 } s out := by
        simp [HeapFileScan.scanStep, hd, hF, e1]
      have htail := scanTail_eq .OK .OK ({ h with curRec := c.1 } : HeapFileScan) s out pg c.2
        hd e2
      rw [← hstep] at htail
      have hflt : ({ h with curRec := c.1 } : HeapFileScan).toScanFilter = h.toScanFilter := rfl
      have hcr : ({ h with curRec := c.1 } : HeapFileScan).curRec = c.1 := rfl
      rw [hflt, hcr] at htail
      have hhead : (pg :: rest).head?.map Page.curPage = some c.1.pageNo := by simp [e4]
      by_cases hm : matchRec h.toScanFilter c.2 = true
      · left
        refine ⟨(.OK, c.1, { h with curRec := c.1 }, s), ?_, ?_⟩
        · rw [htail]
          simp only [hm, if_true]
        · right
          refine ⟨rfl, [], c, [], pg :: rest, ?_, by simp, hm, rfl, rfl, rfl, hhead, hpos, rfl⟩
          simp [pending, hF, candidates, hra, e3]
      · right
        have hm' : matchRec h.toScanFilter c.2 = false := by simpa using hm
        refine ⟨.OK, .OK, { h with curRec := c.1 }, s, [c], [], pg :: rest, ?_, Or.inl rfl, rfl,
          ?_, ?_, rfl, hpos, ?_⟩
        · rw [htail]
          simp only [hm', Bool.false_eq_true, if_false]
        · rw [hcr]
          simp [pending, hF, candidates, hra, e3]
        · intro x hx
          simp at hx
          rw [hx]; exact hm'
        · rw [hcr]
          simp [pending, hF, candidates, hra, e3]
  · have hN : N ≠ .OK := by
      rcases hFN with h1 | h1
      · exact absurd h1 hF
      · exact h1
    apply scanStep_hop F N h s out pg rest hp
    · simp [hF, hN]
    · simp [pending, hF]

theorem scanLoop_spec (n : Nat) : ∀ (chain : List Page) (h : HeapFileScan) (s : Store)
    (F N init : Status) (out : RID), Positioned h s chain → (F = .OK ∨ N ≠ .OK) →
    (pending F chain h.curRec.slotNo).length + chain.length ≤ n →
    ∀ fuel, n ≤ fuel →
      ∃ r, HeapFileScan.scanLoop fuel init .OK F N h s out = some r ∧
        ScanResult h.toScanFilter (pending F chain h.curRec.slotNo) chain out r := by
  induction n with
  | zero =>
    intro chain h s F N init out hp _ hm
    cases chain with
    | nil => exact absurd hp.isChain (by simp [IsChain])
    | cons pg rest => simp at hm
  | succ n ih =>
    intro chain h s F N init out hp hFN hm fuel hfuel
    cases chain with
    | nil => exact absurd hp.isChain (by simp [IsChain])
    | cons pg rest =>
      obtain ⟨fuel', rfl⟩ : ∃ f, fuel = f + 1 := ⟨fuel - 1, by omega⟩
      rcases scanStep_spec F N h s out pg rest hp hFN with
        ⟨r, hr1, hr2⟩ | ⟨F', N', h', s', skipped, pre, chain', hs1, hs2, hs3, hs4, hs5, hs6, hs7, hs8⟩
      · exact ⟨r, by simp [HeapFileScan.scanLoop, hr1], hr2⟩
      · have hlen : (pending F' chain' h'.curRec.slotNo).length + chain'.length ≤ n := by
          simp only [List.length_cons] at hm
          omega
        obtain ⟨r, hr1, hr2⟩ := ih chain' h' s' F' N' init out hs7 hs2 hlen fuel' (by omega)
        refine ⟨r, ?_, ?_⟩
        · simp [HeapFileScan.scanLoop, hs1, hr1]
        · rw [hs3] at hr2
          exact ScanResult_extend _ _ _ skipped _ chain' pre out r hs4 hs6 hs5 hr2

/-- The call `scanNext` on a positioned scanner, with fuel for every record and page left. -/
theorem scanNext_spec (h : HeapFileScan) (s : Store) (chain : List Page) (tmpRid outRid : RID)
    (hp : Positioned h s chain) (fuel : Nat)
    (hfuel : (candidates chain h.curRec.slotNo).length + chain.length ≤ fuel) :
    ∃ r, h.scanNext fuel tmpRid s outRid = some r ∧
      ScanResult h.toScanFilter (candidates chain h.curRec.slotNo) chain outRid r := by
  have hpe : pending .OK chain h.curRec.slotNo = candidates chain h.curRec.slotNo := by
    simp [pending]
  obtain ⟨r, hr1, hr2⟩ := scanLoop_spec fuel chain h s .OK .OK .OK outRid hp (Or.inl rfl)
    (by rw [hpe]; exact hfuel) fuel (le_refl _)
  refine ⟨r, ?_, by rw [← hpe]; exact hr2⟩
  simp [HeapFileScan.scanNext, hp.cur, hr1]

/-- C4: a scanner whose cursor is pinned on the first page of `chain`, a page chain
of the file ending in the sentinel `-1`, with a page store that makes no call
fail, and fuel for every record and page ahead.  `scanNext` then returns a
result that is `OK` with the first record after the cursor position, in
page-chain order and then slot order, that satisfies `matchRec` (those before it
do not), or `FILEEOF`, which happens exactly when no record after the cursor
satisfies `matchRec`; and after an `OK` the next call returns, if `OK` again, a
RID that comes later in that order. -/
theorem scanNext_next_match (h : HeapFileScan) (s : Store) (chain : List Page)
    (tmpRid outRid : RID) (hp : Positioned h s chain) (fuel : Nat)
    (hfuel : (candidates chain h.curRec.slotNo).length + chain.length ≤ fuel) :
    ∃ r, h.scanNext fuel tmpRid s outRid = some r ∧
      ScanResult h.toScanFilter (candidates chain h.curRec.slotNo) chain outRid r ∧
      (r.1 = .FILEEOF ↔
        ∀ c ∈ candidates chain h.curRec.slotNo, matchRec h.toScanFilter c.2 = false) ∧
      (r.1 = .OK → ∀ tmp2 out2, ∃ r2, r.2.2.1.scanNext fuel tmp2 r.2.2.2 out2 = some r2 ∧
        (r2.1 = .OK → ∃ a b c, (candidates chain h.curRec.slotNo).map (fun x => x.1)
          = a ++ r.2.1 :: (b ++ r2.2.1 :: c))) := by
  obtain ⟨r, hr1, hr2⟩ := scanNext_spec h s chain tmpRid outRid hp fuel hfuel
  refine ⟨r, hr1, hr2, ?_, ?_⟩
  · rcases hr2 with ⟨h1, -, h3⟩ | ⟨h1, sk, c, pre, ch, h2, -, h4, -⟩
    · exact ⟨fun _ => h3, fun _ => h1⟩
    · constructor
      · intro he
        rw [h1] at he
        exact absurd he (by decide)
      · intro hall
        have := hall c (by rw [h2]; simp)
        rw [h4] at this
        exact absurd this (by decide)
  · intro hok tmp2 out2
    rcases hr2 with ⟨h1, -, -⟩ | ⟨-, sk, c, pre, ch, h2, -, -, h5, h6, h7, -, h9, h10⟩
    · rw [h1] at hok
      exact absurd hok (by decide)
    · have hf2 : (candidates ch r.2.2.1.curRec.slotNo).length + ch.length ≤ fuel := by
        have e1 := congrArg List.length h2
        have e2 := congrArg List.length h7
        simp only [List.length_append, List.length_cons] at e1 e2
        rw [h6]
        omega
      obtain ⟨r2, hr21, hr22⟩ := scanNext_spec r.2.2.1 r.2.2.2 ch tmp2 out2 h9 fuel hf2
      refine ⟨r2, hr21, ?_⟩
      intro hok2
      rcases hr22 with ⟨g1, -, -⟩ | ⟨-, sk2, c2, pre2, ch2, g2, -, -, g5, -⟩
      · rw [g1] at hok2
        exact absurd hok2 (by decide)
      · refine ⟨sk.map (fun x => x.1), sk2.map (fun x => x.1),
          (candidates ch2 c2.1.slotNo).map (fun x => x.1), ?_⟩
        rw [h2, ← h6, g2, h5, g5]
        simp

/-- The scanner of `threePageScanner` is positioned on the chain of pages 2, 3, 4
and `scanNext` finds the first record. -/
theorem scanNext_next_match_witness :
    ∃ r, threePageScanner.1.scanNext 6 NULLRID threePageScanner.2 NULLRID = some r ∧
      ScanResult threePageScanner.1.toScanFilter
        (candidates threePageChain threePageScanner.1.curRec.slotNo) threePageChain NULLRID r ∧
      (r.1 = .FILEEOF ↔
        ∀ c ∈ candidates threePageChain threePageScanner.1.curRec.slotNo,
          matchRec threePageScanner.1.toScanFilter c.2 = false) ∧
      (r.1 = .OK → ∀ tmp2 out2, ∃ r2, r.2.2.1.scanNext 6 tmp2 r.2.2.2 out2 = some r2 ∧
        (r2.1 = .OK → ∃ a b c,
          (candidates threePageChain threePageScanner.1.curRec.slotNo).map (fun x => x.1)
            = a ++ r.2.1 :: (b ++ r2.2.1 :: c))) :=
  scanNext_next_match threePageScanner.1 threePageScanner.2 threePageChain NULLRID NULLRID
    ⟨by decide, by decide, by decide, by decide, by decide⟩ 6 (by decide)

theorem chainRecords_append (a b : List Page) :
    chainRecords (a ++ b) = chainRecords a ++ chainRecords b := by
  induction a with
  | nil => simp [chainRecords]
  | cons x t ih => simp [chainRecords, ih]

theorem IsChain_mem (s : Store) (chain : List Page) (hc : IsChain s chain) :
    ∀ pg ∈ chain, s.deref (some pg.curPage) = some pg := by
  induction chain with
  | nil => intro pg hpg; simp at hpg
  | cons a rest ih =>
    intro pg hpg
    cases rest with
    | nil =>
      simp at hpg
      rw [hpg]; exact hc.1
    | cons b rest' =>
      simp only [IsChain] at hc
      rcases List.mem_cons.mp hpg with h1 | h1
      · rw [h1]; exact hc.1
      · exact ih hc.2.2.2 pg h1

theorem createHeapFile_fresh (fileName : List Char) (s0 : Store) (hnew : s0.created = false)
    (hq : quiet s0.script) :
    (createHeapFile fileName s0).1 = .OK ∧
      (createHeapFile fileName s0).2.script
        = s0.script.tail.tail.tail.tail.tail.tail.tail.tail.tail ∧
      (createHeapFile fileName s0).2.created = true ∧
      (createHeapFile fileName s0).2.firstPage = 1 ∧
      (createHeapFile fileName s0).2.hdr = ⟨fileName, 2, 2, 1, 0⟩ ∧
      (createHeapFile fileName s0).2.frames
        = [⟨rawPage, 0⟩, ⟨rawPage, 0⟩, ⟨⟨2, -1, []⟩, 0⟩] := by
  have q1 := quiet_tail hq
  have q2 := quiet_tail q1
  have q3 := quiet_tail q2
  have q4 := quiet_tail q3
  have q5 := quiet_tail q4
  have q6 := quiet_tail q5
  have q7 := quiet_tail q6
  have q8 := quiet_tail q7
  simp [createHeapFile, openFile, createFile, allocPage, unPinPage, flushFile, closeFile,
    Store.call, hnew, quiet_head hq, quiet_head q1, quiet_head q2, quiet_head q3,
    quiet_head q4, quiet_head q5, quiet_head q6, quiet_head q7, quiet_head q8,
    Store.modifyPage, Store.frame?, Store.setFrame, getFrame, putFrame, Page.init,
    Page.setNextPage, rawPage]

theorem openFile_ok (s : Store) (hc : s.created = true) (hs : nextStatus s.script = .OK) :
    openFile s = (.OK, { s with openCnt := s.openCnt + 1, script := s.script.tail,
                                log := s.log ++ [.openFile] }) := by
  unfold openFile Store.call
  dsimp only
  rw [if_pos hs, if_pos hc]

/-- The constructor on an existing file whose header page and first data page
can be read. -/
theorem construct_ok (h : HeapFile) (wild : FileHdrPage) (s : Store) (st : Status)
    (hc : s.created = true) (hq : quiet s.script)
    (hh : (s.deref (some s.firstPage)).isSome) (hf : (s.deref (some s.hdr.firstPage)).isSome) :
    (HeapFile.construct h wild s st).1 = .OK ∧
    (HeapFile.construct h wild s st).2.1 =
      ⟨s.firstPage, false, some s.hdr.firstPage, s.hdr.firstPage, false, NULLRID⟩ ∧
    quiet (HeapFile.construct h wild s st).2.2.script ∧
    (∀ q, (HeapFile.construct h wild s st).2.2.deref (some q) = s.deref (some q)) ∧
    0 < (HeapFile.construct h wild s st).2.2.pinCnt s.hdr.firstPage ∧
    (HeapFile.construct h wild s st).2.2.hdr = s.hdr ∧
    (HeapFile.construct h wild s st).2.2.created = s.created ∧
    (HeapFile.construct h wild s st).2.2.firstPage = s.firstPage ∧
    (HeapFile.construct h wild s st).2.2.frames.length = s.frames.length := by
  have q1 := quiet_tail hq
  have q2 := quiet_tail q1
  have q3 := quiet_tail q2
  let sB : Store := { s with openCnt := s.openCnt + 1, script := s.script.tail.tail,
                             log := s.log ++ [.openFile] ++ [.getFirstPage] }
  have hB : (s.deref (some s.firstPage)) = sB.deref (some s.firstPage) := rfl
  have r1 := readPage_ok sB s.firstPage (quiet_head q2) (by rw [← hB]; exact hh)
  have f1 := readPage_fields sB s.firstPage
  have hq3 : quiet (readPage sB s.firstPage).2.script := by rw [f1.2.2.1]; exact q3
  have hf' : ((readPage sB s.firstPage).2.deref (some s.hdr.firstPage)).isSome := by
    rw [f1.2.2.2.2.2.2.2]; exact hf
  have r2 := readPage_ok (readPage sB s.firstPage).2 s.hdr.firstPage (quiet_head hq3) hf'
  have f2 := readPage_fields (readPage sB s.firstPage).2 s.hdr.firstPage
  have hhdr : (readPage sB s.firstPage).2.hdr = s.hdr := f1.1
  have e : HeapFile.construct h wild s st =
      (.OK, ⟨s.firstPage, false, some s.hdr.firstPage, s.hdr.firstPage, false, NULLRID⟩,
        (readPage (readPage sB s.firstPage).2 s.hdr.firstPage).2) := by
    unfold HeapFile.construct
    rw [openFile_ok s hc (quiet_head hq)]
    unfold getFirstPage Store.call
    dsimp only
    rw [if_pos rfl, if_pos (quiet_head q1)]
    dsimp only
    have e1 : (readPage sB s.firstPage).1 = .OK := r1.1
    have e2 : (readPage (readPage sB s.firstPage).2 s.hdr.firstPage).1 = .OK := r2.1
    simp only [sB] at e1 e2 hhdr
    simp only [e1, hhdr, e2, if_true, ne_eq, not_true_eq_false, if_false]
  rw [e]
  refine ⟨rfl, rfl, ?_, ?_, ?_, ?_, ?_, ?_, ?_⟩
  · show quiet (readPage (readPage sB s.firstPage).2 s.hdr.firstPage).2.script
    rw [f2.2.2.1]; exact quiet_tail hq3
  · intro q
    show (readPage (readPage sB s.firstPage).2 s.hdr.firstPage).2.deref (some q) = _
    rw [f2.2.2.2.2.2.2.2, f1.2.2.2.2.2.2.2]
    rfl
  · show 0 < (readPage (readPage sB s.firstPage).2 s.hdr.firstPage).2.pinCnt s.hdr.firstPage
    rw [r2.2]; simp
  · show (readPage (readPage sB s.firstPage).2 s.hdr.firstPage).2.hdr = _
    rw [f2.1, f1.1]
  · show (readPage (readPage sB s.firstPage).2 s.hdr.firstPage).2.created = _
    rw [f2.2.2.2.2.1, f1.2.2.2.2.1]
  · show (readPage (readPage sB s.firstPage).2 s.hdr.firstPage).2.firstPage = _
    rw [f2.2.2.2.2.2.2.1, f1.2.2.2.2.2.2.1]
  · show (readPage (readPage sB s.firstPage).2 s.hdr.firstPage).2.frames.length = _
    rw [f2.2.2.2.1, f1.2.2.2.1]

/-- The parameter check of `startScan` spelled out as a disjunction. -/
theorem badScanParm_iff (offset_ length_ : Int) (type_ : Datatype) (op_ : Operator) :
    badScanParm offset_ length_ type_ op_ = true ↔
      (offset_ < 0 ∨ length_ < 1 ∨
        (type_ ≠ .INTEGER ∧ type_ ≠ .FLOAT ∧ type_ ≠ .STRING) ∨
        (type_ = .INTEGER ∧ length_ ≠ 4) ∨ (type_ = .FLOAT ∧ length_ ≠ 4) ∨
        (op_ ≠ .LT ∧ op_ ≠ .LTE ∧ op_ ≠ .EQ ∧ op_ ≠ .GTE ∧ op_ ≠ .GT ∧ op_ ≠ .NE)) := by
  simp only [badScanParm, sizeofInt, Bool.or_eq_true, Bool.and_eq_true, decide_eq_true_eq,
    bne_iff_ne, beq_iff_eq, ne_eq]
  tauto

/-- C8: for a call of `startScan` with a non-null filter the result is
`BADSCANPARM` exactly when the offset is negative, or the length is below one,
or the type is none of `INTEGER`, `FLOAT`, `STRING`, or the type is `INTEGER` or
`FLOAT` and the length is not four, or the operator is none of the six
comparisons; in that case the scanner is left as it was, and otherwise the
result is `OK` and exactly the five given values are stored. -/
theorem startScan_validates (h : HeapFileScan) (offset_ length_ : Int) (type_ : Datatype)
    (flt : List Nat) (op_ : Operator) :
    ((h.startScan offset_ length_ type_ (some flt) op_).1 = .BADSCANPARM ↔
      (offset_ < 0 ∨ length_ < 1 ∨
        (type_ ≠ .INTEGER ∧ type_ ≠ .FLOAT ∧ type_ ≠ .STRING) ∨
        (type_ = .INTEGER ∧ length_ ≠ 4) ∨ (type_ = .FLOAT ∧ length_ ≠ 4) ∨
        (op_ ≠ .LT ∧ op_ ≠ .LTE ∧ op_ ≠ .EQ ∧ op_ ≠ .GTE ∧ op_ ≠ .GT ∧ op_ ≠ .NE))) ∧
    ((h.startScan offset_ length_ type_ (some flt) op_).1 = .BADSCANPARM →
      (h.startScan offset_ length_ type_ (some flt) op_).2 = h) ∧
    ((h.startScan offset_ length_ type_ (some flt) op_).1 ≠ .BADSCANPARM →
      (h.startScan offset_ length_ type_ (some flt) op_).1 = .OK ∧
      (h.startScan offset_ length_ type_ (some flt) op_).2 =
        { h with offset := offset_, length := length_, type := type_, filter := some flt,
                 op := op_ }) := by
  rw [← badScanParm_iff]
  cases hb : badScanParm offset_ length_ type_ op_ <;> simp [HeapFileScan.startScan, hb]

/-- The end-of-record check of `matchRec` rejects a record that is too short,
as long as the sum `offset + length` stays within the range of `int`. -/
theorem matchRec_beyond_end (f : ScanFilter) (flt : List Nat) (rec : Record)
    (hf : f.filter = some flt) (h0 : 0 ≤ f.offset) (h1 : 1 ≤ f.length)
    (hsum : f.offset + f.length ≤ 2147483647) (hlen : f.offset + f.length > rec.length) :
    matchRec f rec = false := by
  have e1 : wrapInt32 (f.offset + f.length) = f.offset + f.length :=
    wrapInt32_of_range _ (by omega) (by omega)
  have e2 : wrapInt32 (f.offset + f.length - 1) = f.offset + f.length - 1 :=
    wrapInt32_of_range _ (by omega) (by omega)
  have h3 : rec.length ≤ f.offset + f.length - 1 := by omega
  simp [matchRec, hf, e1, e2, h3]

/-- The end-of-record check of `matchRec` lets a record pass whose length is
exactly `offset + length`: the result is then that of the comparison. -/
theorem matchRec_at_end (f : ScanFilter) (flt : List Nat) (rec : Record)
    (hf : f.filter = some flt) (h0 : 0 ≤ f.offset) (h1 : 1 ≤ f.length)
    (hsum : f.offset + f.length ≤ 2147483647) (hlen : f.offset + f.length = rec.length) :
    matchRec f rec = applyOp f.op
      (match f.type with
        | .INTEGER =>
            some (wrapInt32 (decodeInt ((rec.data.drop f.offset.toNat).take f.length.toNat)
              - decodeInt (flt.take f.length.toNat)))
        | .FLOAT => floatDiff ((rec.data.drop f.offset.toNat).take f.length.toNat)
            (flt.take f.length.toNat)
        | .STRING => some (strncmp (rec.data.drop f.offset.toNat) flt f.length.toNat)
        | .other _ => some 0) := by
  have e1 : wrapInt32 (f.offset + f.length) = f.offset + f.length :=
    wrapInt32_of_range _ (by omega) (by omega)
  have e2 : wrapInt32 (f.offset + f.length - 1) = f.offset + f.length - 1 :=
    wrapInt32_of_range _ (by omega) (by omega)
  have h3 : ¬ rec.length ≤ f.offset + f.length - 1 := by omega
  simp [matchRec, hf, e1, e2, h3]

/-- As long as the difference of the two integers fits into an `int`, the
`INTEGER` comparison of `matchRec` is the comparison of the integers. -/
theorem matchRec_integer_in_range (f : ScanFilter) (flt : List Nat) (rec : Record)
    (hf : f.filter = some flt) (ht : f.type = .INTEGER) (hl : f.length = 4)
    (h0 : 0 ≤ f.offset) (hend : f.offset + 4 ≤ rec.length) (hrl : rec.length ≤ 2147483647)
    (hd1 : -2147483648 ≤ decodeInt ((rec.data.drop f.offset.toNat).take 4)
      - decodeInt (flt.take 4))
    (hd2 : decodeInt ((rec.data.drop f.offset.toNat).take 4) - decodeInt (flt.take 4)
      ≤ 2147483647) :
    matchRec f rec = applyOp f.op
      (some (decodeInt ((rec.data.drop f.offset.toNat).take 4) - decodeInt (flt.take 4))) := by
  have e1 : wrapInt32 (f.offset + f.length) = f.offset + f.length :=
    wrapInt32_of_range _ (by omega) (by omega)
  have e2 : wrapInt32 (f.offset + f.length - 1) = f.offset + f.length - 1 :=
    wrapInt32_of_range _ (by omega) (by omega)
  have h3 : ¬ rec.length ≤ f.offset + f.length - 1 := by omega
  have e3 := wrapInt32_of_range _ hd1 hd2
  rw [hl] at e1 e2 h3
  simp [matchRec, hf, hl, e1, e2, h3, ht, e3]

/-- C9: a record holding the `int` `-2147483648` and the `INTEGER` filter with
literal `1`: the stored integer is below the literal, yet `matchRec` answers
`false` for `LT` and `true` for `GT`, because the difference is formed in 32
bits; the record holding 5 matches `(EQ, 5)` and does not match `(LT, 5)`. -/
theorem matchRec_integer_wraps :
    decodeInt (encodeInt (-2147483648)) = -2147483648 ∧ decodeInt (encodeInt 1) = 1 ∧
    badScanParm 0 4 .INTEGER .LT = false ∧
    matchRec ⟨0, 4, .INTEGER, some (encodeInt 1), .LT⟩ ⟨encodeInt (-2147483648), 4⟩ = false ∧
    matchRec ⟨0, 4, .INTEGER, some (encodeInt 1), .GT⟩ ⟨encodeInt (-2147483648), 4⟩ = true ∧
    matchRec ⟨0, 4, .INTEGER, some (encodeInt 5), .EQ⟩ ⟨encodeInt 5, 4⟩ = true ∧
    matchRec ⟨0, 4, .INTEGER, some (encodeInt 5), .LT⟩ ⟨encodeInt 5, 4⟩ = false := by
  decide

/-- C10: the `STRING` filter with offset `2147483647` and length `2` passes the
parameter check of `startScan`, and although `offset + length` exceeds the
length of the three-byte record, `matchRec` does not answer `false`: the sum
formed in 32 bits is negative and the end-of-record check lets the record
through. -/
theorem matchRec_offset_wraps :
    badScanParm 2147483647 2 .STRING .NE = false ∧
    (2147483647 : Int) + 2 > rec3.length ∧
    wrapInt32 (wrapInt32 (2147483647 + 2) - 1) < rec3.length ∧
    matchRec ⟨2147483647, 2, .STRING, some [97, 98], .NE⟩ rec3 = true := by
  decide

/-! ### Oversized records -/

/-- C1: for a record longer than `PAGESIZE - DPFIXED`, `insertRecord` returns
`INVALIDRECLEN` and hands back the handle, the store (its call log, its pin
counts and its header with the record count) and the out-parameter exactly as
they were. -/
theorem insertRecord_oversized (PAGESIZE DPFIXED : Int) (h : InsertFileScan) (s : Store)
    (rec : Record) (outRid : RID) (hlen : rec.length > PAGESIZE - DPFIXED) :
    InsertFileScan.insertRecord PAGESIZE DPFIXED h s rec outRid
        = some (.INVALIDRECLEN, outRid, h, s) ∧
    ∀ r, InsertFileScan.insertRecord PAGESIZE DPFIXED h s rec outRid = some r →
      r.1 = .INVALIDRECLEN ∧ r.2.2.2.log = s.log ∧
      HeapFile.getRecCnt r.2.2.1 r.2.2.2 = HeapFile.getRecCnt h s := by
  have e : InsertFileScan.insertRecord PAGESIZE DPFIXED h s rec outRid
      = some (.INVALIDRECLEN, outRid, h, s) := by
    simp [InsertFileScan.insertRecord, hlen]
  refine ⟨e, ?_⟩
  intro r hr
  rw [e] at hr
  cases hr
  exact ⟨rfl, rfl, rfl⟩

/-- A record of 2000 bytes is longer than a page of 1024 bytes with 20 bytes of
overhead can take, and `insertRecord` rejects it without any effect. -/
theorem insertRecord_oversized_witness :
    (⟨[], 2000⟩ : Record).length > 1024 - 20 ∧
    (InsertFileScan.insertRecord 1024 20 freshInserter.1 freshInserter.2 ⟨[], 2000⟩ NULLRID
        = some (.INVALIDRECLEN, NULLRID, freshInserter.1, freshInserter.2) ∧
    ∀ r, InsertFileScan.insertRecord 1024 20 freshInserter.1 freshInserter.2 ⟨[], 2000⟩ NULLRID
        = some r →
      r.1 = .INVALIDRECLEN ∧ r.2.2.2.log = freshInserter.2.log ∧
      HeapFile.getRecCnt r.2.2.1 r.2.2.2
        = HeapFile.getRecCnt freshInserter.1 freshInserter.2) :=
  ⟨by decide, insertRecord_oversized 1024 20 freshInserter.1 freshInserter.2 ⟨[], 2000⟩ NULLRID
    (by decide)⟩

/-! ### Evaluations of the error paths -/

/-- C5: an inserter on the full last page 2 of its file; `allocPage` succeeds and
the `unPinPage` of the old page at line 578 fails.  `insertRecord` returns the
failure with the current page still page 2, while both page 2 and the newly
allocated page 3 are pinned. -/
theorem insertRecord_leaves_two_pages_pinned :
    (fullPageInserter.bind (fun x => InsertFileScan.insertRecord 24 20 x.1 x.2 rec3 NULLRID)).map
      (fun r => (r.1, r.2.2.1.curPage, r.2.2.1.curPageNo,
        r.2.2.2.pinnedDataPages r.2.2.1.headerPageNo))
    = some (.UNIXERR, some 2, 2, [2, 3]) := by
  decide

theorem pinLastPage_hdrDirtyFlag (h : InsertFileScan) (s : Store)
    (r : Status × InsertFileScan × Store) (hr : InsertFileScan.pinLastPage h s = some r) :
    r.2.1.hdrDirtyFlag = h.hdrDirtyFlag := by
  unfold InsertFileScan.pinLastPage at hr
  split at hr
  · dsimp only at hr
    split at hr
    · cases hr; rfl
    · split at hr
      · cases hr; rfl
      · split at hr
        · cases hr
        · cases hr; rfl
  · cases hr; rfl

theorem insertOverflow_hdrDirtyFlag (cap : Int) (h : InsertFileScan) (q : Int) (s : Store)
    (rec : Record) (out : RID) (r : Status × RID × InsertFileScan × Store)
    (hr : InsertFileScan.insertOverflow cap h q s rec out = some r) :
    r.2.2.1.hdrDirtyFlag = h.hdrDirtyFlag := by
  unfold InsertFileScan.insertOverflow at hr
  dsimp only at hr
  split at hr
  · cases hr; rfl
  · split at hr
    · cases hr; rfl
    · split at hr
      · cases hr; rfl
      · split at hr
        · cases hr
        · split at hr
          · cases hr; rfl
          · split at hr
            · cases hr; rfl
            · cases hr; rfl

/-- No path through `insertRecord` assigns `hdrDirtyFlag`. -/
theorem insertRecord_hdrDirtyFlag (PAGESIZE DPFIXED : Int) (h : InsertFileScan) (s : Store)
    (rec : Record) (out : RID) (r : Status × RID × InsertFileScan × Store)
    (hr : InsertFileScan.insertRecord PAGESIZE DPFIXED h s rec out = some r) :
    r.2.2.1.hdrDirtyFlag = h.hdrDirtyFlag := by
  unfold InsertFileScan.insertRecord at hr
  split at hr
  · cases hr; rfl
  · split at hr
    · cases hr
    · rename_i p hp
      have h1 := pinLastPage_hdrDirtyFlag h s p hp
      dsimp only at hr
      split at hr
      · cases hr; exact h1
      · split at hr
        · split at hr
          · cases hr; exact h1
          · split at hr
            · exact (insertOverflow_hdrDirtyFlag _ _ _ _ _ _ r hr).trans h1
            · cases hr; exact h1
        · cases hr

/-- C6: the first insert into a fresh file returns `OK` and raises the record
count of the header from 0 to 1, but `hdrDirtyFlag` is still `false`, and the
destructor then unpins the header page 1 as not dirty. -/
theorem insertRecord_keeps_header_clean :
    freshInserter.2.hdr.recCnt = 0 ∧
    oneRecordState.map (fun r => (r.1, r.2.2.1.hdrDirtyFlag, r.2.2.2.hdr.recCnt,
      (InsertFileScan.destruct r.2.2.1 r.2.2.2).2.log.drop r.2.2.2.log.length))
    = some (.OK, false, 1, [.unPinPage 2 true, .unPinPage 1 false, .closeFile]) := by
  decide

/-- C7: a scanner on a file with one record: after `scanNext` the record count
is 1 and the page holds 1 record; the first `deleteRecord` returns `OK` and
leaves count 0 and 0 records; the second `deleteRecord` fails with
`INVALIDSLOTNO` and still lowers the count, to -1, with 0 records stored. -/
theorem deleteRecord_counts_failed_delete :
    deleteTwice = some [(.OK, 1, 1), (.OK, 0, 0), (.INVALIDSLOTNO, -1, 0)] := by
  decide

/-! ### Creating a file that exists, and failures while creating -/

/-- C14: when the file exists and the page store does not make the `openFile`
call fail, `createHeapFile` returns `FILEEXISTS` and leaves the pages and the
header as they were, but the file is open once more than before: the only call
made is the `openFile`, and no `closeFile` follows it. -/
theorem createHeapFile_existing_stays_open (fileName : List Char) (s : Store)
    (hc : s.created = true) (hs : nextStatus s.script = .OK) :
    (createHeapFile fileName s).1 = .FILEEXISTS ∧
    (createHeapFile fileName s).2.frames = s.frames ∧
    (createHeapFile fileName s).2.hdr = s.hdr ∧
    (createHeapFile fileName s).2.log = s.log ++ [.openFile] ∧
    (createHeapFile fileName s).2.openCnt = s.openCnt + 1 := by
  have e := openFile_ok s hc hs
  unfold createHeapFile
  simp only [e]
  simp [Store.call]

/-- The file created in `emptyStore`, closed, and `createHeapFile` called for it again. -/
theorem createHeapFile_existing_stays_open_witness :
    freshStore.openCnt = 0 ∧
    (createHeapFile ['f'] freshStore).1 = .FILEEXISTS ∧
    (createHeapFile ['f'] freshStore).2.frames = freshStore.frames ∧
    (createHeapFile ['f'] freshStore).2.hdr = freshStore.hdr ∧
    (createHeapFile ['f'] freshStore).2.log = freshStore.log ++ [.openFile] ∧
    (createHeapFile ['f'] freshStore).2.openCnt = freshStore.openCnt + 1 :=
  ⟨by decide, createHeapFile_existing_stays_open ['f'] freshStore (by decide) (by decide)⟩

/-- C19: the file does not exist and the second `allocPage` fails: `createHeapFile`
returns that failure, and the header page (page 1), pinned by the first
`allocPage`, is still pinned; no `unPinPage` and no `closeFile` call was made and
the file is still open. -/
theorem createHeapFile_second_alloc_failure_leaves_pin :
    (createHeapFile ['f'] secondAllocFails).1 = .UNIXERR ∧
    (createHeapFile ['f'] secondAllocFails).2.pinCnt 1 = 1 ∧
    (createHeapFile ['f'] secondAllocFails).2.log =
      [.openFile, .createFile, .openFile, .allocPage, .allocPage] ∧
    (createHeapFile ['f'] secondAllocFails).2.openCnt = 1 := by
  decide

/-! ### Opening a handle -/

/-- C17: the read of the header page fails with `UNIXERR`.  When the number found
through the uninitialised page pointer names a page the file has (here 2), the
later read succeeds and the constructor reports `OK`; when it names no page of
the file (here 7), the constructor reports the failure of the later read,
`BADPAGENO`.  In neither case is the failure of the header read reported. -/
theorem construct_masks_header_read_failure :
    (readPage (getFirstPage (openFile headerReadFails).2 (-1)).2.2
      (getFirstPage (openFile headerReadFails).2 (-1)).2.1).1 = .UNIXERR ∧
    (HeapFile.construct blankHandle ⟨[], 2, 0, 0, 0⟩ headerReadFails .OK).1 = .OK ∧
    (HeapFile.construct blankHandle ⟨[], 2, 0, 0, 0⟩ headerReadFails .UNIXERR).1 = .OK ∧
    (HeapFile.construct blankHandle ⟨[], 7, 0, 0, 0⟩ headerReadFails .OK).1 = .BADPAGENO := by
  decide

/-! ### A scan restarted after `endScan` -/

/-- C16: a scanner without filter after `endScan` (no page pinned) on a file whose
first data page, page 2, holds the records (2,0) and (2,1): `scanNext` pins page
2 and returns `OK` with (2,1), the second record, not with the first record
(2,0) that `firstRecord` reports.  On a file with the single record (2,0) the
same call returns `FILEEOF`. -/
theorem scanNext_after_endScan_skips_first_record :
    (endedScanner (storeWith [rec3, rec3])).1.curPage = none ∧
    (endedScanner (storeWith [rec3, rec3])).1.filter = none ∧
    ((endedScanner (storeWith [rec3, rec3])).2.deref
        (some (endedScanner (storeWith [rec3, rec3])).2.hdr.firstPage)).map
      (fun pg => pg.firstRecord NULLRID) = some (.OK, ⟨2, 0⟩) ∧
    (HeapFileScan.scanNext 5 NULLRID (endedScanner (storeWith [rec3, rec3])).1
        (endedScanner (storeWith [rec3, rec3])).2 NULLRID).map
      (fun r => (r.1, r.2.1, r.2.2.1.curPage)) = some (.OK, ⟨2, 1⟩, some 2) ∧
    ((endedScanner (storeWith [rec3])).2.deref
        (some (endedScanner (storeWith [rec3])).2.hdr.firstPage)).map
      (fun pg => pg.firstRecord NULLRID) = some (.OK, ⟨2, 0⟩) ∧
    (HeapFileScan.scanNext 5 NULLRID (endedScanner (storeWith [rec3])).1
        (endedScanner (storeWith [rec3])).2 NULLRID).map
      (fun r => (r.1, r.2.1)) = some (.FILEEOF, NULLRID) := by
  decide

/-! ### An insert into an empty last page -/

/-- C20: the last page of the file, page 3, holds no record (its only slot is
empty) and the header counts one record; a newly opened inserter has its cursor
on page 2.  `insertRecord` of a record of three bytes, which the empty page has
room for, returns `NORECORDS`; the page is still empty and the count still 1. -/
theorem insertRecord_empty_last_page :
    emptiedLastPage.map (fun s => (s.hdr.firstPage, s.hdr.lastPage, s.hdr.recCnt,
      s.deref (some 3))) = some (2, 3, 1, some ⟨3, -1, [none]⟩) ∧
    (Page.insertRecord (24 - 20) ⟨3, -1, [none]⟩ rec3 NULLRID).1 = .OK ∧
    emptiedLastPage.map (fun s => ((inserterOn s).1, (inserterOn s).2.1.curPage,
      (inserterOn s).2.1.curPageNo)) = some (.OK, some 2, 2) ∧
    emptiedLastPage.bind (fun s =>
      (InsertFileScan.insertRecord 24 20 (inserterOn s).2.1 (inserterOn s).2.2 rec3 NULLRID).map
        (fun r => (r.1, r.2.1, r.2.2.2.hdr.recCnt, r.2.2.2.deref (some 3))))
      = some (.NORECORDS, NULLRID, 1, some ⟨3, -1, [none]⟩) := by
  decide

/-! ### Reading a record by RID -/

theorem startScan_toHeapFile (h : HeapFileScan) (offset_ length_ : Int) (type_ : Datatype)
    (filter_ : Option (List Nat)) (op_ : Operator) :
    (h.startScan offset_ length_ type_ filter_ op_).2.toHeapFile = h.toHeapFile := by
  unfold HeapFileScan.startScan
  split
  · rfl
  · split <;> rfl

/-- C18: a handle whose cursor page is pinned, and a RID `rid` whose page `pg` the
file has.  If `rid.pageNo` is the current page, `getRecord` returns the result
of the page for `rid` and changes nothing but `curRec`, which becomes `rid`: the
store, and with it the log of calls, is the same, and so are `curPageNo` and the
dirty flag.  Otherwise, when the page store does not make the next two calls
fail, it returns the result of page `rid.pageNo` for `rid`, the calls made are
the `unPinPage` of the current page with the current dirty flag and the
`readPage` of `rid.pageNo`, the old page has one pin less and the new one a pin
more, and afterwards the cursor is on page `rid.pageNo` with `curRec = rid`. -/
theorem getRecord_moves_to_page_of_rid (h : HeapFile) (s : Store) (rid : RID) (rec : Record)
    (pg : Page) (hcur : h.curPage = some h.curPageNo) (hpin : 0 < s.pinCnt h.curPageNo)
    (hpg : s.deref (some rid.pageNo) = some pg) :
    (rid.pageNo = h.curPageNo →
      h.getRecord s rid rec =
        some ((pg.getRecord rid rec).1, (pg.getRecord rid rec).2, { h with curRec := rid }, s)) ∧
    (rid.pageNo ≠ h.curPageNo → scriptOk 2 s.script →
      ∃ h' s', h.getRecord s rid rec =
          some ((pg.getRecord rid rec).1, (pg.getRecord rid rec).2, h', s') ∧
        s'.log = s.log ++ [.unPinPage h.curPageNo h.curDirtyFlag, .readPage rid.pageNo] ∧
        h'.curPage = some rid.pageNo ∧ h'.curPageNo = rid.pageNo ∧ h'.curRec = rid ∧
        s'.pinCnt h.curPageNo = s.pinCnt h.curPageNo - 1 ∧
        s'.pinCnt rid.pageNo = s.pinCnt rid.pageNo + 1 ∧
        (∀ q, s'.deref (some q) = s.deref (some q)) ∧ s'.hdr = s.hdr) := by
  constructor
  · intro he
    have hd : s.deref (some h.curPageNo) = some pg := by rw [← he]; exact hpg
    simp [HeapFile.getRecord, hcur, he, hd]
  · intro hne hs
    have hne' : ¬ h.curPageNo = rid.pageNo := fun e => hne e.symm
    have hu := unPinPage_ok s h.curPageNo h.curDirtyFlag (scriptOk_head hs) hpin
    have huf := unPinPage_fields s h.curPageNo h.curDirtyFlag
    have hs1 : nextStatus (unPinPage s h.curPageNo h.curDirtyFlag).2.script = .OK := by
      rw [huf.2.2.1]
      exact scriptOk_head (scriptOk_tail hs)
    have hq : ((unPinPage s h.curPageNo h.curDirtyFlag).2.deref (some rid.pageNo)).isSome := by
      rw [huf.2.2.2.2.2.2.2, hpg]; rfl
    have hr := readPage_ok (unPinPage s h.curPageNo h.curDirtyFlag).2 rid.pageNo hs1 hq
    have hrf := readPage_fields (unPinPage s h.curPageNo h.curDirtyFlag).2 rid.pageNo
    have hd2 : (readPage (unPinPage s h.curPageNo h.curDirtyFlag).2 rid.pageNo).2.deref
        (some rid.pageNo) = some pg := by
      rw [hrf.2.2.2.2.2.2.2, huf.2.2.2.2.2.2.2, hpg]
    refine ⟨{ h with curPageNo := rid.pageNo, curRec := rid, curDirtyFlag := false,
                     curPage := some rid.pageNo },
      (readPage (unPinPage s h.curPageNo h.curDirtyFlag).2 rid.pageNo).2, ?_, ?_, rfl, rfl, rfl,
      ?_, ?_, ?_, ?_⟩
    · simp [HeapFile.getRecord, hne', hu.1, hr.1, hd2]
    · rw [hrf.2.1, huf.2.1]; simp
    · rw [hr.2, if_neg hne', hu.2, if_pos rfl]
    · rw [hr.2, if_pos rfl, hu.2, if_neg hne]
    · intro q
      rw [hrf.2.2.2.2.2.2.2, huf.2.2.2.2.2.2.2]
    · rw [hrf.1, huf.1]

/-- The scanner of `threePageScanner`, with its cursor on page 2, reads the record
(2,0) of its own page and the record (3,0) of page 3. -/
theorem getRecord_moves_to_page_of_rid_witness :
    threePageScanner.1.toHeapFile.getRecord threePageScanner.2 ⟨2, 0⟩ ⟨[], 0⟩ =
      some (.OK, rec3, { threePageScanner.1.toHeapFile with curRec := ⟨2, 0⟩ },
        threePageScanner.2) ∧
    ∃ h' s', threePageScanner.1.toHeapFile.getRecord threePageScanner.2 ⟨3, 0⟩ ⟨[], 0⟩ =
        some (.OK, rec3, h', s') ∧
      s'.log = threePageScanner.2.log ++ [.unPinPage 2 false, .readPage 3] ∧
      h'.curPage = some 3 ∧ h'.curPageNo = 3 ∧ h'.curRec = ⟨3, 0⟩ ∧
      s'.pinCnt 2 = threePageScanner.2.pinCnt 2 - 1 ∧
      s'.pinCnt 3 = threePageScanner.2.pinCnt 3 + 1 ∧
      (∀ q, s'.deref (some q) = threePageScanner.2.deref (some q)) ∧
      s'.hdr = threePageScanner.2.hdr :=
  ⟨(getRecord_moves_to_page_of_rid threePageScanner.1.toHeapFile threePageScanner.2 ⟨2, 0⟩
      ⟨[], 0⟩ ⟨2, 3, [some rec3]⟩ (by decide) (by decide) (by decide)).1 (by decide),
   (getRecord_moves_to_page_of_rid threePageScanner.1.toHeapFile threePageScanner.2 ⟨3, 0⟩
      ⟨[], 0⟩ ⟨3, 4, [some rec3]⟩ (by decide) (by decide) (by decide)).2 (by decide) (by decide)⟩

/-! ### The first `scanNext` on a fresh file -/

/-- C15: `createHeapFile` on a store without the file and with a page store that
makes no call fail returns `OK` and leaves the header with `firstPage = lastPage`
= page 2, `pageCnt = 1`, `recCnt = 0` and page 2 empty with next-page link `-1`.
A scanner opened on that file, whatever `startScan` was given (no filter, a
filter that passes the parameter check or one that does not), gets `FILEEOF` from
its first `scanNext`, with the out-parameter untouched. -/
theorem scanNext_fresh_file_eof (fileName : List Char) (s0 : Store) (hnew : s0.created = false)
    (hq : quiet s0.script) (blank : HeapFileScan) (wild : FileHdrPage) (st : Status)
    (offset_ length_ : Int) (type_ : Datatype) (filter_ : Option (List Nat)) (op_ : Operator)
    (tmpRid outRid : RID) (fuel : Nat) (hfuel : 1 ≤ fuel) :
    (createHeapFile fileName s0).1 = .OK ∧
    (createHeapFile fileName s0).2.hdr = ⟨fileName, 2, 2, 1, 0⟩ ∧
    (createHeapFile fileName s0).2.deref (some 2) = some ⟨2, -1, []⟩ ∧
    (HeapFileScan.construct blank wild (createHeapFile fileName s0).2 st).1 = .OK ∧
    ∃ h' s',
      ((HeapFileScan.construct blank wild (createHeapFile fileName s0).2 st).2.1.startScan
          offset_ length_ type_ filter_ op_).2.scanNext fuel tmpRid
        (HeapFileScan.construct blank wild (createHeapFile fileName s0).2 st).2.2 outRid
        = some (.FILEEOF, outRid, h', s') := by
  obtain ⟨c1, c2, c3, c4, c5, c6⟩ := createHeapFile_fresh fileName s0 hnew hq
  have hqC : quiet (createHeapFile fileName s0).2.script := by
    rw [c2]
    exact quiet_tail (quiet_tail (quiet_tail (quiet_tail (quiet_tail (quiet_tail
      (quiet_tail (quiet_tail (quiet_tail hq))))))))
  have hd : ∀ q, (createHeapFile fileName s0).2.deref (some q)
      = (getFrame [⟨rawPage, 0⟩, ⟨rawPage, 0⟩, ⟨⟨2, -1, []⟩, 0⟩] q).map (fun f => f.page) := by
    intro q
    simp [Store.deref, Store.frame?, c6]
  have hh : ((createHeapFile fileName s0).2.deref
      (some (createHeapFile fileName s0).2.firstPage)).isSome := by
    rw [c4, hd]; decide
  have hf : ((createHeapFile fileName s0).2.deref
      (some (createHeapFile fileName s0).2.hdr.firstPage)).isSome := by
    rw [c5, hd]; simp [getFrame]
  obtain ⟨k1, k2, k3, k4, k5, -, -, -, -⟩ :=
    construct_ok blank.toHeapFile wild (createHeapFile fileName s0).2 st c3 hqC hh hf
  rw [c5] at k2 k5
  have hd2 : (createHeapFile fileName s0).2.deref (some 2) = some ⟨2, -1, []⟩ := by
    rw [hd]; decide
  refine ⟨c1, c5, hd2, k1, ?_⟩
  have hsc : ((HeapFileScan.construct blank wild (createHeapFile fileName s0).2 st).2.1.startScan
      offset_ length_ type_ filter_ op_).2.toHeapFile
      = ⟨(createHeapFile fileName s0).2.firstPage, false, some 2, 2, false, NULLRID⟩ := by
    rw [startScan_toHeapFile]
    exact k2
  have hpos : Positioned
      ((HeapFileScan.construct blank wild (createHeapFile fileName s0).2 st).2.1.startScan
        offset_ length_ type_ filter_ op_).2
      (HeapFileScan.construct blank wild (createHeapFile fileName s0).2 st).2.2
      [⟨2, -1, []⟩] := by
    refine ⟨?_, ?_, ?_, ?_, k3⟩
    · simp only [IsChain]
      refine ⟨?_, trivial⟩
      show (HeapFile.construct blank.toHeapFile wild (createHeapFile fileName s0).2 st).2.2.deref
        (some 2) = _
      rw [k4]; exact hd2
    · show HeapFile.curPage _ = some (HeapFile.curPageNo _)
      rw [hsc]
    · show _ = some (HeapFile.curPageNo _)
      rw [hsc]; rfl
    · show 0 < Store.pinCnt _ (HeapFile.curPageNo _)
      rw [hsc]; exact k5
  obtain ⟨r, hr1, hr2⟩ := scanNext_spec _ _ _ tmpRid outRid hpos fuel (by
    simp [candidates, chainRecords, Page.recordsAfter, Page.recordsFrom, occupiedFrom]
    exact hfuel)
  rcases hr2 with ⟨e1, e2, -⟩ | ⟨-, sk, c, pre, ch, e2, -⟩
  · refine ⟨r.2.2.1, r.2.2.2, ?_⟩
    rw [hr1, ← e1, ← e2]
  · have hc0 : ∀ k, candidates [(⟨2, -1, []⟩ : Page)] k = [] := by
      intro k
      simp [candidates, chainRecords, Page.recordsAfter, Page.recordsFrom, occupiedFrom]
    rw [hc0] at e2
    simp at e2

/-- The file created in `emptyStore`, a scanner with the filter of four bytes at
offset 0 compared as an integer. -/
theorem scanNext_fresh_file_eof_witness :
    emptyStore.created = false ∧ quiet emptyStore.script ∧
    (createHeapFile ['f'] emptyStore).1 = .OK ∧
    (createHeapFile ['f'] emptyStore).2.hdr = ⟨['f'], 2, 2, 1, 0⟩ ∧
    (createHeapFile ['f'] emptyStore).2.deref (some 2) = some ⟨2, -1, []⟩ ∧
    (HeapFileScan.construct blankScan wildHdr (createHeapFile ['f'] emptyStore).2 .OK).1 = .OK ∧
    ∃ h' s',
      ((HeapFileScan.construct blankScan wildHdr (createHeapFile ['f'] emptyStore).2 .OK).2.1.startScan
          0 4 .INTEGER (some [5, 0, 0, 0]) .EQ).2.scanNext 1 NULLRID
        (HeapFileScan.construct blankScan wildHdr (createHeapFile ['f'] emptyStore).2 .OK).2.2
        NULLRID = some (.FILEEOF, NULLRID, h', s') :=
  ⟨rfl, by decide,
    scanNext_fresh_file_eof ['f'] emptyStore rfl (by decide) blankScan wildHdr .OK 0 4 .INTEGER
      (some [5, 0, 0, 0]) .EQ NULLRID NULLRID 1 (le_refl 1)⟩

/-! ### The string comparison -/

/-- The operator of a filter looks at nothing but the sign of the difference. -/
theorem applyOp_sign (op : Operator) (d e : Int) (h1 : d < 0 ↔ e < 0) (h2 : d = 0 ↔ e = 0) :
    applyOp op (some d) = applyOp op (some e) := by
  cases op <;> simp only [applyOp, decide_eq_decide] <;> omega

theorem strncmp_succ (a b : List Nat) (n : Nat) :
    strncmp a b (n + 1) =
      if a.headD 0 % 256 ≠ b.headD 0 % 256 then ((a.headD 0 % 256 : Nat) : Int) - (b.headD 0 % 256 : Nat)
      else if a.headD 0 % 256 = 0 then 0 else strncmp a.tail b.tail n := rfl

/-- On bytes below 256, `strncmp` has the sign of the lexicographic order of the
two ranges of `n` bytes, each cut off before its first zero byte. -/
theorem strncmp_sign (n : Nat) : ∀ (a b : List Nat), (∀ x ∈ a, x < 256) → (∀ x ∈ b, x < 256) →
    ((strncmp a b n < 0 ↔ lexOrder (cutAtZero (a.take n)) (cutAtZero (b.take n)) < 0) ∧
     (strncmp a b n = 0 ↔ lexOrder (cutAtZero (a.take n)) (cutAtZero (b.take n)) = 0)) := by
  induction n with
  | zero =>
    intro a b _ _
    simp [strncmp, cutAtZero, lexOrder]
  | succ n ih =>
    intro a b ha hb
    rw [strncmp_succ]
    cases a with
    | nil =>
      cases b with
      | nil => simp [cutAtZero, lexOrder]
      | cons y bs =>
        have hy : y < 256 := hb y (by simp)
        have hy' : y % 256 = y := Nat.mod_eq_of_lt hy
        simp only [List.headD_nil, List.headD_cons, Nat.zero_mod, hy', List.take_nil,
          List.take_succ_cons, cutAtZero]
        by_cases h0 : y = 0
        · subst h0
          simp [lexOrder]
        · have h0' : ¬ (0 = y) := fun e => h0 e.symm
          simp only [ne_eq, h0', not_false_eq_true, if_true, h0, if_false, lexOrder]
          omega
    | cons x as =>
      have hx : x < 256 := ha x (by simp)
      have hx' : x % 256 = x := Nat.mod_eq_of_lt hx
      have has : ∀ z ∈ as, z < 256 := fun z hz => ha z (by simp [hz])
      cases b with
      | nil =>
        simp only [List.headD_nil, List.headD_cons, Nat.zero_mod, hx', List.take_nil,
          List.take_succ_cons, cutAtZero]
        by_cases h0 : x = 0
        · subst h0
          simp [lexOrder]
        · simp only [ne_eq, h0, not_false_eq_true, if_true, if_false, lexOrder]
          omega
      | cons y bs =>
        have hy : y < 256 := hb y (by simp)
        have hy' : y % 256 = y := Nat.mod_eq_of_lt hy
        have hbs : ∀ z ∈ bs, z < 256 := fun z hz => hb z (by simp [hz])
        simp only [List.headD_cons, hx', hy', List.take_succ_cons, cutAtZero, List.tail_cons]
        by_cases hxy : x = y
        · subst hxy
          by_cases h0 : x = 0
          · subst h0
            simp [lexOrder]
          · simp only [ne_eq, not_true_eq_false, if_false, h0, lexOrder, lt_irrefl]
            exact ih as bs has hbs
        · by_cases hx0 : x = 0
          · subst hx0
            have hy0 : ¬ y = 0 := fun e => hxy e.symm
            simp only [ne_eq, hxy, not_false_eq_true, if_true, hy0, if_false, lexOrder]
            omega
          · by_cases hy0 : y = 0
            · subst hy0
              simp only [ne_eq, hxy, not_false_eq_true, if_true, hx0, if_false, lexOrder]
              omega
            · simp only [ne_eq, hxy, not_false_eq_true, if_true, hx0, hy0, if_false, lexOrder]
              by_cases hlt : x < y
              · simp only [hlt, if_true]
                omega
              · have hgt : y < x := by omega
                simp only [hlt, if_false, hgt, if_true]
                omega

theorem cutAtZero_of_no_zero (l : List Nat) (h : 0 ∉ l) : cutAtZero l = l := by
  induction l with
  | nil => rfl
  | cons b bs ih =>
    have hb : ¬ b = 0 := fun e => h (by simp [e])
    have hbs : 0 ∉ bs := fun e => h (by simp [e])
    simp [cutAtZero, hb, ih hbs]

/-- C11 as worded fails: the record bytes 97, 0, 98 and the literal 97, 0, 99
under a `STRING` filter of length 3 with operator `EQ` differ in their third
byte, so the order of exactly three bytes is not "equal", yet `matchRec` answers
`true`: the comparison stops at the zero byte. -/
theorem matchRec_string_exact_fails :
    badScanParm 0 3 .STRING .EQ = false ∧
    matchRec ⟨0, 3, .STRING, some [97, 0, 99], .EQ⟩ ⟨[97, 0, 98], 3⟩ = true ∧
    stringMatchExact ⟨0, 3, .STRING, some [97, 0, 99], .EQ⟩ [97, 0, 99] ⟨[97, 0, 98], 3⟩
      = false := by
  decide

/-- C11, amended: for a `STRING` filter with offset at least 0 and length `n` at
least 1 and a record with `offset + n` within its length, all bytes below 256,
`matchRec` applies the operator to the lexicographic order of the `n` bytes of
the record from the offset on against the first `n` bytes of the literal, each
range cut off before its first zero byte; when neither range holds a zero byte,
that is the order of exactly the `n` bytes. -/
theorem matchRec_string_cut (f : ScanFilter) (flt : List Nat) (rec : Record)
    (hf : f.filter = some flt) (ht : f.type = .STRING) (h0 : 0 ≤ f.offset) (h1 : 1 ≤ f.length)
    (hend : f.offset + f.length ≤ rec.length) (hrl : rec.length ≤ 2147483647)
    (hrec : ∀ x ∈ rec.data, x < 256) (hflt : ∀ x ∈ flt, x < 256) :
    matchRec f rec = stringMatchCut f flt rec ∧
    (0 ∉ (rec.data.drop f.offset.toNat).take f.length.toNat → 0 ∉ flt.take f.length.toNat →
      matchRec f rec = stringMatchExact f flt rec) := by
  have e1 : wrapInt32 (f.offset + f.length) = f.offset + f.length :=
    wrapInt32_of_range _ (by omega) (by omega)
  have e2 : wrapInt32 (f.offset + f.length - 1) = f.offset + f.length - 1 :=
    wrapInt32_of_range _ (by omega) (by omega)
  have h3 : ¬ rec.length ≤ f.offset + f.length - 1 := by omega
  have hattr : ∀ x ∈ rec.data.drop f.offset.toNat, x < 256 :=
    fun x hx => hrec x (List.mem_of_mem_drop hx)
  obtain ⟨s1, s2⟩ := strncmp_sign f.length.toNat (rec.data.drop f.offset.toNat) flt hattr hflt
  have key := applyOp_sign f.op _ _ s1 s2
  have main : matchRec f rec = stringMatchCut f flt rec := by
    simp only [matchRec, hf, e1, e2, ge_iff_le, h3, if_false, ht, stringMatchCut]
    exact key
  refine ⟨main, ?_⟩
  intro ha hb
  rw [main]
  unfold stringMatchCut stringMatchExact
  rw [cutAtZero_of_no_zero _ ha, cutAtZero_of_no_zero _ hb]

/-- The filter "abc" of length 3 at offset 1 on the record "xabd", and the filter
with the bytes 97, 0, 99 on the record with the bytes 97, 0, 98. -/
theorem matchRec_string_cut_witness :
    matchRec ⟨1, 3, .STRING, some [97, 98, 99], .LT⟩ ⟨[120, 97, 98, 100], 4⟩
      = stringMatchExact ⟨1, 3, .STRING, some [97, 98, 99], .LT⟩ [97, 98, 99]
          ⟨[120, 97, 98, 100], 4⟩ ∧
    matchRec ⟨0, 3, .STRING, some [97, 0, 99], .EQ⟩ ⟨[97, 0, 98], 3⟩
      = stringMatchCut ⟨0, 3, .STRING, some [97, 0, 99], .EQ⟩ [97, 0, 99] ⟨[97, 0, 98], 3⟩ :=
  ⟨(matchRec_string_cut ⟨1, 3, .STRING, some [97, 98, 99], .LT⟩ [97, 98, 99]
      ⟨[120, 97, 98, 100], 4⟩ rfl rfl (by decide) (by decide) (by decide) (by decide)
      (by decide) (by decide)).2 (by decide) (by decide),
   (matchRec_string_cut ⟨0, 3, .STRING, some [97, 0, 99], .EQ⟩ [97, 0, 99]
      ⟨[97, 0, 98], 3⟩ rfl rfl (by decide) (by decide) (by decide) (by decide)
      (by decide) (by decide)).1⟩

/-! ### Repeated scans -/

theorem Advanced.refl {h : HeapFileScan} {s : Store} {chain : List Page}
    (hp : Positioned h s chain) : Advanced h s h s chain :=
  ⟨⟨[], chain, rfl, hp⟩, fun _ => rfl, rfl, rfl, rfl, rfl⟩

theorem Advanced.trans {h h1 h2 : HeapFileScan} {s s1 s2 : Store} {chain pre chain1 : List Page}
    (a : Advanced h s h1 s1 chain) (hc : chain = pre ++ chain1)
    (b : Advanced h1 s1 h2 s2 chain1) : Advanced h s h2 s2 chain := by
  obtain ⟨pre2, chain2, e2, p2⟩ := b.rest
  refine ⟨⟨pre ++ pre2, chain2, by rw [hc, e2]; simp, p2⟩, ?_, ?_, ?_, ?_, ?_⟩
  · intro q; rw [b.pages, a.pages]
  · rw [b.hdr, a.hdr]
  · rw [b.flt, a.flt]
  · rw [b.markedPageNo, a.markedPageNo]
  · rw [b.markedRec, a.markedRec]

theorem ite_curRec (P : Prop) [Decidable P] (h : HeapFileScan) (c : RID) :
    ∃ c', (if P then ({ h with curRec := c } : HeapFileScan) else h)
      = ({ h with curRec := c' } : HeapFileScan) := by
  by_cases hP : P
  · exact ⟨c, by rw [if_pos hP]⟩
  · exact ⟨h.curRec, by rw [if_neg hP]⟩

theorem scanTail_state (F N : Status) (h : HeapFileScan) (s : Store) (out : RID) (x : ScanStep)
    (hx : HeapFileScan.scanTail F N h s out = some x) : x.state = (h, s) := by
  unfold HeapFileScan.scanTail at hx
  split at hx
  · cases hx
  · dsimp only at hx
    split at hx
    · cases hx; rfl
    · split at hx <;> (cases hx; rfl)

/-- One pass through the loop body of `scanNext` on a positioned scanner moves
the cursor along the chain and changes nothing else. -/
theorem scanStep_frame (F N R : Status) (h : HeapFileScan) (s : Store) (out : RID)
    (chain : List Page) (hp : Positioned h s chain) (x : ScanStep)
    (hx : HeapFileScan.scanStep F N R h s out = some x) :
    Advanced h s x.state.1 x.state.2 chain := by
  cases chain with
  | nil => exact absurd hp.isChain (by simp [IsChain])
  | cons pg rest =>
    obtain ⟨hd, hno⟩ := hp.deref
    have key : ∀ (c : RID), Advanced h s ({ h with curRec := c } : HeapFileScan) s (pg :: rest) :=
      fun c => ⟨⟨[], pg :: rest, rfl, ⟨hp.isChain, hp.cur, hp.head, hp.pinned, hp.quiet⟩⟩,
        fun _ => rfl, rfl, rfl, rfl, rfl⟩
    unfold HeapFileScan.scanStep at hx
    rw [hd] at hx
    dsimp only at hx
    generalize (if F = Status.OK then pg.nextRecord h.curRec NULLRID else (N, NULLRID)) = nr at hx
    obtain ⟨c, hc⟩ := ite_curRec (F = Status.OK ∧ nr.1 = Status.OK) h nr.2
    rw [hc] at hx
    by_cases hn : nr.1 = .OK
    · simp only [hn, ne_eq, not_true_eq_false, if_false] at hx
      have := scanTail_state _ _ _ _ _ _ hx
      rw [this]
      exact key c
    · rw [if_pos hn] at hx
      simp only [Page.getNextPage, ne_eq, not_true_eq_false, if_false] at hx
      by_cases hlast : pg.nextPage = -1
      · rw [if_pos hlast] at hx
        cases hx
        exact key c
      · rw [if_neg hlast] at hx
        cases rest with
        | nil => exact absurd hp.isChain.2 hlast
        | cons pg' rest' =>
          have hch := hp.isChain
          simp only [IsChain] at hch
          obtain ⟨-, hnext, hne, hc'⟩ := hch
          have hq : s.deref (some pg'.curPage) = some pg' := IsChain_head s pg' rest' hc'
          obtain ⟨o1, o2, o3, o4, o5, o6⟩ := hop_ok s h.curPageNo pg'.curPage h.curDirtyFlag
            hp.quiet hp.pinned (by rw [hq]; rfl)
          have hd2 : (readPage (unPinPage s h.curPageNo h.curDirtyFlag).2 pg'.curPage).2.deref
              (some pg'.curPage) = some pg' := by rw [o4]; exact hq
          have adv : ∀ (c' : RID), Advanced h s (h.moveTo pg'.curPage c')
              (readPage (unPinPage s h.curPageNo h.curDirtyFlag).2 pg'.curPage).2
              (pg :: pg' :: rest') :=
            fun c' => ⟨⟨[pg], pg' :: rest', rfl,
              ⟨IsChain_congr s _ _ o4 hc', rfl, rfl, o5, o3⟩⟩, o4, o6, rfl, rfl, rfl⟩
          rw [hnext] at hx
          simp only [o1, o2, ne_eq, not_true_eq_false, if_false, hd2] at hx
          by_cases hf : (pg'.firstRecord c).1 = .OK
          · simp only [hf, not_true_eq_false, if_false] at hx
            have := scanTail_state _ _ _ _ _ _ hx
            rw [this]
            exact adv _
          · rw [if_pos hf] at hx
            cases hx
            exact adv _

theorem scanLoop_frame (fuel : Nat) : ∀ (i R F N : Status) (h : HeapFileScan) (s : Store)
    (out : RID) (chain : List Page) (r : Status × RID × HeapFileScan × Store),
    Positioned h s chain → HeapFileScan.scanLoop fuel i R F N h s out = some r →
    Advanced h s r.2.2.1 r.2.2.2 chain := by
  induction fuel with
  | zero =>
    intro i R F N h s out chain r _ hr
    simp [HeapFileScan.scanLoop] at hr
  | succ fuel ih =>
    intro i R F N h s out chain r hp hr
    unfold HeapFileScan.scanLoop at hr
    split at hr
    · cases hx : HeapFileScan.scanStep F N R h s out with
      | none => simp [hx] at hr
      | some x =>
        have adv := scanStep_frame F N R h s out chain hp x hx
        rw [hx] at hr
        cases x with
        | ret r' =>
          simp only [Option.some.injEq] at hr
          subst hr
          exact adv
        | next f n rs h1 s1 =>
          simp only at hr
          obtain ⟨pre, chain1, e1, p1⟩ := adv.rest
          exact Advanced.trans adv e1 (ih _ _ _ _ _ _ _ _ _ p1 hr)
    · cases hr
      exact Advanced.refl hp

/-- A `scanNext` call on a positioned scanner moves the cursor along the chain
and changes nothing else. -/
theorem scanNext_frame (h : HeapFileScan) (s : Store) (chain : List Page) (tmpRid outRid : RID)
    (fuel : Nat) (r : Status × RID × HeapFileScan × Store) (hp : Positioned h s chain)
    (hr : h.scanNext fuel tmpRid s outRid = some r) : Advanced h s r.2.2.1 r.2.2.2 chain := by
  unfold HeapFileScan.scanNext at hr
  rw [hp.cur] at hr
  simp only [Option.isNone_some, Bool.false_eq_true, if_false] at hr
  exact scanLoop_frame fuel _ _ _ _ h s outRid chain r hp hr

theorem occupiedFrom_length (l : List (Option Record)) (i : Nat) :
    (occupiedFrom l i).length = (l.filter (fun o => o.isSome)).length := by
  induction l generalizing i with
  | nil => rfl
  | cons a t ih => cases a <;> simp [occupiedFrom, ih]

theorem recordsFrom_length_le (pg : Page) (start : Nat) :
    (pg.recordsFrom start).length ≤ pg.records.length := by
  simp only [Page.recordsFrom, Page.records, List.length_map, occupiedFrom_length, List.drop_zero]
  exact ((List.drop_sublist start pg.slots).filter _).length_le

theorem candidates_length_le (chain : List Page) (k : Int) :
    (candidates chain k).length ≤ (chainRecords chain).length := by
  cases chain with
  | nil => simp [candidates, chainRecords]
  | cons pg rest =>
    simp only [candidates, chainRecords, List.length_append, Page.recordsAfter]
    have := recordsFrom_length_le pg (k + 1).toNat
    omega

theorem chainRecords_rest_length (pre chain' : List Page) :
    (chainRecords chain').length ≤ (chainRecords (pre ++ chain')).length := by
  rw [chainRecords_append]
  simp

/-- Every record listed for a page sits in the slot its RID names. -/
theorem mem_recordsFrom (pg : Page) : ∀ (n start : Nat), (pg.recordsFrom start).length = n →
    ∀ x ∈ pg.recordsFrom start, x.1.pageNo = pg.curPage ∧ pg.slot? x.1.slotNo = some x.2 := by
  intro n
  induction n with
  | zero =>
    intro start hl x hx
    rw [List.length_eq_zero.mp hl] at hx
    simp at hx
  | succ n ih =>
    intro start hl x hx
    cases hr : pg.recordsFrom start with
    | nil => rw [hr] at hl; simp at hl
    | cons c t =>
      obtain ⟨j, e1, -, e3, e4⟩ := recordsFrom_cons pg start c t hr
      rw [hr] at hx hl
      rcases List.mem_cons.mp hx with h1 | h1
      · subst h1
        rw [e1]
        exact ⟨rfl, e3⟩
      · rw [e4] at h1 hl
        exact ih (j + 1) (by simpa using hl) x h1

theorem mem_chainRecords (chain : List Page) : ∀ x ∈ chainRecords chain,
    ∃ pg ∈ chain, x.1.pageNo = pg.curPage ∧ pg.slot? x.1.slotNo = some x.2 := by
  induction chain with
  | nil => intro x hx; simp [chainRecords] at hx
  | cons pg rest ih =>
    intro x hx
    simp only [chainRecords, List.mem_append] at hx
    rcases hx with h1 | h1
    · exact ⟨pg, by simp, mem_recordsFrom pg _ 0 rfl x h1⟩
    · obtain ⟨pg', m, hh⟩ := ih x h1
      exact ⟨pg', by simp [m], hh⟩

theorem mem_candidates (chain : List Page) (k : Int) : ∀ x ∈ candidates chain k,
    ∃ pg ∈ chain, x.1.pageNo = pg.curPage ∧ pg.slot? x.1.slotNo = some x.2 := by
  cases chain with
  | nil => intro x hx; simp [candidates] at hx
  | cons pg rest =>
    intro x hx
    simp only [candidates, List.mem_append] at hx
    rcases hx with h1 | h1
    · exact ⟨pg, by simp, mem_recordsFrom pg _ _ rfl x h1⟩
    · obtain ⟨pg', m, hh⟩ := mem_chainRecords rest x h1
      exact ⟨pg', by simp [m], hh⟩

/-- The records ahead of the cursor on a page chain of the file are stored in the
file. -/
theorem candidates_stored (s : Store) (chain : List Page) (k : Int) (hc : IsChain s chain) :
    ∀ x ∈ candidates chain k, Stored s x.1 := by
  intro x hx
  obtain ⟨pg, m, e1, e2⟩ := mem_candidates chain k x hx
  refine ⟨pg, ?_, by rw [e2]; rfl⟩
  rw [e1]
  exact IsChain_mem s chain hc pg m

theorem Stored_congr (s s' : Store) (rid : RID) (h : ∀ q, s'.deref (some q) = s.deref (some q))
    (hs : Stored s' rid) : Stored s rid := by
  obtain ⟨pg, e1, e2⟩ := hs
  exact ⟨pg, by rw [← h]; exact e1, e2⟩

theorem find?_first {α : Type} (p : α → Bool) (a : List α) (x : α) (b : List α)
    (ha : ∀ y ∈ a, p y = false) (hx : p x = true) : (a ++ x :: b).find? p = some x := by
  induction a with
  | nil => simp [hx]
  | cons y a' ih =>
    have hy := ha y (by simp)
    simp only [List.cons_append, List.find?_cons, hy]
    exact ih (fun z hz => ha z (by simp [hz]))

/-- What `scanNext` reports is determined by the records ahead of the cursor and
the filter. -/
theorem ScanResult_det (flt : ScanFilter) (cands : List (RID × Record)) (chain1 chain2 : List Page)
    (out : RID) (r1 r2 : Status × RID × HeapFileScan × Store)
    (h1 : ScanResult flt cands chain1 out r1) (h2 : ScanResult flt cands chain2 out r2) :
    r1.1 = r2.1 ∧ r1.2.1 = r2.2.1 := by
  rcases h1 with ⟨a1, a2, a3⟩ | ⟨a1, sk1, c1, pr1, ch1, a2, a3, a4, a5, -⟩
  · rcases h2 with ⟨b1, b2, -⟩ | ⟨-, sk2, c2, pr2, ch2, b2, -, b4, -⟩
    · exact ⟨by rw [a1, b1], by rw [a2, b2]⟩
    · have := a3 c2 (by rw [b2]; simp)
      rw [b4] at this
      exact absurd this (by decide)
  · rcases h2 with ⟨-, -, b3⟩ | ⟨b1, sk2, c2, pr2, ch2, b2, b3, b4, b5, -⟩
    · have := b3 c1 (by rw [a2]; simp)
      rw [a4] at this
      exact absurd this (by decide)
    · have f1 := find?_first (fun x => matchRec flt x.2) sk1 c1 (candidates ch1 c1.1.slotNo) a3 a4
      have f2 := find?_first (fun x => matchRec flt x.2) sk2 c2 (candidates ch2 c2.1.slotNo) b3 b4
      rw [← a2] at f1
      rw [← b2, f1] at f2
      simp only [Option.some.injEq] at f2
      exact ⟨by rw [a1, b1], by rw [a5, b5, f2]⟩

/-- Runs of `scanNext` calls on a positioned scanner, with fuel for every record
and page of the chain: every call has a result, the scanner moves along the
chain only, and every RID returned with `OK` names a stored record. -/
theorem scanCalls_spec (fuel : Nat) (tmpRid outRid : RID) (k : Nat) :
    ∀ (h : HeapFileScan) (s : Store) (chain : List Page), Positioned h s chain →
    (chainRecords chain).length + chain.length ≤ fuel →
    ∃ res hk sk, scanCalls fuel tmpRid outRid k h s = some (res, hk, sk) ∧ res.length = k ∧
      Advanced h s hk sk chain ∧ ∀ x ∈ res, x.1 = .OK → Stored s x.2 := by
  induction k with
  | zero =>
    intro h s chain hp _
    exact ⟨[], h, s, rfl, rfl, Advanced.refl hp, by simp⟩
  | succ k ih =>
    intro h s chain hp hfuel
    have hf1 : (candidates chain h.curRec.slotNo).length + chain.length ≤ fuel := by
      have := candidates_length_le chain h.curRec.slotNo
      omega
    obtain ⟨r, hr1, hr2⟩ := scanNext_spec h s chain tmpRid outRid hp fuel hf1
    have adv := scanNext_frame h s chain tmpRid outRid fuel r hp hr1
    obtain ⟨pre, chain1, e1, p1⟩ := adv.rest
    have hf2 : (chainRecords chain1).length + chain1.length ≤ fuel := by
      have l1 := chainRecords_rest_length pre chain1
      rw [← e1] at l1
      have l2 := congrArg List.length e1
      simp only [List.length_append] at l2
      omega
    obtain ⟨res, hk, sk, q1, q2, q3, q4⟩ := ih r.2.2.1 r.2.2.2 chain1 p1 hf2
    refine ⟨(r.1, r.2.1) :: res, hk, sk, ?_, by simp [q2], Advanced.trans adv e1 q3, ?_⟩
    · simp [scanCalls, hr1, q1]
    · intro x hx hok
      rcases List.mem_cons.mp hx with h1 | h1
      · subst h1
        rcases hr2 with ⟨a1, -, -⟩ | ⟨-, sk1, c1, pr1, ch1, a2, -, -, a5, -⟩
        · rw [a1] at hok
          exact absurd hok (by decide)
        · show Stored s r.2.1
          rw [a5]
          exact candidates_stored s chain _ hp.isChain c1 (by rw [a2]; simp)
      · exact Stored_congr s r.2.2.2 x.2 adv.pages (q4 x h1 hok)

/-! ### Mark and reset -/

/-- A scanner that was marked on the first page of `chain` and has moved along
the chain since: `resetScan` returns `OK` and puts it back on the marked
position, positioned on the whole chain again, with the same filter. -/
theorem resetScan_spec (h hk : HeapFileScan) (s sk : Store) (chain : List Page)
    (hp : Positioned h s chain) (adv : Advanced h.markScan.2 s hk sk chain) :
    (hk.resetScan sk).1 = .OK ∧
    (hk.resetScan sk).2.1.curPageNo = h.curPageNo ∧
    (hk.resetScan sk).2.1.curRec = h.curRec ∧
    (hk.resetScan sk).2.1.toScanFilter = h.toScanFilter ∧
    Positioned (hk.resetScan sk).2.1 (hk.resetScan sk).2.2 chain := by
  obtain ⟨pre, chain1, e1, p1⟩ := adv.rest
  have hmp : hk.markedPageNo = h.curPageNo := adv.markedPageNo
  have hmr : hk.markedRec = h.curRec := adv.markedRec
  have hflt : hk.toScanFilter = h.toScanFilter := adv.flt
  have hchain : IsChain sk chain := IsChain_congr s sk chain adv.pages hp.isChain
  by_cases hsame : hk.markedPageNo = hk.curPageNo
  · have e : hk.resetScan sk = (.OK, { hk with curRec := hk.markedRec }, sk) := by
      simp [HeapFileScan.resetScan, hsame]
    rw [e]
    refine ⟨rfl, ?_, hmr, hflt, ⟨hchain, p1.cur, ?_, p1.pinned, p1.quiet⟩⟩
    · show hk.curPageNo = h.curPageNo
      rw [← hsame, hmp]
    · show _ = some hk.curPageNo
      rw [← hsame, hmp]
      exact hp.head
  · have hpg : (sk.deref (some h.curPageNo)).isSome := by
      cases chain with
      | nil => exact absurd hp.isChain (by simp [IsChain])
      | cons pg rest =>
        obtain ⟨d1, d2⟩ := hp.deref
        rw [adv.pages, d2, IsChain_head s pg rest hp.isChain]
        rfl
    obtain ⟨o1, o2, o3, o4, o5, -⟩ := hop_ok sk hk.curPageNo h.curPageNo hk.curDirtyFlag
      p1.quiet p1.pinned hpg
    have hsome : hk.curPage.isSome = true := by rw [p1.cur]; rfl
    have e : hk.resetScan sk = (.OK, hk.moveTo h.curPageNo h.curRec,
        (readPage (unPinPage sk hk.curPageNo hk.curDirtyFlag).2 h.curPageNo).2) := by
      have hsame' : ¬ h.curPageNo = hk.curPageNo := by rw [← hmp]; exact hsame
      simp [HeapFileScan.resetScan, hsame', hsome, o1, hmp, hmr, o2, HeapFileScan.moveTo]
    rw [e]
    exact ⟨rfl, rfl, rfl, hflt, ⟨IsChain_congr sk _ chain o4 hchain, rfl, hp.head, o5, o3⟩⟩

/-- C12: a scanner whose cursor is pinned on the first page of `chain`, a page
chain of the file, with a page store that makes no call fail and fuel for every
record and page of the chain.  After `markScan` and `k` calls of `scanNext`
(which leave the pages as they are), `resetScan` returns `OK`, `curPageNo` and
`curRec` have their values at the mark, and the next `scanNext` returns the
status and the RID that `scanNext` returns right after the `markScan`. -/
theorem resetScan_restores_mark (h : HeapFileScan) (s : Store) (chain : List Page)
    (hp : Positioned h s chain) (k fuel : Nat) (tmpRid outRid : RID)
    (hfuel : (chainRecords chain).length + chain.length ≤ fuel) :
    ∃ res hk sk, scanCalls fuel tmpRid outRid k h.markScan.2 s = some (res, hk, sk) ∧
      (hk.resetScan sk).1 = .OK ∧
      (hk.resetScan sk).2.1.curPageNo = h.curPageNo ∧
      (hk.resetScan sk).2.1.curRec = h.curRec ∧
      ∃ r1 r2, h.markScan.2.scanNext fuel tmpRid s outRid = some r1 ∧
        (hk.resetScan sk).2.1.scanNext fuel tmpRid (hk.resetScan sk).2.2 outRid = some r2 ∧
        r2.1 = r1.1 ∧ r2.2.1 = r1.2.1 := by
  have hpm : Positioned h.markScan.2 s chain :=
    ⟨hp.isChain, hp.cur, hp.head, hp.pinned, hp.quiet⟩
  obtain ⟨res, hk, sk, q1, -, q3, -⟩ := scanCalls_spec fuel tmpRid outRid k _ s chain hpm hfuel
  obtain ⟨t1, t2, t3, t4, t5⟩ := resetScan_spec h hk s sk chain hp q3
  have hf1 : (candidates chain h.curRec.slotNo).length + chain.length ≤ fuel := by
    have := candidates_length_le chain h.curRec.slotNo
    omega
  obtain ⟨r1, a1, a2⟩ := scanNext_spec h.markScan.2 s chain tmpRid outRid hpm fuel hf1
  obtain ⟨r2, b1, b2⟩ := scanNext_spec (hk.resetScan sk).2.1 (hk.resetScan sk).2.2 chain tmpRid
    outRid t5 fuel (by rw [t3]; exact hf1)
  rw [t3, t4] at b2
  have hd := ScanResult_det _ _ _ _ _ _ _ b2 a2
  exact ⟨res, hk, sk, q1, t1, t2, t3, r1, r2, a1, b1, hd.1, hd.2⟩

/-- The scanner of `threePageScanner`, marked before the first record, after two
`scanNext` calls and `resetScan`. -/
theorem resetScan_restores_mark_witness :
    ∃ res hk sk, scanCalls 6 NULLRID NULLRID 2 threePageScanner.1.markScan.2 threePageScanner.2
        = some (res, hk, sk) ∧
      (hk.resetScan sk).1 = .OK ∧
      (hk.resetScan sk).2.1.curPageNo = threePageScanner.1.curPageNo ∧
      (hk.resetScan sk).2.1.curRec = threePageScanner.1.curRec ∧
      ∃ r1 r2, threePageScanner.1.markScan.2.scanNext 6 NULLRID threePageScanner.2 NULLRID
          = some r1 ∧
        (hk.resetScan sk).2.1.scanNext 6 NULLRID (hk.resetScan sk).2.2 NULLRID = some r2 ∧
        r2.1 = r1.1 ∧ r2.2.1 = r1.2.1 :=
  resetScan_restores_mark threePageScanner.1 threePageScanner.2 threePageChain
    ⟨by decide, by decide, by decide, by decide, by decide⟩ 2 6 NULLRID NULLRID (by decide)

/-! ### Deleting the current record of a scan -/

theorem IsChain_tail (s : Store) (a : Page) (l : List Page) (hc : IsChain s (a :: l))
    (hl : l ≠ []) : IsChain s l := by
  cases l with
  | nil => exact absurd rfl hl
  | cons b l' =>
    simp only [IsChain] at hc
    exact hc.2.2.2

theorem IsChain_suffix (s : Store) (pre : List Page) (pg : Page) (rest : List Page)
    (hc : IsChain s (pre ++ pg :: rest)) : IsChain s (pg :: rest) := by
  induction pre with
  | nil => exact hc
  | cons a pre' ih => exact ih (IsChain_tail s a _ hc (by simp))

/-- A page has one chain: the pages that follow it are determined by the links. -/
theorem IsChain_unique (s : Store) : ∀ (a b : List Page) (pg : Page),
    IsChain s (pg :: a) → IsChain s (pg :: b) → a = b := by
  intro a
  induction a with
  | nil =>
    intro b pg ha hb
    cases b with
    | nil => rfl
    | cons pb b' =>
      simp only [IsChain] at ha hb
      exact absurd ha.2 hb.2.2.1
  | cons pa a' ih =>
    intro b pg ha hb
    cases b with
    | nil =>
      simp only [IsChain] at ha hb
      exact absurd hb.2 ha.2.2.1
    | cons pb b' =>
      simp only [IsChain] at ha hb
      have e : pa.curPage = pb.curPage := by rw [← ha.2.1, ← hb.2.1]
      have d1 := IsChain_head s pa a' ha.2.2.2
      have d2 := IsChain_head s pb b' hb.2.2.2
      rw [e, d2] at d1
      simp only [Option.some.injEq] at d1
      subst d1
      rw [ih b' pb ha.2.2.2 hb.2.2.2]

/-- The first page of a chain does not come again later in the chain. -/
theorem IsChain_head_fresh (s : Store) (pg : Page) (rest : List Page)
    (hc : IsChain s (pg :: rest)) : ∀ pg' ∈ rest, pg'.curPage ≠ pg.curPage := by
  intro pg' hm he
  have d1 := IsChain_mem s _ hc pg' (by simp [hm])
  have d2 := IsChain_head s pg rest hc
  rw [he, d2] at d1
  simp only [Option.some.injEq] at d1
  subst d1
  obtain ⟨a, b, e⟩ := List.append_of_mem hm
  have hs : IsChain s (pg :: b) := by
    apply IsChain_suffix s (pg :: a) pg b
    rw [e] at hc
    exact hc
  have hu := IsChain_unique s rest b pg hc hs
  rw [e] at hu
  have := congrArg List.length hu
  simp at this
  omega

theorem IsChain_congr_mem (s s' : Store) (chain : List Page)
    (h : ∀ pg ∈ chain, s'.deref (some pg.curPage) = s.deref (some pg.curPage))
    (hc : IsChain s chain) : IsChain s' chain := by
  induction chain with
  | nil => exact hc
  | cons pg rest ih =>
    cases rest with
    | nil =>
      simp only [IsChain] at hc ⊢
      exact ⟨by rw [h pg (by simp)]; exact hc.1, hc.2⟩
    | cons pg' rest' =>
      simp only [IsChain] at hc ⊢
      exact ⟨by rw [h pg (by simp)]; exact hc.1, hc.2.1, hc.2.2.1,
        ih (fun x hx => h x (List.mem_cons_of_mem _ hx)) hc.2.2.2⟩

theorem deref_setPage (s : Store) (q : Int) (pg' : Page) (hq : (s.deref (some q)).isSome)
    (x : Int) :
    (s.setPage q pg').deref (some x) = if x = q then some pg' else s.deref (some x) := by
  cases hf : getFrame s.frames q with
  | none => simp [Store.deref, Store.frame?, hf] at hq
  | some f =>
    by_cases hx : x = q <;>
      simp [Store.setPage, Store.frame?, hf, Store.setFrame, Store.deref, getFrame_putFrame, hx]

theorem pinCnt_setPage (s : Store) (q : Int) (pg' : Page) (x : Int) :
    (s.setPage q pg').pinCnt x = s.pinCnt x := by
  cases hf : getFrame s.frames q with
  | none => simp [Store.setPage, Store.frame?, hf]
  | some f =>
    by_cases hx : x = q
    · subst hx
      simp [Store.setPage, Store.frame?, hf, Store.setFrame, Store.pinCnt, getFrame_putFrame]
    · simp [Store.setPage, Store.frame?, hf, Store.setFrame, Store.pinCnt, getFrame_putFrame, hx]

theorem filter_set_none_length (l : List (Option Record)) (n : Nat) :
    ((l.set n none).filter (fun o => o.isSome)).length
      ≤ (l.filter (fun o => o.isSome)).length := by
  induction l generalizing n with
  | nil => simp
  | cons a t ih =>
    cases n with
    | zero =>
      cases a with
      | none => simp
      | some r => simp
    | succ m =>
      have := ih m
      cases a with
      | none => simpa using this
      | some r => simpa using this

theorem slot?_set_none (pg : Page) (k : Int) :
    ({ pg with slots := pg.slots.set k.toNat none } : Page).slot? k = none := by
  unfold Page.slot?
  split
  · rfl
  · simp only [List.getD_eq_getElem?_getD, List.getElem?_set, if_true]
    split <;> rfl

theorem setPage_fields (s : Store) (q : Int) (pg' : Page) :
    (s.setPage q pg').hdr = s.hdr ∧ (s.setPage q pg').script = s.script := by
  unfold Store.setPage
  split <;> simp [Store.setFrame]

/-- What `Page::deleteRecord` does to a page: number and link stay, the slot named
by the RID is empty afterwards, every other slot is as before, and the status is
`OK` exactly when the slot held a record. -/
theorem Page.deleteRecord_props (pg : Page) (rid : RID) :
    (pg.deleteRecord rid).2.curPage = pg.curPage ∧
    (pg.deleteRecord rid).2.nextPage = pg.nextPage ∧
    (pg.deleteRecord rid).2.slot? rid.slotNo = none ∧
    (∀ k, k ≠ rid.slotNo → (pg.deleteRecord rid).2.slot? k = pg.slot? k) ∧
    (pg.deleteRecord rid).2.records.length ≤ pg.records.length ∧
    ((pg.deleteRecord rid).1 = .OK ↔ (pg.slot? rid.slotNo).isSome = true) := by
  unfold Page.deleteRecord
  cases hs : pg.slot? rid.slotNo with
  | none => simp [hs]
  | some r0 =>
    refine ⟨rfl, rfl, slot?_set_none pg rid.slotNo, ?_, ?_, by simp⟩
    · intro k hk
      unfold Page.slot?
      by_cases hk0 : k < 0
      · simp [hk0]
      · have hr0 : ¬ rid.slotNo < 0 := by
          intro hneg
          simp [Page.slot?, hneg] at hs
        have hne : rid.slotNo.toNat ≠ k.toNat := by omega
        simp [hk0, List.getD_eq_getElem?_getD, List.getElem?_set, hne]
    · simp only [Page.records, Page.recordsFrom, List.length_map, occupiedFrom_length,
        List.drop_zero]
      exact filter_set_none_length _ _

/-- The page numbers of a chain are pairwise distinct. -/
theorem IsChain_nodup (s : Store) (chain : List Page) (hc : IsChain s chain) :
    (chain.map Page.curPage).Nodup := by
  induction chain with
  | nil => simp
  | cons a l ih =>
    have hfresh := IsChain_head_fresh s a l hc
    rw [List.map_cons, List.nodup_cons]
    refine ⟨?_, ?_⟩
    · intro hm
      obtain ⟨pg', m, e⟩ := List.mem_map.mp hm
      exact hfresh pg' m e
    · cases l with
      | nil => simp
      | cons b l' => exact ih (IsChain_tail s a _ hc (by simp))

/-- Replacing the content of one page of a chain by a page with the same number
and link gives a chain again. -/
theorem IsChain_set_mid (s s' : Store) (pre : List Page) (pg pgD : Page) (rest : List Page)
    (hc : IsChain s (pre ++ pg :: rest))
    (hd : ∀ q, s'.deref (some q) = if q = pg.curPage then some pgD else s.deref (some q))
    (hcur : pgD.curPage = pg.curPage) (hnext : pgD.nextPage = pg.nextPage) :
    IsChain s' (pre ++ pgD :: rest) := by
  induction pre with
  | nil =>
    simp only [List.nil_append] at hc ⊢
    have hfresh := IsChain_head_fresh s pg rest hc
    have hhead : s'.deref (some pgD.curPage) = some pgD := by rw [hd, if_pos hcur]
    cases rest with
    | nil =>
      simp only [IsChain] at hc ⊢
      exact ⟨hhead, by rw [hnext]; exact hc.2⟩
    | cons b rest' =>
      simp only [IsChain] at hc ⊢
      refine ⟨hhead, by rw [hnext]; exact hc.2.1, by rw [hnext]; exact hc.2.2.1, ?_⟩
      apply IsChain_congr_mem s s' _ _ hc.2.2.2
      intro p hm
      rw [hd, if_neg (hfresh p hm)]
  | cons a pre' ih =>
    have hn := IsChain_nodup s _ hc
    have hne : a.curPage ≠ pg.curPage := by
      intro he
      simp only [List.cons_append, List.map_cons, List.nodup_cons, List.map_append,
        List.mem_append, List.mem_cons, List.mem_map] at hn
      exact hn.1 (Or.inr (Or.inl he))
    have ha : s'.deref (some a.curPage) = some a := by
      rw [hd, if_neg hne]
      exact IsChain_head s a _ hc
    have htail := ih (IsChain_tail s a _ hc (by simp))
    cases pre' with
    | nil =>
      simp only [List.cons_append, List.nil_append, IsChain] at hc htail ⊢
      exact ⟨ha, by rw [hcur]; exact hc.2.1, hc.2.2.1, htail⟩
    | cons b pre'' =>
      simp only [List.cons_append, IsChain] at hc htail ⊢
      exact ⟨ha, hc.2.1, hc.2.2.1, htail⟩

theorem Stored_of_deleted (s s' : Store) (pg : Page) (cur r : RID)
    (hpg : s.deref (some pg.curPage) = some pg)
    (hd : ∀ q, s'.deref (some q)
      = if q = pg.curPage then some (pg.deleteRecord cur).2 else s.deref (some q))
    (hs : Stored s' r) : Stored s r := by
  obtain ⟨p, e1, e2⟩ := hs
  obtain ⟨-, -, d3, d4, -, -⟩ := Page.deleteRecord_props pg cur
  rw [hd] at e1
  by_cases hq : r.pageNo = pg.curPage
  · rw [if_pos hq] at e1
    simp only [Option.some.injEq] at e1
    subst e1
    refine ⟨pg, by rw [hq]; exact hpg, ?_⟩
    by_cases hk : r.slotNo = cur.slotNo
    · rw [hk, d3] at e2
      exact absurd e2 (by decide)
    · rw [← d4 r.slotNo hk]
      exact e2
  · rw [if_neg hq] at e1
    exact ⟨p, e1, e2⟩

/-- The call `deleteRecord` of a scan under way: it has a result, whose status is
`OK` exactly when the slot of the cursor held a record; the slot is empty
afterwards and nothing else on the pages changes; the count of the header, an
`int`, goes down by one; the cursor stays and the page is marked dirty; and the
scan is under way on the chain with the changed page in its place. -/
theorem deleteRecord_frame (marked : Bool) (h : HeapFileScan) (s : Store)
    (pre : List Page) (pg : Page) (rest : List Page)
    (inv : ScanInv marked h s (pre ++ pg :: rest)) (hp : Positioned h s (pg :: rest)) :
    ∃ h' s', h.deleteRecord s = some ((pg.deleteRecord h.curRec).1, h', s') ∧
      s'.hdr.recCnt = wrapInt32 (s.hdr.recCnt - 1) ∧
      h'.curPageNo = h.curPageNo ∧ h'.curRec = h.curRec ∧ h'.curDirtyFlag = true ∧
      (∀ q, s'.deref (some q)
        = if q = pg.curPage then some (pg.deleteRecord h.curRec).2 else s.deref (some q)) ∧
      ScanInv marked h' s' (pre ++ (pg.deleteRecord h.curRec).2 :: rest) ∧
      (chainRecords (pre ++ (pg.deleteRecord h.curRec).2 :: rest)).length
        ≤ (chainRecords (pre ++ pg :: rest)).length := by
  obtain ⟨hd, hno⟩ := hp.deref
  have hd2 : s.deref (some h.curPageNo) = some pg := by rw [← hp.cur]; exact hd
  obtain ⟨d1, d2, d3, d4, d5, d6⟩ := Page.deleteRecord_props pg h.curRec
  have hsf := setPage_fields s h.curPageNo (pg.deleteRecord h.curRec).2
  have hder : ∀ x, (s.setPage h.curPageNo (pg.deleteRecord h.curRec).2).deref (some x)
      = if x = pg.curPage then some (pg.deleteRecord h.curRec).2 else s.deref (some x) := by
    intro x
    rw [deref_setPage s h.curPageNo _ (by rw [hd2]; rfl), hno]
  obtain ⟨sD, hsD⟩ : ∃ sD : Store, sD = { s.setPage h.curPageNo (pg.deleteRecord h.curRec).2 with
      hdr := { (s.setPage h.curPageNo (pg.deleteRecord h.curRec).2).hdr with
        recCnt := wrapInt32 ((s.setPage h.curPageNo (pg.deleteRecord h.curRec).2).hdr.recCnt
          - 1) } } := ⟨_, rfl⟩
  have hder2 : ∀ x, sD.deref (some x)
      = if x = pg.curPage then some (pg.deleteRecord h.curRec).2 else s.deref (some x) := by
    intro x
    rw [hsD]
    exact hder x
  have hchain := IsChain_set_mid s sD pre pg (pg.deleteRecord h.curRec).2 rest inv.isChain
    hder2 d1 d2
  refine ⟨{ ({ h with curDirtyFlag := true } : HeapFileScan) with hdrDirtyFlag := true },
    sD, ?_, ?_, rfl, rfl, rfl, hder2, ⟨hchain, ?_, ?_⟩, ?_⟩
  · rw [hsD]
    simp [HeapFileScan.deleteRecord, hp.cur, hd2]
  · rw [hsD]
    show wrapInt32 ((s.setPage h.curPageNo _).hdr.recCnt - 1) = _
    rw [hsf.1]
  · refine ⟨pre, (pg.deleteRecord h.curRec).2 :: rest, rfl, ⟨?_, hp.cur, ?_, ?_, ?_⟩⟩
    · exact IsChain_suffix _ pre _ rest hchain
    · show _ = some h.curPageNo
      rw [hno]
      simp [d1]
    · rw [hsD]
      show 0 < (s.setPage h.curPageNo _).pinCnt h.curPageNo
      rw [pinCnt_setPage]
      exact hp.pinned
    · rw [hsD]
      show quiet (s.setPage h.curPageNo _).script
      rw [hsf.2]
      exact hp.quiet
  · intro hm
    obtain ⟨pgm, m, e⟩ := inv.mark hm
    rcases List.mem_append.mp m with m1 | m1
    · exact ⟨pgm, List.mem_append.mpr (Or.inl m1), e⟩
    · rcases List.mem_cons.mp m1 with m2 | m2
      · exact ⟨(pg.deleteRecord h.curRec).2, by simp, by rw [d1, ← m2]; exact e⟩
      · exact ⟨pgm, by simp [m2], e⟩
  · simp only [chainRecords_append, chainRecords, List.length_append]
    omega

/-- The call `resetScan` of a scan under way whose mark is set returns `OK` and
puts the cursor on the marked page and record; the pages stay as they are. -/
theorem resetScan_frame (h : HeapFileScan) (s : Store) (full : List Page)
    (inv : ScanInv true h s full) :
    (h.resetScan s).1 = .OK ∧ ScanInv true (h.resetScan s).2.1 (h.resetScan s).2.2 full ∧
    (∀ q, (h.resetScan s).2.2.deref (some q) = s.deref (some q)) := by
  obtain ⟨pre, chain, e1, p1⟩ := inv.pos
  obtain ⟨pgm, m, em⟩ := inv.mark rfl
  by_cases hsame : h.markedPageNo = h.curPageNo
  · have e : h.resetScan s = (.OK, { h with curRec := h.markedRec }, s) := by
      simp [HeapFileScan.resetScan, hsame]
    rw [e]
    exact ⟨rfl, ⟨inv.isChain, ⟨pre, chain, e1, ⟨p1.isChain, p1.cur, p1.head, p1.pinned,
      p1.quiet⟩⟩, inv.mark⟩, fun _ => rfl⟩
  · obtain ⟨a, b, eab⟩ := List.append_of_mem m
    have hdm : s.deref (some h.markedPageNo) = some pgm := by
      rw [← em]
      exact IsChain_mem s full inv.isChain pgm m
    obtain ⟨o1, o2, o3, o4, o5, -⟩ := hop_ok s h.curPageNo h.markedPageNo h.curDirtyFlag
      p1.quiet p1.pinned (by rw [hdm]; rfl)
    have hsome : h.curPage.isSome = true := by rw [p1.cur]; rfl
    have e : h.resetScan s = (.OK, h.moveTo h.markedPageNo h.markedRec,
        (readPage (unPinPage s h.curPageNo h.curDirtyFlag).2 h.markedPageNo).2) := by
      simp [HeapFileScan.resetScan, hsame, hsome, o1, o2, HeapFileScan.moveTo]
    rw [e]
    have hc' := IsChain_congr s _ full o4 inv.isChain
    refine ⟨rfl, ⟨hc', ⟨a, pgm :: b, eab, ⟨?_, rfl, ?_, o5, o3⟩⟩, fun _ => ⟨pgm, m, em⟩⟩, o4⟩
    · apply IsChain_suffix _ a pgm b
      rw [← eab]
      exact hc'
    · simp [HeapFileScan.moveTo, em]

theorem chainRecords_chain_le (pre chain : List Page) (k : Int) :
    (candidates chain k).length + chain.length
      ≤ (chainRecords (pre ++ chain)).length + (pre ++ chain).length := by
  have l1 := candidates_length_le chain k
  have l2 := chainRecords_rest_length pre chain
  simp only [List.length_append]
  omega

/-- The calls of a scan under way on a chain of the file, from a state in which
the slot of `r` is empty, with fuel for every record and page of the chain and no
`resetScan` before the mark is set: every call has a result and no `scanNext`
call returns `OK` with `r`. -/
theorem runScan_spec (fuel : Nat) (r : RID) (ops : List ScanOp) :
    ∀ (marked : Bool) (h : HeapFileScan) (s : Store) (full : List Page),
    ScanInv marked h s full → (chainRecords full).length + full.length ≤ fuel →
    ¬ Stored s r → marksFirst marked ops →
    ∃ res hk sk, runScan fuel ops h s = some (res, hk, sk) ∧
      ∀ x ∈ res, x.1 = .OK → x.2 ≠ r := by
  induction ops with
  | nil =>
    intro marked h s full _ _ _ _
    exact ⟨[], h, s, rfl, by simp⟩
  | cons op rest ih =>
    intro marked h s full inv hfuel hr hm
    obtain ⟨pre, chain, e1, p1⟩ := inv.pos
    cases op with
    | scanNext tmpRid outRid =>
      have hf1 : (candidates chain h.curRec.slotNo).length + chain.length ≤ fuel := by
        have := chainRecords_chain_le pre chain h.curRec.slotNo
        rw [← e1] at this
        omega
      obtain ⟨r1, hr1, hr2⟩ := scanNext_spec h s chain tmpRid outRid p1 fuel hf1
      have adv := scanNext_frame h s chain tmpRid outRid fuel r1 p1 hr1
      obtain ⟨pre', chain1, e2, p2⟩ := adv.rest
      have inv1 : ScanInv marked r1.2.2.1 r1.2.2.2 full :=
        ⟨IsChain_congr s _ full adv.pages inv.isChain,
          ⟨pre ++ pre', chain1, by rw [e1, e2]; simp, p2⟩,
          fun hmk => by rw [adv.markedPageNo]; exact inv.mark hmk⟩
      have hr' : ¬ Stored r1.2.2.2 r := fun hs => hr (Stored_congr s _ r adv.pages hs)
      obtain ⟨res, hk, sk, q1, q2⟩ := ih marked _ _ full inv1 hfuel hr' hm
      refine ⟨(r1.1, r1.2.1) :: res, hk, sk, by simp [runScan, hr1, q1], ?_⟩
      intro x hx hok he
      rcases List.mem_cons.mp hx with h1 | h1
      · subst h1
        rcases hr2 with ⟨a1, -, -⟩ | ⟨-, sk1, c1, pr1, ch1, a2, -, -, a5, -⟩
        · rw [a1] at hok
          exact absurd hok (by decide)
        · apply hr
          rw [← he]
          show Stored s r1.2.1
          rw [a5]
          exact candidates_stored s chain _ p1.isChain c1 (by rw [a2]; simp)
      · exact q2 x h1 hok he
    | markScan =>
      have inv1 : ScanInv true h.markScan.2 s full := by
        refine ⟨inv.isChain, ⟨pre, chain, e1, ⟨p1.isChain, p1.cur, p1.head, p1.pinned,
          p1.quiet⟩⟩, fun _ => ?_⟩
        cases chain with
        | nil => exact absurd p1.isChain (by simp [IsChain])
        | cons pg rest' =>
          obtain ⟨-, hno⟩ := p1.deref
          exact ⟨pg, by rw [e1]; simp, hno.symm⟩
      obtain ⟨res, hk, sk, q1, q2⟩ := ih true _ _ full inv1 hfuel hr hm
      exact ⟨res, hk, sk, by simp [runScan, q1], q2⟩
    | resetScan =>
      obtain ⟨hm1, hm2⟩ := hm
      subst hm1
      obtain ⟨-, inv1, hpages⟩ := resetScan_frame h s full inv
      have hr' : ¬ Stored (h.resetScan s).2.2 r := fun hs => hr (Stored_congr s _ r hpages hs)
      obtain ⟨res, hk, sk, q1, q2⟩ := ih true _ _ full inv1 hfuel hr' hm2
      exact ⟨res, hk, sk, by simp [runScan, q1], q2⟩
    | deleteRecord =>
      cases chain with
      | nil => exact absurd p1.isChain (by simp [IsChain])
      | cons pg rest' =>
        subst e1
        obtain ⟨h', s', t1, -, -, -, -, t6, t7, t8⟩ :=
          deleteRecord_frame marked h s pre pg rest' inv p1
        have hpg : s.deref (some pg.curPage) = some pg :=
          IsChain_mem s _ inv.isChain pg (by simp)
        have hr' : ¬ Stored s' r := fun hs => hr (Stored_of_deleted s s' pg h.curRec r hpg t6 hs)
        have hf2 : (chainRecords (pre ++ (pg.deleteRecord h.curRec).2 :: rest')).length
            + (pre ++ (pg.deleteRecord h.curRec).2 :: rest').length ≤ fuel := by
          simp only [List.length_append, List.length_cons] at hfuel t8 ⊢
          omega
        obtain ⟨res, hk, sk, q1, q2⟩ := ih marked h' s' _ t7 hf2 hr' hm
        exact ⟨res, hk, sk, by simp [runScan, t1, q1], q2⟩

/-- C13: a scan under way on the page chain `full` of the file (cursor pinned on a
page of it, the mark, if set, on a page of it, page store making no call fail,
fuel for every record and page of the chain) whose `scanNext` returned `OK` with
RID `r`.  Then `deleteRecord` returns `OK`; the slot of `r`, which held a record,
is empty afterwards and every other slot and page is as before; `getRecCnt`, an
`int`, is the old count minus one reduced to 32 bits, which is the old count
minus one whenever that is a value of type `int`; `curPageNo` and `curRec` are
the same and the dirty flag of the current page is set; and whatever calls of
`scanNext`, `markScan`, `resetScan` and `deleteRecord` follow (no `resetScan`
before the mark is set), each has a result and no `scanNext` among them returns
`OK` with `r`. -/
theorem deleteRecord_then_scan (marked : Bool) (h0 : HeapFileScan) (s0 : Store)
    (full : List Page) (inv : ScanInv marked h0 s0 full) (fuel : Nat) (tmpRid outRid : RID)
    (hfuel : (chainRecords full).length + full.length ≤ fuel)
    (r : RID) (h : HeapFileScan) (s : Store)
    (hscan : h0.scanNext fuel tmpRid s0 outRid = some (.OK, r, h, s)) :
    ∃ h' s' pg pgD rec, h.deleteRecord s = some (.OK, h', s') ∧
      s.deref (some r.pageNo) = some pg ∧ pg.slot? r.slotNo = some rec ∧
      s'.deref (some r.pageNo) = some pgD ∧ pgD.slot? r.slotNo = none ∧
      (∀ k, k ≠ r.slotNo → pgD.slot? k = pg.slot? k) ∧
      (∀ q, q ≠ r.pageNo → s'.deref (some q) = s.deref (some q)) ∧
      h'.getRecCnt s' = wrapInt32 (h.getRecCnt s - 1) ∧
      (isInt32 (h.getRecCnt s - 1) → h'.getRecCnt s' = h.getRecCnt s - 1) ∧
      h'.curPageNo = h.curPageNo ∧ h'.curRec = h.curRec ∧ h'.curRec = r ∧
      h'.curDirtyFlag = true ∧
      ∀ ops, marksFirst marked ops →
        ∃ res hk sk, runScan fuel ops h' s' = some (res, hk, sk) ∧
          ∀ x ∈ res, x.1 = .OK → x.2 ≠ r := by
  obtain ⟨pre0, chain0, e0, hp⟩ := inv.pos
  have hf1 : (candidates chain0 h0.curRec.slotNo).length + chain0.length ≤ fuel := by
    have := chainRecords_chain_le pre0 chain0 h0.curRec.slotNo
    rw [← e0] at this
    omega
  obtain ⟨r', hr1, hr2⟩ := scanNext_spec h0 s0 chain0 tmpRid outRid hp fuel hf1
  have adv := scanNext_frame h0 s0 chain0 tmpRid outRid fuel r' hp hr1
  rw [hscan] at hr1
  simp only [Option.some.injEq] at hr1
  subst hr1
  rcases hr2 with ⟨a1, -, -⟩ | ⟨-, sk1, c, pre, chain1, a2, -, -, a5, a6, a7, a8, a9, -⟩
  · simp at a1
  · simp only at a5 a6 a8 a9 adv
    cases chain1 with
    | nil => exact absurd a9.isChain (by simp [IsChain])
    | cons pg rest =>
      obtain ⟨hd, hno⟩ := a9.deref
      have hpgno : pg.curPage = c.1.pageNo := by simpa using a8
      obtain ⟨pgc, m, e1, e2⟩ := mem_candidates chain0 h0.curRec.slotNo c (by rw [a2]; simp)
      have d1 := IsChain_mem s0 chain0 hp.isChain pgc m
      have d2 := IsChain_mem s0 chain0 hp.isChain pg (by rw [a7]; simp)
      rw [← e1, ← hpgno, d2] at d1
      simp only [Option.some.injEq] at d1
      subst d1
      have hfull : full = (pre0 ++ pre) ++ pg :: rest := by rw [e0, a7]; simp
      have inv1 : ScanInv marked h s ((pre0 ++ pre) ++ pg :: rest) := by
        rw [← hfull]
        exact ⟨IsChain_congr s0 _ full adv.pages inv.isChain, ⟨pre0 ++ pre, pg :: rest, hfull, a9⟩,
          fun hmk => by rw [adv.markedPageNo]; exact inv.mark hmk⟩
      obtain ⟨h', s', t1, t2, t3, t4, t5, t6, t7, t8⟩ :=
        deleteRecord_frame marked h s (pre0 ++ pre) pg rest inv1 a9
      obtain ⟨p1, p2, p3, p4, p5, p6⟩ := Page.deleteRecord_props pg h.curRec
      have hslot : pg.slot? h.curRec.slotNo = some c.2 := by rw [a6]; exact e2
      have hok : (pg.deleteRecord h.curRec).1 = .OK := p6.mpr (by rw [hslot]; rfl)
      have hrc : r = h.curRec := by rw [a6, a5]
      have hrp : r.pageNo = pg.curPage := by rw [a5, hpgno]
      have hsd : s.deref (some pg.curPage) = some pg := by
        rw [adv.pages]
        exact d2
      refine ⟨h', s', pg, (pg.deleteRecord h.curRec).2, c.2, by rw [t1, hok], ?_, ?_, ?_, ?_,
        ?_, ?_, ?_, ?_, t3, t4, by rw [t4, a6, a5], t5, ?_⟩
      · rw [hrp]; exact hsd
      · rw [hrc]; exact hslot
      · rw [t6, if_pos hrp]
      · rw [hrc]; exact p3
      · intro k hk
        exact p4 k (by rw [← hrc]; exact hk)
      · intro q hq
        rw [t6, if_neg (by rw [← hrp]; exact hq)]
      · simp [HeapFile.getRecCnt, t2]
      · intro hi
        have : h'.getRecCnt s' = wrapInt32 (h.getRecCnt s - 1) := by
          simp [HeapFile.getRecCnt, t2]
        rw [this]
        exact wrapInt32_of_range _ hi.1 hi.2
      · intro ops hm
        have hns : ¬ Stored s' r := by
          rintro ⟨p, q1, q2⟩
          rw [t6, if_pos hrp] at q1
          simp only [Option.some.injEq] at q1
          subst q1
          rw [hrc, p3] at q2
          exact absurd q2 (by decide)
        have hf2 : (chainRecords ((pre0 ++ pre) ++ (pg.deleteRecord h.curRec).2 :: rest)).length
            + ((pre0 ++ pre) ++ (pg.deleteRecord h.curRec).2 :: rest).length ≤ fuel := by
          rw [hfull] at hfuel
          simp only [List.length_append, List.length_cons] at hfuel t8 ⊢
          omega
        exact runScan_spec fuel r ops marked h' s' _ t7 hf2 hns hm

/-- The scanner of `threePageScanner` after `markScan` and the `scanNext` that
returned the RID (2,0).  After `deleteRecord`, a `resetScan` and two `scanNext`
calls return (3,0) and (4,0); without the `deleteRecord` they return (2,0) and
(3,0). -/
theorem deleteRecord_then_scan_witness :
    afterReset true = some [(.OK, ⟨3, 0⟩), (.OK, ⟨4, 0⟩)] ∧
    afterReset false = some [(.OK, ⟨2, 0⟩), (.OK, ⟨3, 0⟩)] ∧
    ∃ h' s' pg pgD rec, markedFirst.2.2.1.deleteRecord markedFirst.2.2.2 = some (.OK, h', s') ∧
      markedFirst.2.2.2.deref (some 2) = some pg ∧ pg.slot? 0 = some rec ∧
      s'.deref (some 2) = some pgD ∧ pgD.slot? 0 = none ∧
      (∀ k, k ≠ 0 → pgD.slot? k = pg.slot? k) ∧
      (∀ q, q ≠ 2 → s'.deref (some q) = markedFirst.2.2.2.deref (some q)) ∧
      h'.getRecCnt s' = markedFirst.2.2.1.getRecCnt markedFirst.2.2.2 - 1 ∧
      h'.curPageNo = markedFirst.2.2.1.curPageNo ∧ h'.curRec = markedFirst.2.2.1.curRec ∧
      h'.curRec = ⟨2, 0⟩ ∧ h'.curDirtyFlag = true ∧
      ∀ ops, marksFirst true ops →
        ∃ res hk sk, runScan 6 ops h' s' = some (res, hk, sk) ∧
          ∀ x ∈ res, x.1 = .OK → x.2 ≠ ⟨2, 0⟩ := by
  refine ⟨by decide, by decide, ?_⟩
  obtain ⟨h', s', pg, pgD, rec, a1, a2, a3, a4, a5, a6, a7, -, a9, a10, a11, a12, a13, a14⟩ :=
    deleteRecord_then_scan true threePageScanner.1.markScan.2 threePageScanner.2 threePageChain
      ⟨by decide, ⟨[], threePageChain, rfl,
        ⟨by decide, by decide, by decide, by decide, by decide⟩⟩,
        fun _ => ⟨⟨2, 3, [some rec3]⟩, by decide, by decide⟩⟩
      6 NULLRID NULLRID (by decide) ⟨2, 0⟩ markedFirst.2.2.1 markedFirst.2.2.2 (by decide)
  exact ⟨h', s', pg, pgD, rec, a1, a2, a3, a4, a5, a6, a7, a9 (by decide), a10, a11, a12, a13,
    a14⟩

end Heapfile
